import Mathlib

/-!
# A shallow embedding of the `mlp` multi-layer perceptron

The C++ sources embedded here are `mlp/util.hpp`, `mlp/loss.hpp`,
`mlp/activation.hpp`, `mlp/inner_product_layer.hpp`, `mlp/network.hpp` and the
`on_epoch` callable of `example/iris.cpp`.

Modelling conventions.

* `float_t` is modelled by an arbitrary field `α` (instantiate with `ℚ` to
  compute, with `ℝ` for analysis); rounding is not modelled.  Code that
  compares scalars (`std::abs`, `std::min`, `std::max`, `std::max_element`,
  `diff < 0`) is embedded over a linear ordered field, so there is no NaN.
  `std::exp` and `std::tanh` are arguments of the activation strategies; the
  theorems about derivatives instantiate them with `Real.exp` and `Real.tanh`
  and state partial derivatives with `HasDerivAt`.  A floating-point division
  by zero raises nothing and gives no number: the quotient of `loss_mean` is
  an `Option`, `none` for an empty dataset.
* `vec_t` is `List α`.  `size_t` is `Nat`: widths and vector lengths are taken
  small enough for the products `in * out` and the indices
  `out * input_size + in` to be exact, and for the `unsigned int` counter of
  `update_weights` to reach `bias.size()`.
* A member function that mutates its object is a function from the state to a
  `Result`: either `ok val state` or `throw why state`, where `throw` is a
  raised `mlp_error` and carries the state left behind by the partial run.
* `v[i]` is `vget v i`, `v[i] = x` is `vset v i x`.  C++ leaves these undefined
  when `i` is out of range; `vget` then reads `0` and `vset` does nothing.
  The theorems below carry shape hypotheses under which every access made by
  the code is in range.
* `for (i = 0; i < n; ++i) body` is `(List.range n).foldl body`.
-/

namespace mlp

/-- Outcome of a call: a normal return with a value, or a thrown `mlp_error`
with its message; both carry the state of the mutated object. -/
inductive Result (σ β : Type) where
  | ok (val : β) (state : σ)
  | throw (why : String) (state : σ)

namespace Result

/-- The state left by the call, whether it returned or threw. -/
def state {σ β : Type} : Result σ β → σ
  | ok _ s => s
  | throw _ s => s

/-- The call raised an `mlp_error`. -/
def failed {σ β : Type} : Result σ β → Bool
  | ok _ _ => false
  | throw _ _ => true

end Result

section vectors

variable {α : Type}

/-- Read `v[i]`. -/
def vget [Zero α] (v : List α) (i : Nat) : α := v.getD i 0

/-- Write `v[i] = x`. -/
def vset (v : List α) (i : Nat) (x : α) : List α := v.set i x

/-- The call `std::fill(v.begin(), v.end(), x)`. -/
def vfill (v : List α) (x : α) : List α := List.replicate v.length x

/-- The call `v.resize(n)`: keeps the first `n` entries, pads with zeros. -/
def vresize [Zero α] (v : List α) (n : Nat) : List α :=
  v.take n ++ List.replicate (n - v.length) 0

end vectors

/-- An activation strategy (`sigmoid_activation`, `tanh_activation`): the
forward map `f` and the derivative `df` taken at the forward output. -/
structure Activation (α : Type) where
  f : α → α
  df : α → α

/-- A loss strategy (`error_loss`, `absolute_loss`, `mse_loss`): the cost `f`
of `predicted` against `observed`, and `df predicted observed result`, which
returns the caller's `result` vector after the gradient was written into it. -/
structure LossFunction (α : Type) where
  f : List α → List α → α
  df : List α → List α → List α → List α

/-- The member data of `inner_product_layer`. -/
structure Layer (α : Type) where
  input_size : Nat
  output_size : Nat
  weights : List α
  bias : List α
  input : List α
  output : List α
  input_grad : List α
  output_grad : List α
  grad_weights : List α
  grad_bias : List α

/-- The member data of `network` (`layers`, `alpha`).  The `on_epoch` member is
an argument of `train`, since the callable may capture the network itself. -/
structure network (α : Type) where
  layers : List (Layer α)
  alpha : α

section construction

variable {α : Type} [Field α]

/-- The constructor `inner_product_layer(in, out)`.  `rnd` is the sequence of
values that `dist(rand)` yields from the process-wide generator and `pos` the
number of values drawn so far; the `in * out` weights are the next draws. -/
def Layer.new (i o : Nat) (rnd : Nat → α) (pos : Nat) : Layer α :=
  { input_size := i
    output_size := o
    weights := (List.range (i * o)).foldl (fun w k => vset w k (rnd (pos + k)))
      (List.replicate (i * o) 0)
    bias := List.replicate o 0
    input := List.replicate i 0
    output := List.replicate o 0
    input_grad := List.replicate i 0
    output_grad := List.replicate o 0
    grad_weights := List.replicate (i * o) 0
    grad_bias := List.replicate o 0 }

/-- The loop of `network::network`: one `emplace_back(input_size, *it)` per
remaining dimension, each followed by `input_size = *it`. -/
def build_layers (rnd : Nat → α) : Nat → List Nat → Nat → List (Layer α)
  | _, [], _ => []
  | i, o :: rest, pos => Layer.new i o rnd pos :: build_layers rnd o rest (pos + i * o)

/-- The constructor `network(dimensions)`; `alpha` has its default `0.01`. -/
def network.new (dimensions : List Nat) (rnd : Nat → α) : Result Unit (network α) :=
  match dimensions with
  | [] => .throw "Dimensions must be greater or equal to 1" ()
  | input_size :: rest => .ok { layers := build_layers rnd input_size rest 0, alpha := 1 / 100 } ()

end construction

section layer

variable {α : Type} [Field α]

/-- The inner loop of `inner_product_layer::forward`: `total` after the
products `weights[out * input_size + in] * input[in]` were added to `0`. -/
def Layer.forward_total (l : Layer α) (out : Nat) : α :=
  (List.range l.input_size).foldl
    (fun total i => total + vget l.weights (out * l.input_size + i) * vget l.input i) 0

/-- The member `inner_product_layer::forward`. -/
def Layer.forward (A : Activation α) (l : Layer α) : Result (Layer α) Unit :=
  if l.input.length ≠ l.input_size then
    .throw "input vectordoes not match input size" l
  else
    .ok () { l with
      output := (List.range l.output_size).foldl
        (fun output out => vset output out (A.f (l.forward_total out + vget l.bias out)))
        l.output }

/-- The body of the inner loop of `inner_product_layer::backward`. -/
def Layer.backward_in (grad : α) (out : Nat) (l : Layer α) (i : Nat) : Layer α :=
  { l with
    input_grad := vset l.input_grad i
      (vget l.input_grad i + grad * vget l.weights (out * l.input_size + i))
    grad_weights := vset l.grad_weights (out * l.input_size + i)
      (vget l.grad_weights (out * l.input_size + i) + vget l.input i * grad) }

/-- The local `grad` of `inner_product_layer::backward` for output unit `out`:
`activator.df(output[out]) * output_grad[out]`. -/
def Layer.grad (A : Activation α) (l : Layer α) (out : Nat) : α :=
  A.df (vget l.output out) * vget l.output_grad out

/-- The body of the outer loop of `inner_product_layer::backward`. -/
def Layer.backward_out (A : Activation α) (l : Layer α) (out : Nat) : Layer α :=
  let grad := l.grad A out
  let l1 := (List.range l.input_size).foldl (Layer.backward_in grad out) l
  { l1 with grad_bias := vset l1.grad_bias out (vget l1.grad_bias out + grad) }

/-- The member `inner_product_layer::backward`. -/
def Layer.backward (A : Activation α) (l : Layer α) : Result (Layer α) Unit :=
  if l.output_grad.length ≠ l.output_size then
    .throw "output gradient vector does not match output size" l
  else
    .ok () ((List.range l.output_size).foldl (Layer.backward_out A)
      { l with input_grad := vfill l.input_grad 0 })

/-- The member `inner_product_layer::clear_deltas`. -/
def Layer.clear_deltas (l : Layer α) : Layer α :=
  { l with grad_weights := vfill l.grad_weights 0, grad_bias := vfill l.grad_bias 0 }

/-- The member `inner_product_layer::update_weights`. -/
def Layer.update_weights (alpha : α) (l : Layer α) : Layer α :=
  let weights := (List.range (l.input_size * l.output_size)).foldl
    (fun w i => vset w i (vget w i - alpha * vget l.grad_weights i)) l.weights
  let bias := (List.range l.bias.length).foldl
    (fun b i => vset b i (vget b i - alpha * vget l.grad_bias i)) l.bias
  Layer.clear_deltas { l with weights := weights, bias := bias }

end layer

section losses

variable {α : Type} [Field α]

/-- The strategy `mse_loss`. -/
def mse_loss : LossFunction α :=
  { df := fun predicted observed result =>
      let factor : α := 2 / (predicted.length : α)
      (List.range predicted.length).foldl
        (fun r i => vset r i (factor * (vget predicted i - vget observed i))) result
    f := fun predicted observed =>
      (List.range predicted.length).foldl
        (fun sum i => sum + (vget predicted i - vget observed i)
          * (vget predicted i - vget observed i)) 0 / (predicted.length : α) }

end losses

section net

variable {α : Type} [Field α]

/-- The accessor `network::output_size`: `layers.back().output_size`
(undefined in C++ for a network without layers; `0` here). -/
def network.output_size (n : network α) : Nat :=
  match n.layers.getLast? with
  | some l => l.output_size
  | none => 0

/-- The accessor `network::input_size`: `layers.front().input_size`
(undefined in C++ for a network without layers; `0` here). -/
def network.input_size (n : network α) : Nat :=
  match n.layers.head? with
  | some l => l.input_size
  | none => 0

/-- The accessor `network::output`: `layers.back().output`
(undefined in C++ for a network without layers; empty here). -/
def network.output (n : network α) : List α :=
  match n.layers.getLast? with
  | some l => l.output
  | none => []

/-- The loop of `network::forward` from a layer on: `x` is the vector assigned
to the layer's `input` (the sample for the first layer, the output of the
layer before for the others); the layer runs `forward()` and hands its output
to the next one.  A throw leaves the layers after it untouched. -/
def forward_layers (A : Activation α) : List α → List (Layer α) → Result (List (Layer α)) Unit
  | _, [] => .ok () []
  | x, l :: rest =>
    match Layer.forward A { l with input := x } with
    | .throw why l1 => .throw why (l1 :: rest)
    | .ok _ l1 =>
      match rest with
      | [] => .ok () [l1]
      | _ :: _ =>
        match forward_layers A l1.output rest with
        | .throw why rest1 => .throw why (l1 :: rest1)
        | .ok _ rest1 => .ok () (l1 :: rest1)

/-- The member `network::forward`.  The assignment `input() = in` is the
first step of `forward_layers`; it is undefined in C++ for a network without
layers, where this function returns at once. -/
def network.forward (A : Activation α) (n : network α) (sample : List α) :
    Result (network α) Unit :=
  match forward_layers A sample n.layers with
  | .throw why ls => .throw why { n with layers := ls }
  | .ok _ ls => .ok () { n with layers := ls }

/-- The loop of `network::backward` over the layers in reverse order (the list
argument starts at the current layer of the reverse iteration): `g` is the
vector assigned to the layer's `output_grad` (the error for the last layer, the
`input_grad` of the layer after for the others). -/
def backward_layers (A : Activation α) : List α → List (Layer α) → Result (List (Layer α)) Unit
  | _, [] => .ok () []
  | g, l :: prev =>
    match Layer.backward A { l with output_grad := g } with
    | .throw why l1 => .throw why (l1 :: prev)
    | .ok _ l1 =>
      match prev with
      | [] => .ok () [l1]
      | _ :: _ =>
        match backward_layers A l1.input_grad prev with
        | .throw why prev1 => .throw why (l1 :: prev1)
        | .ok _ prev1 => .ok () (l1 :: prev1)

/-- The member `network::backward`. -/
def network.backward (A : Activation α) (n : network α) (error : List α) :
    Result (network α) Unit :=
  if error.length ≠ n.output_size then
    .throw "Error and output size mismatch" n
  else
    match backward_layers A error n.layers.reverse with
    | .throw why ls => .throw why { n with layers := ls.reverse }
    | .ok _ ls => .ok () { n with layers := ls.reverse }

/-- The member `network::label_to_vector`; the state is the vector `result`
passed by reference. -/
def network.label_to_vector (n : network α) (label : Nat) (result : List α) :
    Result (List α) Unit :=
  let result := vresize result n.output_size
  if label ≥ n.output_size then
    .throw "label too high for output dimension" result
  else
    .ok () (vset (vfill result 0) label 1)

/-- The member `network::gradient`. -/
def network.gradient (L : LossFunction α) (predicted observed result : List α) : List α :=
  L.df predicted observed result

/-- The member `network::update_weights`. -/
def network.update_weights (n : network α) : network α :=
  { n with layers := n.layers.map (Layer.update_weights n.alpha) }

end net

section training

variable {α κ : Type} [Field α]

/-- The callable `on_epoch`: it returns the stop flag or throws, and it can
read and change the network it captured and whatever else it can reach (`κ`). -/
abbrev Callback (α κ : Type) := network α → κ → Result (network α × κ) Bool

/-- What `network::train` works on: the network, the surroundings `κ` of the
callback, the locals `error` and `expected`, and two ghost fields recording
the run: the number of completed passes over the data and the values returned
by the calls of `on_epoch`, in order. -/
structure train_state (α κ : Type) where
  net : network α
  env : κ
  error : List α
  expected : List α
  epochs : Nat
  calls : List Bool

/-- The body of the inner loop of `network::train`, for one row and its label. -/
def train_sample (A : Activation α) (L : LossFunction α) (s : train_state α κ)
    (row : List α) (label : Nat) : Result (train_state α κ) Unit :=
  match s.net.forward A row with
  | .throw why n1 => .throw why { s with net := n1 }
  | .ok _ n1 =>
    match n1.label_to_vector label s.expected with
    | .throw why expected => .throw why { s with net := n1, expected := expected }
    | .ok _ expected =>
      let error := network.gradient L n1.output expected s.error
      match n1.backward A error with
      | .throw why n2 => .throw why { s with net := n2, expected := expected, error := error }
      | .ok _ n2 =>
        .ok () { s with net := n2.update_weights, expected := expected, error := error }

/-- The inner loop of `network::train`: the rows in order, `label_it` moving
along the labels.  (The two lists have equal lengths when it runs.) -/
def train_epoch (A : Activation α) (L : LossFunction α) :
    train_state α κ → List (List α) → List Nat → Result (train_state α κ) Unit
  | s, [], _ => .ok () s
  | s, _ :: _, [] => .ok () s
  | s, row :: rows, label :: labels =>
    match train_sample A L s row label with
    | .throw why s1 => .throw why s1
    | .ok _ s1 => train_epoch A L s1 rows labels

/-- The outer loop of `network::train` with `m` epochs left to run. -/
def train_epochs (A : Activation α) (L : LossFunction α) (on_epoch : Option (Callback α κ))
    (data : List (List α)) (labels : List Nat) :
    Nat → train_state α κ → Result (train_state α κ) Unit
  | 0, s => .ok () s
  | m + 1, s =>
    match train_epoch A L s data labels with
    | .throw why s1 => .throw why s1
    | .ok _ s1 =>
      let s2 := { s1 with epochs := s1.epochs + 1 }
      match on_epoch with
      | none => train_epochs A L on_epoch data labels m s2
      | some cb =>
        match cb s2.net s2.env with
        | .throw why (n, k) => .throw why { s2 with net := n, env := k }
        | .ok stop (n, k) =>
          let s3 := { s2 with net := n, env := k, calls := s2.calls ++ [stop] }
          if stop then .ok () s3 else train_epochs A L on_epoch data labels m s3

/-- The member `network::train`. -/
def network.train (A : Activation α) (L : LossFunction α) (on_epoch : Option (Callback α κ))
    (n : network α) (env : κ) (data : List (List α)) (labels : List Nat)
    (epochs_max : Nat) : Result (train_state α κ) Unit :=
  if data.length ≠ labels.length then
    .throw "data and label size mismatch"
      { net := n, env := env, error := [], expected := [], epochs := 0, calls := [] }
  else
    train_epochs A L on_epoch data labels epochs_max
      { net := n, env := env
        error := List.replicate n.output_size 0
        expected := List.replicate n.output_size 0
        epochs := 0, calls := [] }

end training

section activations

variable {α : Type} [Field α]

/-- The strategy `sigmoid_activation`; `std::exp` is passed as `exp`. -/
def sigmoid_activation (exp : α → α) : Activation α :=
  { f := fun x => 1 / (1 + exp (-x))
    df := fun y => (1 - y) * y }

/-- The strategy `tanh_activation`; `std::tanh` is passed as `tanh`. -/
def tanh_activation (tanh : α → α) : Activation α :=
  { f := fun x => tanh x
    df := fun y => 1 - y * y }

end activations

section ordered_losses

variable {α : Type} [LinearOrderedField α]

/-- The strategy `error_loss`. -/
def error_loss : LossFunction α :=
  { df := fun predicted observed result =>
      (List.range predicted.length).foldl
        (fun r i => vset r i (vget predicted i - vget observed i)) result
    f := fun predicted observed =>
      (List.range predicted.length).foldl
        (fun sum i => sum + |vget predicted i - vget observed i|) 0 }

/-- The strategy `absolute_loss`. -/
def absolute_loss : LossFunction α :=
  { df := fun predicted observed result =>
      let factor : α := 1 / (predicted.length : α)
      (List.range predicted.length).foldl
        (fun r i =>
          let diff := vget predicted i - vget observed i
          if diff < 0 then vset r i (-factor)
          else if diff > 0 then vset r i factor
          else vset r i 0) result
    f := fun predictions observed =>
      (List.range predictions.length).foldl
        (fun sum i => sum + |vget predictions i - vget observed i|) 0 }

end ordered_losses

section evaluation

variable {α : Type} [LinearOrderedField α]

/-- The struct `results`. -/
structure results (α : Type) where
  correct : Nat
  total : Nat
  accuracy : α

/-- The call `std::max_element(v.begin(), v.end())`, as the distance of the
returned iterator from `begin()`; `none` is the end iterator, returned for an
empty range.  The iterator `largest` starts at the first element and moves to
a later one only when that one is strictly greater. -/
def max_element (v : List α) : Option Nat :=
  if v.isEmpty then none
  else some ((List.range (v.length - 1)).foldl
    (fun largest k => if vget v largest < vget v (k + 1) then k + 1 else largest) 0)

/-- The loop of `network::test` over the rows, `label_it` moving along the
labels, with the counters `total` and `correct`.  (The two lists have equal
lengths when it runs.) -/
def test_loop (A : Activation α) :
    network α → Nat → Nat → List (List α) → List Nat → Result (network α) (Nat × Nat)
  | n, total, correct, [], _ => .ok (total, correct) n
  | n, total, correct, _ :: _, [] => .ok (total, correct) n
  | n, total, correct, row :: rows, label :: labels =>
    match n.forward A row with
    | .throw why n1 => .throw why n1
    | .ok _ n1 =>
      match max_element n1.output with
      | none => .throw "Invalid forward result" n1
      | some prediction =>
        test_loop A n1 (total + 1) (if label = prediction then correct + 1 else correct)
          rows labels

/-- The member `network::test`.  The quotient `correct / total` is the field
quotient; for an empty dataset the code computes `0.0f / 0`, which is no
number, and the theorems about `accuracy` take a non-empty dataset. -/
def network.test (A : Activation α) (n : network α) (data : List (List α))
    (labels : List Nat) : Result (network α) (results α) :=
  if data.length ≠ labels.length then
    .throw "data and label size mismatch" n
  else
    match test_loop A n 0 0 data labels with
    | .throw why n1 => .throw why n1
    | .ok (total, correct) n1 =>
      .ok { correct := correct, total := total, accuracy := (correct : α) / (total : α) } n1

end evaluation

section loss_evaluation

variable {α : Type} [Field α]

/-- The loop of `network::loss` from sample `i` on: the list of labels starts
at `labels[i]` (C++ leaves `labels[i]` undefined when there are fewer labels
than samples; label `0` is read here), `expected` and `sum` are the locals. -/
def loss_loop (A : Activation α) (L : LossFunction α) :
    network α → List α → α → List (List α) → List Nat → Result (network α) α
  | n, _, sum, [], _ => .ok sum n
  | n, expected, sum, row :: rows, labels =>
    match n.label_to_vector (labels.headD 0) expected with
    | .throw why _ => .throw why n
    | .ok _ expected1 =>
      match n.forward A row with
      | .throw why n1 => .throw why n1
      | .ok _ n1 =>
        loss_loop A L n1 expected1 (sum + L.f n1.output expected1) rows labels.tail

/-- The member `network::loss`. -/
def network.loss (A : Activation α) (L : LossFunction α) (n : network α)
    (samples : List (List α)) (labels : List Nat) : Result (network α) α :=
  loss_loop A L n [] 0 samples labels

/-- The member `network::loss_mean`.  The quotient is a floating-point
division by `samples.size()`: it raises nothing, and when `samples.size()` is
zero it is a division by zero, which gives no number (`0.0f / 0` is a NaN
under IEEE arithmetic and undefined by the C++ standard); the value is then
`none`. -/
def network.loss_mean (A : Activation α) (L : LossFunction α) (n : network α)
    (samples : List (List α)) (labels : List Nat) : Result (network α) (Option α) :=
  match n.loss A L samples labels with
  | .throw why n1 => .throw why n1
  | .ok sum n1 =>
    .ok (if samples.length = 0 then none else some (sum / (samples.length : α))) n1

end loss_evaluation

section iris

variable {α : Type} [LinearOrderedField α]

/-- The callable that `main` of `example/iris.cpp` installs as `on_epoch`: it
calls `test`, then `loss_mean`, prints the accuracy in percent and the mean
loss, and asks to stop once the accuracy reached `1`.  The surroundings of the
callable are the complete lines printed so far to `std::cout`, one pair per
line, the mean loss being `none` when it is no number; what the stream
received of a line before `loss_mean` threw is not recorded. -/
def iris_on_epoch (A : Activation α) (L : LossFunction α) (data : List (List α))
    (labels : List Nat) : Callback α (List (α × Option α)) := fun n printed =>
  match n.test A data labels with
  | .throw why n1 => .throw why (n1, printed)
  | .ok res n1 =>
    match n1.loss_mean A L data labels with
    | .throw why n2 => .throw why (n2, printed)
    | .ok loss n2 => .ok (decide (res.accuracy ≥ 1)) (n2, printed ++ [(res.accuracy * 100, loss)])

end iris

section normalization

variable {α : Type} [LinearOrderedField α]

/-- The first pair of loops of `normalize`: the running `min_of_col` and
`max_of_col` after all rows were scanned. -/
def normalize_minmax (values : List (List α)) (row_len : Nat) (init : List α × List α) :
    List α × List α :=
  (List.range values.length).foldl
    (fun mm row => (List.range row_len).foldl
      (fun mm col =>
        (vset mm.1 col (min (vget mm.1 col) (vget (values.getD row []) col)),
         vset mm.2 col (max (vget mm.2 col) (vget (values.getD row []) col))))
      mm)
    init

/-- The free function `normalize(values, a, b)`.  `flt_max` and `flt_min` are
`std::numeric_limits<float_t>::max()` and `std::numeric_limits<float_t>::min()`,
the values the running minima and maxima start from. -/
def normalize (flt_max flt_min : α) (values : List (List α)) (a b : α) : List (List α) :=
  if values.isEmpty then values
  else
    let row_len := (values.getD 0 []).length
    let mm := normalize_minmax values row_len
      (List.replicate row_len flt_max, List.replicate row_len flt_min)
    (List.range values.length).foldl
      (fun vals row => (List.range row_len).foldl
        (fun vals col =>
          let min := vget mm.1 col
          let max := vget mm.2 col
          vals.set row (vset (vals.getD row []) col
            ((b - a) * (vget (vals.getD row []) col - min) / (max - min) - a)))
        vals)
      values

end normalization

section shapes

variable {α : Type}

/-- The sizes the constructor gives to the vectors of a layer that no member
function resizes. -/
def Layer.Shaped (l : Layer α) : Prop :=
  l.weights.length = l.input_size * l.output_size ∧ l.bias.length = l.output_size ∧
  l.output.length = l.output_size ∧ l.input_grad.length = l.input_size ∧
  l.grad_weights.length = l.input_size * l.output_size ∧ l.grad_bias.length = l.output_size

instance (l : Layer α) : Decidable l.Shaped := by
  unfold Layer.Shaped; infer_instance

/-- The layers have the widths and sizes that construction from the dimension
list gives them: layer `k` maps width `dims[k]` to width `dims[k+1]`. -/
def LayersFit : List Nat → List (Layer α) → Prop
  | [], _ => False
  | [_], [] => True
  | [_], _ :: _ => False
  | _ :: _ :: _, [] => False
  | i :: o :: ds, l :: ls =>
    l.input_size = i ∧ l.output_size = o ∧ l.Shaped ∧ LayersFit (o :: ds) ls

/-- The network is in a state with the shape of one built from `dims`. -/
def network.BuiltFrom (dims : List Nat) (n : network α) : Prop := LayersFit dims n.layers

/-- Every layer's `input` buffer has the layer's input width. -/
def network.InputsFit (n : network α) : Prop :=
  ∀ l ∈ n.layers, l.input.length = l.input_size

end shapes

/-! ## Vocabulary of the specification -/

section vocabulary

variable {α : Type} [Field α]

/-- The map `x ↦ f (W x + b)` of a layer, as the specification writes it:
entry `o` is `f (Σ_i weights[o * input_size + i] * x[i] + bias[o])`. -/
def Layer.map (A : Activation α) (l : Layer α) (x : List α) : List α :=
  (List.range l.output_size).map (fun o =>
    A.f ((∑ i in Finset.range l.input_size, vget l.weights (o * l.input_size + i) * vget x i)
      + vget l.bias o))

/-- The composition, in layer order, of the layer maps of a network. -/
def network.map (A : Activation α) (n : network α) (x : List α) : List α :=
  n.layers.foldl (fun v l => l.map A v) x

/-- Layer `r` is what one call of `forward()` makes of layer `l` once `l.input`
holds the vector found in `r.input`. -/
def Layer.forward_step (A : Activation α) (l r : Layer α) : Prop :=
  Layer.forward A { l with input := r.input } = .ok () r

/-- Layer `r` is what one call of `backward()` makes of layer `l` once
`l.output_grad` holds the vector found in `r.output_grad`. -/
def Layer.backward_step (A : Activation α) (l r : Layer α) : Prop :=
  Layer.backward A { l with output_grad := r.output_grad } = .ok () r

/-- The first layer's `input` is `x` and every later layer's `input` is the
`output` of the layer before it. -/
def InputsWired : List α → List (Layer α) → Prop
  | _, [] => True
  | x, r :: rs => r.input = x ∧ InputsWired r.output rs

/-- On layers listed from last to first: the first listed layer's
`output_grad` is `g` and every further one's is the `input_grad` of the layer
listed before it. -/
def GradsWired : List α → List (Layer α) → Prop
  | _, [] => True
  | g, r :: rs => r.output_grad = g ∧ GradsWired r.input_grad rs

/-- The sign of `x` as a scalar: `-1`, `0` or `1`. -/
def sgn {α : Type} [LinearOrderedField α] (x : α) : α :=
  if x < 0 then -1 else if 0 < x then 1 else 0

/-- Index `m` is the smallest index at which `v` attains its maximum. -/
def IsFirstMax {α : Type} [LinearOrderedField α] (v : List α) (m : Nat) : Prop :=
  m < v.length ∧ (∀ j, j < v.length → vget v j ≤ vget v m) ∧ ∀ j, j < m → vget v j < vget v m

instance {α : Type} [LinearOrderedField α] (v : List α) (m : Nat) : Decidable (IsFirstMax v m) := by
  unfold IsFirstMax; infer_instance

/-- Layer `r` has the widths, weights and bias of layer `l`. -/
def Layer.SameParams (l r : Layer α) : Prop :=
  r.input_size = l.input_size ∧ r.output_size = l.output_size ∧ r.weights = l.weights ∧
  r.bias = l.bias

/-- The pre-activation `Σ_i W[o * n + i] * x[i] + b[o]` of output unit `o` of a
layer with `n` inputs. -/
def affine (n : Nat) (W b x : List α) (o : Nat) : α :=
  (∑ i in Finset.range n, vget W (o * n + i) * vget x i) + vget b o

/-- The scalar `S = Σ_o g[o] * f (Σ_i W[o * n + i] * x[i] + b[o])` of a layer of
widths `n` to `m`, as a function of the weights `W`, the bias `b` and the
input `x`. -/
def layer_objective (A : Activation α) (n m : Nat) (g W b x : List α) : α :=
  ∑ o in Finset.range m, vget g o * A.f (affine n W b x o)

/-- Layer `r` has the widths, weights, bias and accumulators of layer `l`. -/
def Layer.SameLearned (l r : Layer α) : Prop :=
  r.input_size = l.input_size ∧ r.output_size = l.output_size ∧ r.weights = l.weights ∧
  r.bias = l.bias ∧ r.grad_weights = l.grad_weights ∧ r.grad_bias = l.grad_bias

/-- Network `m` has the `alpha` of network `n` and, layer by layer, its widths,
weights, bias and accumulators. -/
def network.SameLearned (n m : network α) : Prop :=
  m.alpha = n.alpha ∧ List.Forall₂ Layer.SameLearned n.layers m.layers

/-- Layer `r` differs from layer `l` at most in the contents of the buffers
`input` and `output`; `output` kept its length. -/
def Layer.EvalFrame (l r : Layer α) : Prop :=
  Layer.SameLearned l r ∧ r.input_grad = l.input_grad ∧ r.output_grad = l.output_grad ∧
  r.output.length = l.output.length

/-- Network `r` differs from network `n` at most in the contents of the `input`
and `output` buffers of its layers. -/
def network.EvalFrame (n r : network α) : Prop :=
  r.alpha = n.alpha ∧ List.Forall₂ Layer.EvalFrame n.layers r.layers

/-- Layers `l` and `m` agree on everything a training step reads before it
writes: widths, weights, bias, accumulators, and the lengths of the buffers
`output` (the output width) and `input_grad`. -/
def Layer.Sim (l m : Layer α) : Prop :=
  Layer.SameLearned l m ∧ l.output.length = l.output_size ∧ m.output.length = m.output_size ∧
  m.input_grad.length = l.input_grad.length

/-- Layers `l` and `m` agree as in `Layer.Sim` and hold the same `input` and
`output`, as after a forward pass on the same sample. -/
def Layer.SimIO (l m : Layer α) : Prop :=
  Layer.Sim l m ∧ m.input = l.input ∧ m.output = l.output

/-- Networks with the same `alpha` whose layers agree as in `Layer.Sim`. -/
def network.Sim (n m : network α) : Prop :=
  m.alpha = n.alpha ∧ List.Forall₂ Layer.Sim n.layers m.layers

/-- Networks with the same `alpha` whose layers agree as in `Layer.SimIO`. -/
def network.SimIO (n m : network α) : Prop :=
  m.alpha = n.alpha ∧ List.Forall₂ Layer.SimIO n.layers m.layers

/-- Two states of `train` with networks that agree as in `network.Sim` and the
same locals `error` and `expected`. -/
def train_state.Sim {κ : Type} (s t : train_state α κ) : Prop :=
  network.Sim s.net t.net ∧ t.error = s.error ∧ t.expected = s.expected

/-- Two states of `train` that agree as in `train_state.Sim` and have the same
surroundings of the callback and the same ghost fields. -/
def train_state.SimAll {κ : Type} (s t : train_state α κ) : Prop :=
  train_state.Sim s t ∧ t.env = s.env ∧ t.epochs = s.epochs ∧ t.calls = s.calls

/-- Two calls end the same way: both return, with the same value and states
related by `Rok`, or both throw, with the same message and states related by
`Rthrow`. -/
def Result.Rel {σ β : Type} (Rok Rthrow : σ → σ → Prop) : Result σ β → Result σ β → Prop
  | .ok v1 s1, .ok v2 s2 => v2 = v1 ∧ Rok s1 s2
  | .throw w1 s1, .throw w2 s2 => w2 = w1 ∧ Rthrow s1 s2
  | _, _ => False

/-- The callback that decides, prints and throws as `cb` does on the network it
is given, but hands that network back untouched. -/
def quiet {κ : Type} (cb : Callback α κ) : Callback α κ := fun n k =>
  match cb n k with
  | .throw why (_, k1) => .throw why (n, k1)
  | .ok stop (_, k1) => .ok stop (n, k1)

/-- Every entry of the accumulators `grad_weights` and `grad_bias` is zero. -/
def Layer.ZeroAcc (l : Layer α) : Prop :=
  (∀ x ∈ l.grad_weights, x = 0) ∧ ∀ x ∈ l.grad_bias, x = 0

/-- Every entry of `grad_weights` and `grad_bias` of every layer is zero. -/
def network.ZeroAcc (n : network α) : Prop := ∀ l ∈ n.layers, l.ZeroAcc

end vocabulary

/-! ## Sample values used to instantiate the theorems -/

section samples

/-- An activation over `ℚ` with `f x = 2 * x` and `df y = 1 - y * y`. -/
def sampleActivation : Activation ℚ := { f := fun x => 2 * x, df := fun y => 1 - y * y }

/-- A layer of width 2 to 1 over `ℚ` with non-zero buffers. -/
def sampleLayer : Layer ℚ :=
  { input_size := 2, output_size := 1, weights := [1, 2], bias := [3], input := [4, 5],
    output := [6], input_grad := [7, 8], output_grad := [9], grad_weights := [10, 11],
    grad_bias := [12] }

/-- A network over `ℚ` with the single layer `sampleLayer`. -/
def sampleNet : network ℚ := { layers := [sampleLayer], alpha := 1 / 2 }

/-- The layer `sampleLayer` with zero accumulators. -/
def sampleFreshLayer : Layer ℚ := { sampleLayer with grad_weights := [0, 0], grad_bias := [0] }

/-- An epoch callback that changes nothing and always asks to stop. -/
def sampleStop : Callback ℚ Unit := fun n k => .ok true (n, k)

/-- The value `std::numeric_limits<float>::max()` of an IEEE single. -/
def FLT_MAX : ℚ := 340282346638528859811704183484516925440

/-- The value `std::numeric_limits<float>::min()` of an IEEE single, the
smallest positive normal number `2⁻¹²⁶`. -/
def FLT_MIN : ℚ := 1 / 2 ^ 126

/-- A layer of widths 2 to 1 with zero accumulators over any field. -/
def sampleLayerIn (α : Type) [Field α] : Layer α :=
  { input_size := 2, output_size := 1, weights := [1, 2], bias := [3], input := [4, 5],
    output := [6], input_grad := [7, 8], output_grad := [9], grad_weights := [0, 0],
    grad_bias := [0] }

/-- A network over `ℚ` with the single layer `sampleFreshLayer`. -/
def sampleFreshNet : network ℚ := { layers := [sampleFreshLayer], alpha := 1 / 2 }

end samples

/-! ## Vector lemmas -/

section vector_lemmas

variable {α : Type}

theorem length_vset (v : List α) (i : Nat) (x : α) : (vset v i x).length = v.length := by
  simp [vset]

theorem length_vfill (v : List α) (x : α) : (vfill v x).length = v.length := by
  simp [vfill]

theorem vget_vset_ne [Zero α] (v : List α) {i j : Nat} (x : α) (h : i ≠ j) :
    vget (vset v i x) j = vget v j := by
  simp [vget, vset, List.getD_eq_getElem?_getD, List.getElem?_set_ne h]

theorem vget_vset_eq [Zero α] (v : List α) {i : Nat} (x : α) (h : i < v.length) :
    vget (vset v i x) i = x := by
  simp [vget, vset, List.getD_eq_getElem?_getD, h]

theorem vget_vfill [Zero α] (v : List α) (j : Nat) : vget (vfill v (0 : α)) j = 0 := by
  simp only [vget, vfill, List.getD_eq_getElem?_getD, List.getElem?_replicate]
  split <;> rfl

theorem getElem?_eq_vget [Zero α] (v : List α) {j : Nat} (h : j < v.length) :
    v[j]? = some (vget v j) := by
  simp [vget, List.getD_eq_getElem?_getD, List.getElem?_eq_getElem h]

theorem vget_of_getElem? [Zero α] {v : List α} {j : Nat} {x : α} (h : v[j]? = some x) :
    vget v j = x := by
  simp [vget, List.getD_eq_getElem?_getD, h]

/-- A loop that rewrites entry `i` from its own old value at step `i`. -/
theorem foldl_pointwise [Zero α] (g : Nat → α → α) (n : Nat) (v : List α) :
    ((List.range n).foldl (fun w i => vset w i (g i (vget w i))) v).length = v.length ∧
    ∀ j, j < v.length →
      vget ((List.range n).foldl (fun w i => vset w i (g i (vget w i))) v) j
        = if j < n then g j (vget v j) else vget v j := by
  induction n with
  | zero => simp
  | succ n ih =>
    obtain ⟨hlen, hget⟩ := ih
    rw [List.range_succ, List.foldl_append]
    simp only [List.foldl_cons, List.foldl_nil]
    refine ⟨by rw [length_vset, hlen], fun j hj => ?_⟩
    by_cases hjn : n = j
    · subst hjn
      rw [vget_vset_eq _ _ (by rw [hlen]; exact hj), hget _ hj]
      simp
    · rw [vget_vset_ne _ _ hjn, hget j hj]
      have : (j < n + 1) = (j < n) := by
        apply propext; omega
      simp only [this]

/-- A loop that adds `c i` to entry `f i` at step `i`. -/
theorem foldl_scatter [AddCommMonoid α] (f : Nat → Nat) (c : Nat → α) (n : Nat) (v : List α) :
    ((List.range n).foldl (fun w i => vset w (f i) (vget w (f i) + c i)) v).length = v.length ∧
    ∀ j, j < v.length →
      vget ((List.range n).foldl (fun w i => vset w (f i) (vget w (f i) + c i)) v) j
        = vget v j + ∑ i in Finset.range n, if f i = j then c i else 0 := by
  induction n with
  | zero => simp
  | succ n ih =>
    obtain ⟨hlen, hget⟩ := ih
    rw [List.range_succ, List.foldl_append]
    simp only [List.foldl_cons, List.foldl_nil]
    refine ⟨by rw [length_vset, hlen], fun j hj => ?_⟩
    rw [Finset.sum_range_succ]
    by_cases hjn : f n = j
    · subst hjn
      rw [vget_vset_eq _ _ (by rw [hlen]; exact hj), hget _ hj]
      simp [add_assoc]
    · rw [vget_vset_ne _ _ hjn, hget j hj]
      simp [hjn]

theorem length_vresize [Zero α] (v : List α) (n : Nat) : (vresize v n).length = n := by
  simp only [vresize, List.length_append, List.length_take, List.length_replicate]
  omega

theorem vget_vset_self [Zero α] (v : List α) (i j : Nat) :
    vget (vset v i (vget v i)) j = vget v j := by
  by_cases hij : i = j
  · subst hij
    by_cases hi : i < v.length
    · rw [vget_vset_eq _ _ hi]
    · have hle : v.length ≤ i := Nat.le_of_not_lt hi
      simp [vget, vset, List.getD_eq_getElem?_getD, List.getElem?_eq_none hle,
        List.getElem?_eq_none (l := v.set i 0) (by simpa using hle)]
  · rw [vget_vset_ne _ _ hij]

theorem vget_replicate_zero [Zero α] (n j : Nat) : vget (List.replicate n (0 : α)) j = 0 := by
  simp only [vget, List.getD_eq_getElem?_getD, List.getElem?_replicate]
  split <;> rfl

end vector_lemmas

/-! ## Construction -/

section construction_lemmas

variable {α : Type} [Field α]

theorem Layer.new_weights_length (i o : Nat) (rnd : Nat → α) (pos : Nat) :
    (Layer.new i o rnd pos).weights.length = i * o := by
  have h := (foldl_pointwise (fun k _ => rnd (pos + k)) (i * o) (List.replicate (i * o) 0)).1
  simpa [Layer.new] using h

theorem Layer.new_shaped (i o : Nat) (rnd : Nat → α) (pos : Nat) :
    (Layer.new i o rnd pos).Shaped := by
  refine ⟨Layer.new_weights_length i o rnd pos, ?_, ?_, ?_, ?_, ?_⟩ <;> simp [Layer.new]

theorem build_layers_length (rnd : Nat → α) (rest : List Nat) :
    ∀ i pos, (build_layers rnd i rest pos).length = rest.length := by
  induction rest with
  | nil => intro i pos; rfl
  | cons o r ih => intro i pos; simp [build_layers, ih]

theorem build_layers_get (rnd : Nat → α) (rest : List Nat) :
    ∀ (i pos k a b : Nat), (i :: rest)[k]? = some a → rest[k]? = some b →
      ∃ p, (build_layers rnd i rest pos)[k]? = some (Layer.new a b rnd p) := by
  induction rest with
  | nil => intro i pos k a b _ hb; simp at hb
  | cons o r ih =>
    intro i pos k a b ha hb
    cases k with
    | zero =>
      simp only [List.getElem?_cons_zero, Option.some.injEq] at ha hb
      subst ha hb
      exact ⟨pos, by simp [build_layers]⟩
    | succ k =>
      simp only [List.getElem?_cons_succ] at ha hb
      obtain ⟨p, hp⟩ := ih o (pos + i * o) k a b ha hb
      exact ⟨p, by simpa [build_layers] using hp⟩

theorem build_layers_fit (rnd : Nat → α) (rest : List Nat) :
    ∀ i pos, LayersFit (i :: rest) (build_layers rnd i rest pos) := by
  induction rest with
  | nil => intro i pos; simp [build_layers, LayersFit]
  | cons o r ih =>
    intro i pos
    simp only [build_layers, LayersFit]
    exact ⟨rfl, rfl, Layer.new_shaped i o rnd pos, ih o _⟩

theorem build_layers_inputs (rnd : Nat → α) (rest : List Nat) :
    ∀ i pos, ∀ l ∈ build_layers rnd i rest pos, l.input.length = l.input_size := by
  induction rest with
  | nil => intro i pos l hl; simp [build_layers] at hl
  | cons o r ih =>
    intro i pos l hl
    simp only [build_layers, List.mem_cons] at hl
    rcases hl with rfl | hl
    · simp [Layer.new]
    · exact ih o _ l hl

/-- A network returned by the constructor has the shape of its dimension list,
and its `input` buffers have their layers' input widths. -/
theorem network.new_built (dims : List Nat) (rnd : Nat → α) (n : network α)
    (h : network.new dims rnd = .ok n ()) : n.BuiltFrom dims ∧ n.InputsFit := by
  cases dims with
  | nil => simp [network.new] at h
  | cons d rest =>
    simp only [network.new, Result.ok.injEq, and_true] at h
    subst h
    exact ⟨build_layers_fit rnd rest d 0, build_layers_inputs rnd rest d 0⟩

end construction_lemmas

/-! ## Layer lemmas -/

section layer_lemmas

variable {α : Type} [Field α]

/-- A loop that adds `t i` to a running total. -/
theorem foldl_total (t : Nat → α) (n : Nat) (a : α) :
    (List.range n).foldl (fun total i => total + t i) a = a + ∑ i in Finset.range n, t i := by
  induction n with
  | zero => simp
  | succ n ih =>
    rw [List.range_succ, List.foldl_append, ih, Finset.sum_range_succ]
    simp [add_assoc]

theorem Layer.forward_total_eq (l : Layer α) (out : Nat) :
    l.forward_total out
      = ∑ i in Finset.range l.input_size, vget l.weights (out * l.input_size + i) * vget l.input i := by
  unfold Layer.forward_total
  rw [foldl_total (fun i => vget l.weights (out * l.input_size + i) * vget l.input i)]
  simp

/-- The output buffer written by `forward`, read entry by entry. -/
theorem Layer.forward_output (A : Activation α) (l : Layer α) :
    ((List.range l.output_size).foldl
        (fun output out => vset output out (A.f (l.forward_total out + vget l.bias out)))
        l.output).length = l.output.length ∧
    ∀ o, o < l.output.length →
      vget ((List.range l.output_size).foldl
        (fun output out => vset output out (A.f (l.forward_total out + vget l.bias out)))
        l.output) o
      = if o < l.output_size then A.f (l.forward_total o + vget l.bias o) else vget l.output o :=
  foldl_pointwise (fun out _ => A.f (l.forward_total out + vget l.bias out)) l.output_size l.output

theorem Layer.forward_ok (A : Activation α) (l : Layer α) (h : l.input.length = l.input_size) :
    l.forward A = .ok () { l with
      output := (List.range l.output_size).foldl
        (fun output out => vset output out (A.f (l.forward_total out + vget l.bias out)))
        l.output } := by
  simp [Layer.forward, h]

theorem Layer.forward_throw (A : Activation α) (l : Layer α) (h : l.input.length ≠ l.input_size) :
    l.forward A = .throw "input vectordoes not match input size" l := by
  simp [Layer.forward, h]

/-- The inner loop of `backward` touches `input_grad` and `grad_weights` only,
each by a loop of its own. -/
theorem Layer.backward_in_fold (grad : α) (out : Nat) (l : Layer α) (n : Nat) :
    (List.range n).foldl (Layer.backward_in grad out) l = { l with
      input_grad := (List.range n).foldl
        (fun w i => vset w i (vget w i + grad * vget l.weights (out * l.input_size + i)))
        l.input_grad
      grad_weights := (List.range n).foldl
        (fun w i => vset w (out * l.input_size + i)
          (vget w (out * l.input_size + i) + vget l.input i * grad))
        l.grad_weights } := by
  induction n with
  | zero => simp
  | succ n ih =>
    rw [List.range_succ, List.foldl_append, ih]
    simp [Layer.backward_in, List.foldl_append]

/-- One turn of the outer loop of `backward`. -/
theorem Layer.backward_out_spec (A : Activation α) (r : Layer α) (out : Nat) :
    (Layer.backward_out A r out).input_size = r.input_size ∧
    (Layer.backward_out A r out).output_size = r.output_size ∧
    (Layer.backward_out A r out).weights = r.weights ∧
    (Layer.backward_out A r out).bias = r.bias ∧
    (Layer.backward_out A r out).input = r.input ∧
    (Layer.backward_out A r out).output = r.output ∧
    (Layer.backward_out A r out).output_grad = r.output_grad ∧
    (Layer.backward_out A r out).input_grad.length = r.input_grad.length ∧
    (Layer.backward_out A r out).grad_weights.length = r.grad_weights.length ∧
    (Layer.backward_out A r out).grad_bias.length = r.grad_bias.length ∧
    (∀ j, j < r.input_grad.length →
      vget (Layer.backward_out A r out).input_grad j = vget r.input_grad j +
        ∑ i in Finset.range r.input_size,
          if i = j then r.grad A out * vget r.weights (out * r.input_size + i) else 0) ∧
    (∀ k, k < r.grad_weights.length →
      vget (Layer.backward_out A r out).grad_weights k = vget r.grad_weights k +
        ∑ i in Finset.range r.input_size,
          if out * r.input_size + i = k then vget r.input i * r.grad A out else 0) ∧
    (∀ o, o < r.grad_bias.length →
      vget (Layer.backward_out A r out).grad_bias o = vget r.grad_bias o +
        if out = o then r.grad A out else 0) := by
  have hig := foldl_scatter (fun i => i)
    (fun i => r.grad A out * vget r.weights (out * r.input_size + i)) r.input_size r.input_grad
  have hgw := foldl_scatter (fun i => out * r.input_size + i)
    (fun i => vget r.input i * r.grad A out) r.input_size r.grad_weights
  simp only [Layer.backward_out, Layer.backward_in_fold]
  refine ⟨trivial, trivial, trivial, trivial, trivial, trivial, trivial, hig.1, hgw.1,
    length_vset _ _ _,
    hig.2, hgw.2, fun o ho => ?_⟩
  by_cases h : out = o
  · subst h
    simp [vget_vset_eq _ _ ho]
  · simp [vget_vset_ne _ _ h, h]

/-- The outer loop of `backward` after `m` turns. -/
theorem Layer.backward_loop (A : Activation α) (l : Layer α) (m : Nat) :
    ((List.range m).foldl (Layer.backward_out A) l).input_size = l.input_size ∧
    ((List.range m).foldl (Layer.backward_out A) l).output_size = l.output_size ∧
    ((List.range m).foldl (Layer.backward_out A) l).weights = l.weights ∧
    ((List.range m).foldl (Layer.backward_out A) l).bias = l.bias ∧
    ((List.range m).foldl (Layer.backward_out A) l).input = l.input ∧
    ((List.range m).foldl (Layer.backward_out A) l).output = l.output ∧
    ((List.range m).foldl (Layer.backward_out A) l).output_grad = l.output_grad ∧
    ((List.range m).foldl (Layer.backward_out A) l).input_grad.length = l.input_grad.length ∧
    ((List.range m).foldl (Layer.backward_out A) l).grad_weights.length
      = l.grad_weights.length ∧
    ((List.range m).foldl (Layer.backward_out A) l).grad_bias.length = l.grad_bias.length ∧
    (∀ j, j < l.input_grad.length →
      vget ((List.range m).foldl (Layer.backward_out A) l).input_grad j = vget l.input_grad j +
        ∑ o in Finset.range m, ∑ i in Finset.range l.input_size,
          if i = j then l.grad A o * vget l.weights (o * l.input_size + i) else 0) ∧
    (∀ k, k < l.grad_weights.length →
      vget ((List.range m).foldl (Layer.backward_out A) l).grad_weights k
        = vget l.grad_weights k +
        ∑ o in Finset.range m, ∑ i in Finset.range l.input_size,
          if o * l.input_size + i = k then vget l.input i * l.grad A o else 0) ∧
    (∀ o, o < l.grad_bias.length →
      vget ((List.range m).foldl (Layer.backward_out A) l).grad_bias o = vget l.grad_bias o +
        ∑ o1 in Finset.range m, if o1 = o then l.grad A o1 else 0) := by
  induction m with
  | zero => simp
  | succ m ih =>
    obtain ⟨h1, h2, h3, h4, h5, h6, h7, h8, h9, h10, h11, h12, h13⟩ := ih
    rw [List.range_succ, List.foldl_append]
    simp only [List.foldl_cons, List.foldl_nil]
    obtain ⟨s1, s2, s3, s4, s5, s6, s7, s8, s9, s10, s11, s12, s13⟩ :=
      Layer.backward_out_spec A ((List.range m).foldl (Layer.backward_out A) l) m
    have hg : ((List.range m).foldl (Layer.backward_out A) l).grad A m = l.grad A m := by
      simp only [Layer.grad, h6, h7]
    refine ⟨s1.trans h1, s2.trans h2, s3.trans h3, s4.trans h4, s5.trans h5, s6.trans h6,
      s7.trans h7, s8.trans h8, s9.trans h9, s10.trans h10, fun j hj => ?_, fun k hk => ?_,
      fun o ho => ?_⟩
    · rw [s11 j (by rw [h8]; exact hj), h11 j hj, Finset.sum_range_succ, hg, h1, h3, add_assoc]
    · rw [s12 k (by rw [h9]; exact hk), h12 k hk, Finset.sum_range_succ, hg, h1, h5, add_assoc]
    · rw [s13 o (by rw [h10]; exact ho), h13 o ho, Finset.sum_range_succ, hg, add_assoc]

/-- Row-major indices `o * n + i` with `i < n` determine `o` and `i`. -/
theorem row_major_inj {n o i o1 i1 : Nat} (hi : i < n) (hi1 : i1 < n) :
    o * n + i = o1 * n + i1 ↔ o = o1 ∧ i = i1 := by
  constructor
  · intro h
    rcases Nat.lt_trichotomy o o1 with hlt | heq | hgt
    · have := Nat.mul_le_mul_right n (Nat.succ_le_of_lt hlt)
      rw [Nat.succ_mul] at this
      omega
    · subst heq
      exact ⟨rfl, by omega⟩
    · have := Nat.mul_le_mul_right n (Nat.succ_le_of_lt hgt)
      rw [Nat.succ_mul] at this
      omega
  · rintro ⟨rfl, rfl⟩
    rfl

theorem row_major_lt {n m o i : Nat} (ho : o < m) (hi : i < n) : o * n + i < n * m := by
  have := Nat.mul_le_mul_right n (Nat.succ_le_of_lt ho)
  rw [Nat.succ_mul] at this
  rw [Nat.mul_comm n m]
  omega

/-- The double sum of the row-major scatter keeps one term. -/
theorem sum_row_major (c : Nat → Nat → α) {n m o1 i1 : Nat} (ho : o1 < m) (hi : i1 < n) :
    (∑ o in Finset.range m, ∑ i in Finset.range n,
      if o * n + i = o1 * n + i1 then c o i else 0) = c o1 i1 := by
  have inner : ∀ o ∈ Finset.range m,
      (∑ i in Finset.range n, if o * n + i = o1 * n + i1 then c o i else 0)
        = if o = o1 then c o i1 else 0 := by
    intro o _
    by_cases h : o = o1
    · subst h
      have : ∀ i ∈ Finset.range n,
          (if o * n + i = o * n + i1 then c o i else 0) = if i = i1 then c o i else 0 := by
        intro i _
        simp
      rw [Finset.sum_congr rfl this, Finset.sum_ite_eq']
      simp [hi]
    · rw [if_neg h]
      apply Finset.sum_eq_zero
      intro i hi2
      rw [if_neg]
      intro heq
      exact h ((row_major_inj (Finset.mem_range.1 hi2) hi).1 heq).1
  rw [Finset.sum_congr rfl inner, Finset.sum_ite_eq']
  simp [ho]

/-- The double sum of the column scatter keeps one term per row. -/
theorem sum_column (c : Nat → Nat → α) {n j : Nat} (m : Nat) (hj : j < n) :
    (∑ o in Finset.range m, ∑ i in Finset.range n, if i = j then c o i else 0)
      = ∑ o in Finset.range m, c o j := by
  apply Finset.sum_congr rfl
  intro o _
  rw [Finset.sum_ite_eq']
  simp [hj]

theorem Layer.backward_ok (A : Activation α) (l : Layer α)
    (h : l.output_grad.length = l.output_size) :
    l.backward A = .ok () ((List.range l.output_size).foldl (Layer.backward_out A)
      { l with input_grad := vfill l.input_grad 0 }) := by
  simp [Layer.backward, h]

theorem Layer.backward_throw (A : Activation α) (l : Layer α)
    (h : l.output_grad.length ≠ l.output_size) :
    l.backward A = .throw "output gradient vector does not match output size" l := by
  simp [Layer.backward, h]

/-- What a successful `backward` leaves in the layer. -/
theorem Layer.backward_spec (A : Activation α) (l r : Layer α) (hs : l.Shaped)
    (h : l.backward A = .ok () r) :
    r.input_size = l.input_size ∧ r.output_size = l.output_size ∧ r.weights = l.weights ∧
    r.bias = l.bias ∧ r.input = l.input ∧ r.output = l.output ∧
    r.output_grad = l.output_grad ∧ r.Shaped ∧
    (∀ i, i < l.input_size → vget r.input_grad i
      = ∑ o in Finset.range l.output_size, l.grad A o * vget l.weights (o * l.input_size + i)) ∧
    (∀ o i, o < l.output_size → i < l.input_size →
      vget r.grad_weights (o * l.input_size + i)
        = vget l.grad_weights (o * l.input_size + i) + vget l.input i * l.grad A o) ∧
    (∀ o, o < l.output_size → vget r.grad_bias o = vget l.grad_bias o + l.grad A o) := by
  by_cases hlen : l.output_grad.length = l.output_size
  · rw [Layer.backward_ok A l hlen] at h
    cases h
    obtain ⟨hw, hb, ho, hig, hgw, hgb⟩ := hs
    obtain ⟨h1, h2, h3, h4, h5, h6, h7, h8, h9, h10, h11, h12, h13⟩ :=
      Layer.backward_loop A { l with input_grad := vfill l.input_grad 0 } l.output_size
    simp only [length_vfill] at h8 h11
    refine ⟨h1, h2, h3, h4, h5, h6, h7, ⟨?_, ?_, ?_, ?_, ?_, ?_⟩, fun i hi => ?_,
      fun o i ho1 hi => ?_, fun o ho1 => ?_⟩
    · rw [h3, h1, h2]; exact hw
    · rw [h4, h2]; exact hb
    · rw [h6, h2]; exact ho
    · rw [h8, h1]; exact hig
    · rw [h9, h1, h2]; exact hgw
    · rw [h10, h2]; exact hgb
    · rw [h11 i (by rw [hig]; exact hi), vget_vfill, zero_add]
      exact sum_column (fun o i => l.grad A o * vget l.weights (o * l.input_size + i))
        l.output_size hi
    · rw [h12 _ (by
        show o * l.input_size + i < l.grad_weights.length
        rw [hgw]; exact row_major_lt ho1 hi)]
      congr 1
      exact sum_row_major (fun o i => vget l.input i * l.grad A o) ho1 hi
    · rw [h13 o (by show o < l.grad_bias.length; rw [hgb]; exact ho1), Finset.sum_ite_eq']
      simp only [Finset.mem_range, ho1, if_true]
      rfl
  · rw [Layer.backward_throw A l hlen] at h
    cases h

/-- What `update_weights` leaves in the layer. -/
theorem Layer.update_weights_spec (alpha : α) (l : Layer α) (hs : l.Shaped) :
    (l.update_weights alpha).input_size = l.input_size ∧
    (l.update_weights alpha).output_size = l.output_size ∧
    (l.update_weights alpha).input = l.input ∧
    (l.update_weights alpha).output = l.output ∧
    (l.update_weights alpha).input_grad = l.input_grad ∧
    (l.update_weights alpha).output_grad = l.output_grad ∧
    (l.update_weights alpha).Shaped ∧
    (l.update_weights alpha).grad_weights = List.replicate l.grad_weights.length 0 ∧
    (l.update_weights alpha).grad_bias = List.replicate l.grad_bias.length 0 ∧
    (∀ j, j < l.input_size * l.output_size →
      vget (l.update_weights alpha).weights j
        = vget l.weights j - alpha * vget l.grad_weights j) ∧
    (∀ o, o < l.output_size →
      vget (l.update_weights alpha).bias o = vget l.bias o - alpha * vget l.grad_bias o) := by
  obtain ⟨hw, hb, ho, hig, hgw, hgb⟩ := hs
  have pw := foldl_pointwise (fun i x => x - alpha * vget l.grad_weights i)
    (l.input_size * l.output_size) l.weights
  have pb := foldl_pointwise (fun i x => x - alpha * vget l.grad_bias i)
    l.bias.length l.bias
  simp only [Layer.update_weights, Layer.clear_deltas]
  refine ⟨trivial, trivial, trivial, trivial, trivial, trivial, ⟨?_, ?_, ho, hig, ?_, ?_⟩,
    rfl, rfl, fun j hj => ?_, fun o ho1 => ?_⟩
  · exact pw.1.trans hw
  · exact pb.1.trans hb
  · simp only [length_vfill]; exact hgw
  · simp only [length_vfill]; exact hgb
  · have := pw.2 j (by rw [hw]; exact hj)
    rw [if_pos hj] at this
    exact this
  · have := pb.2 o (by rw [hb]; exact ho1)
    rw [if_pos (by rw [hb]; exact ho1)] at this
    exact this

/-- What a successful `forward` leaves in the layer. -/
theorem Layer.forward_spec (A : Activation α) (l r : Layer α) (hs : l.Shaped)
    (h : l.forward A = .ok () r) :
    r.input_size = l.input_size ∧ r.output_size = l.output_size ∧ r.weights = l.weights ∧
    r.bias = l.bias ∧ r.input = l.input ∧ r.input_grad = l.input_grad ∧
    r.output_grad = l.output_grad ∧ r.grad_weights = l.grad_weights ∧
    r.grad_bias = l.grad_bias ∧ r.Shaped ∧ r.input.length = r.input_size ∧
    (∀ o, o < l.output_size → vget r.output o = A.f
      ((∑ i in Finset.range l.input_size,
          vget l.weights (o * l.input_size + i) * vget l.input i) + vget l.bias o)) := by
  by_cases hlen : l.input.length = l.input_size
  · rw [Layer.forward_ok A l hlen] at h
    cases h
    obtain ⟨hw, hb, ho, hig, hgw, hgb⟩ := hs
    obtain ⟨p1, p2⟩ := Layer.forward_output A l
    refine ⟨rfl, rfl, rfl, rfl, rfl, rfl, rfl, rfl, rfl, ⟨hw, hb, p1.trans ho, hig, hgw, hgb⟩,
      hlen, fun o ho1 => ?_⟩
    have := p2 o (by rw [ho]; exact ho1)
    rw [if_pos ho1, Layer.forward_total_eq] at this
    exact this
  · rw [Layer.forward_throw A l hlen] at h
    cases h

end layer_lemmas

/-! ## Shape lemmas -/

section shape_lemmas

variable {α : Type}

theorem LayersFit_nil {dims : List Nat} :
    LayersFit dims ([] : List (Layer α)) ↔ ∃ i, dims = [i] := by
  match dims with
  | [] => simp [LayersFit]
  | [i] => simp [LayersFit]
  | i :: o :: ds => simp [LayersFit]

theorem LayersFit_cons {dims : List Nat} {l : Layer α} {ls : List (Layer α)} :
    LayersFit dims (l :: ls) ↔ ∃ i o ds, dims = i :: o :: ds ∧ l.input_size = i ∧
      l.output_size = o ∧ l.Shaped ∧ LayersFit (o :: ds) ls := by
  match dims with
  | [] => simp [LayersFit]
  | [i] => simp [LayersFit]
  | i :: o :: ds =>
    simp only [LayersFit]
    constructor
    · rintro ⟨h1, h2, h3, h4⟩
      exact ⟨i, o, ds, rfl, h1, h2, h3, h4⟩
    · rintro ⟨i1, o1, ds1, heq, h1, h2, h3, h4⟩
      cases heq
      exact ⟨h1, h2, h3, h4⟩

theorem LayersFit.ne_nil {dims : List Nat} {ls : List (Layer α)} (h : LayersFit dims ls)
    (h2 : 2 ≤ dims.length) : ls ≠ [] := by
  rintro rfl
  obtain ⟨i, rfl⟩ := LayersFit_nil.1 h
  simp at h2

theorem LayersFit.length {dims : List Nat} {ls : List (Layer α)} (h : LayersFit dims ls) :
    dims.length = ls.length + 1 := by
  induction ls generalizing dims with
  | nil => obtain ⟨i, rfl⟩ := LayersFit_nil.1 h; rfl
  | cons l ls ih =>
    obtain ⟨i, o, ds, rfl, _, _, _, h4⟩ := LayersFit_cons.1 h
    have := ih h4
    simp at this ⊢
    omega

theorem LayersFit.shaped {dims : List Nat} {ls : List (Layer α)} (h : LayersFit dims ls) :
    ∀ l ∈ ls, l.Shaped := by
  induction ls generalizing dims with
  | nil => simp
  | cons l ls ih =>
    obtain ⟨i, o, ds, rfl, _, _, h3, h4⟩ := LayersFit_cons.1 h
    intro a ha
    rcases List.mem_cons.1 ha with rfl | ha
    · exact h3
    · exact ih h4 a ha

theorem LayersFit.chain {dims : List Nat} {ls : List (Layer α)} (h : LayersFit dims ls) :
    List.Chain' (fun a b : Layer α => a.output_size = b.input_size) ls := by
  induction ls generalizing dims with
  | nil => simp
  | cons l ls ih =>
    obtain ⟨i, o, ds, rfl, _, h2, _, h4⟩ := LayersFit_cons.1 h
    rw [List.chain'_cons']
    refine ⟨fun y hy => ?_, ih h4⟩
    cases ls with
    | nil => simp at hy
    | cons l2 ls2 =>
      simp only [List.head?_cons, Option.mem_def, Option.some.injEq] at hy
      subst hy
      obtain ⟨i2, o2, ds2, heq, h5, _⟩ := LayersFit_cons.1 h4
      cases heq
      rw [h2, h5]

theorem LayersFit.head {dims : List Nat} {l : Layer α} {ls : List (Layer α)}
    (h : LayersFit dims (l :: ls)) : dims.head? = some l.input_size := by
  obtain ⟨i, o, ds, rfl, h1, _⟩ := LayersFit_cons.1 h
  simp [h1]

theorem LayersFit.last {dims : List Nat} {ls : List (Layer α)} (h : LayersFit dims ls)
    {l : Layer α} (hl : ls.getLast? = some l) : dims.getLast? = some l.output_size := by
  induction ls generalizing dims with
  | nil => simp at hl
  | cons a ls ih =>
    obtain ⟨i, o, ds, rfl, _, h2, _, h4⟩ := LayersFit_cons.1 h
    cases ls with
    | nil =>
      obtain ⟨i2, heq⟩ := LayersFit_nil.1 h4
      cases heq
      simp only [List.getLast?_singleton, Option.some.injEq] at hl
      subst hl
      simp [h2]
    | cons b ls2 =>
      rw [List.getLast?_cons_cons] at hl ⊢
      exact ih h4 hl

/-- A state whose layers kept their widths and shapes still fits the list. -/
theorem LayersFit.of_forall₂ {dims : List Nat} {ls rs : List (Layer α)}
    (h : LayersFit dims ls)
    (hf : List.Forall₂ (fun l r : Layer α =>
      r.input_size = l.input_size ∧ r.output_size = l.output_size ∧ r.Shaped) ls rs) :
    LayersFit dims rs := by
  induction hf generalizing dims with
  | nil => exact h
  | cons hlr _ ih =>
    obtain ⟨i, o, ds, rfl, h1, h2, _, h4⟩ := LayersFit_cons.1 h
    exact LayersFit_cons.2 ⟨i, o, ds, rfl, hlr.1.trans h1, hlr.2.1.trans h2, hlr.2.2, ih h4⟩

/-- Wiring, read by position. -/
theorem InputsWired.get {x : List α} {rs : List (Layer α)} (h : InputsWired x rs) :
    (∀ r, rs.head? = some r → r.input = x) ∧
    ∀ k l l1, rs[k]? = some l → rs[k + 1]? = some l1 → l1.input = l.output := by
  induction rs generalizing x with
  | nil => simp
  | cons r rs ih =>
    obtain ⟨h1, h2⟩ := h
    refine ⟨fun a ha => ?_, fun k l l1 hl hl1 => ?_⟩
    · simp only [List.head?_cons, Option.some.injEq] at ha
      subst ha
      exact h1
    · cases k with
      | zero =>
        simp only [List.getElem?_cons_zero, Option.some.injEq, zero_add,
          List.getElem?_cons_succ] at hl hl1
        subst hl
        apply (ih h2).1
        cases rs with
        | nil => simp at hl1
        | cons a rs2 => simpa using hl1
      | succ k =>
        simp only [List.getElem?_cons_succ] at hl hl1
        exact (ih h2).2 k l l1 hl hl1

/-- A chained list, read by position. -/
theorem chain_getElem? {β : Type} {R : β → β → Prop} {l : List β} (h : List.Chain' R l) :
    ∀ k a b, l[k]? = some a → l[k + 1]? = some b → R a b := by
  induction l with
  | nil => intro k a b ha; simp at ha
  | cons x l ih =>
    intro k a b ha hb
    cases l with
    | nil => simp at hb
    | cons y l2 =>
      obtain ⟨h1, h2⟩ := List.chain'_cons.1 h
      cases k with
      | zero =>
        simp only [List.getElem?_cons_zero, Option.some.injEq, zero_add,
          List.getElem?_cons_succ] at ha hb
        subst ha hb
        exact h1
      | succ k =>
        simp only [List.getElem?_cons_succ] at ha hb
        exact ih h2 k a b (by simpa using ha) (by simpa using hb)

/-- Gradient wiring of the layers listed from last to first, as a chain. -/
theorem GradsWired.as_chain {g : List α} {rs : List (Layer α)} (h : GradsWired g rs) :
    (∀ r, rs.head? = some r → r.output_grad = g) ∧
    List.Chain' (fun a b : Layer α => b.output_grad = a.input_grad) rs := by
  induction rs generalizing g with
  | nil => simp
  | cons r rs ih =>
    obtain ⟨h1, h2⟩ := h
    refine ⟨fun a ha => ?_, ?_⟩
    · simp only [List.head?_cons, Option.some.injEq] at ha
      subst ha
      exact h1
    · rw [List.chain'_cons']
      exact ⟨fun y hy => (ih h2).1 y hy, (ih h2).2⟩

theorem forall₂_imp_mem {β : Type} {R S : β → β → Prop} {P : β → Prop} {ls rs : List β}
    (h : List.Forall₂ R ls rs) (hP : ∀ l ∈ ls, P l) (hS : ∀ l r, P l → R l r → S l r) :
    List.Forall₂ S ls rs := by
  induction h with
  | nil => exact List.Forall₂.nil
  | cons hlr _ ih =>
    exact List.Forall₂.cons (hS _ _ (hP _ (List.mem_cons_self _ _)) hlr)
      (ih (fun l hl => hP l (List.mem_cons_of_mem _ hl)))

/-- Mapping the layers by a function that keeps widths and shape keeps the fit. -/
theorem LayersFit.map {dims : List Nat} {ls : List (Layer α)} (h : LayersFit dims ls)
    (f : Layer α → Layer α)
    (hf : ∀ l, l.Shaped →
      (f l).input_size = l.input_size ∧ (f l).output_size = l.output_size ∧ (f l).Shaped) :
    LayersFit dims (ls.map f) := by
  induction ls generalizing dims with
  | nil => exact h
  | cons l ls ih =>
    obtain ⟨i, o, ds, rfl, h1, h2, h3, h4⟩ := LayersFit_cons.1 h
    obtain ⟨f1, f2, f3⟩ := hf l h3
    exact LayersFit_cons.2 ⟨i, o, ds, rfl, f1.trans h1, f2.trans h2, f3, ih h4⟩

theorem network.BuiltFrom.head_width {dims : List Nat} {n : network α}
    (hb : n.BuiltFrom dims) (h2 : 2 ≤ dims.length) :
    dims.head? = some n.input_size := by
  obtain ⟨l, rest, hl⟩ := List.exists_cons_of_ne_nil (LayersFit.ne_nil hb h2)
  unfold network.BuiltFrom at hb
  unfold network.input_size
  rw [hl] at hb ⊢
  exact LayersFit.head hb

theorem network.BuiltFrom.last_width {dims : List Nat} {n : network α}
    (hb : n.BuiltFrom dims) (h2 : 2 ≤ dims.length) :
    dims.getLast? = some n.output_size := by
  have hne := LayersFit.ne_nil hb h2
  have hl : n.layers.getLast? = some (n.layers.getLast hne) := List.getLast?_eq_getLast _ hne
  unfold network.output_size
  rw [hl]
  exact LayersFit.last hb hl

/-- Two states with the shape of the same dimension list have the same widths. -/
theorem network.BuiltFrom.sizes_eq {dims : List Nat} {n m : network α}
    (hn : n.BuiltFrom dims) (hm : m.BuiltFrom dims) (h2 : 2 ≤ dims.length) :
    m.input_size = n.input_size ∧ m.output_size = n.output_size := by
  have i1 := hn.head_width h2
  have i2 := hm.head_width h2
  have o1 := hn.last_width h2
  have o2 := hm.last_width h2
  rw [i1] at i2
  rw [o1] at o2
  exact ⟨(Option.some.inj i2).symm, (Option.some.inj o2).symm⟩

theorem network.output_length {dims : List Nat} {n : network α} (hb : n.BuiltFrom dims)
    (h2 : 2 ≤ dims.length) : n.output.length = n.output_size := by
  have hne := LayersFit.ne_nil hb h2
  have hl : n.layers.getLast? = some (n.layers.getLast hne) := List.getLast?_eq_getLast _ hne
  simp only [network.output, network.output_size, hl]
  exact (LayersFit.shaped hb _ (List.getLast_mem hne)).2.2.1

end shape_lemmas

/-! ## Network lemmas -/

section network_lemmas

variable {α : Type} [Field α]

theorem vec_ext {v w : List α} (hlen : v.length = w.length)
    (h : ∀ j, j < v.length → vget v j = vget w j) : v = w := by
  apply List.ext_getElem? 
  intro j
  by_cases hj : j < v.length
  · rw [getElem?_eq_vget v hj, getElem?_eq_vget w (hlen ▸ hj), h j hj]
  · rw [List.getElem?_eq_none (by omega), List.getElem?_eq_none (by omega)]

theorem Layer.map_length (A : Activation α) (l : Layer α) (x : List α) :
    (l.map A x).length = l.output_size := by
  simp [Layer.map]

/-- One `forward()` step, read through the specification's layer map. -/
theorem Layer.forward_step_spec (A : Activation α) {l r : Layer α} (hs : l.Shaped)
    (h : Layer.forward_step A l r) :
    r.input_size = l.input_size ∧ r.output_size = l.output_size ∧ r.weights = l.weights ∧
    r.bias = l.bias ∧ r.input_grad = l.input_grad ∧ r.output_grad = l.output_grad ∧
    r.grad_weights = l.grad_weights ∧ r.grad_bias = l.grad_bias ∧ r.Shaped ∧
    r.input.length = r.input_size ∧ r.output = l.map A r.input := by
  obtain ⟨h1, h2, h3, h4, _, h6, h7, h8, h9, h10, h11, h12⟩ :=
    Layer.forward_spec A { l with input := r.input } r hs h
  refine ⟨h1, h2, h3, h4, h6, h7, h8, h9, h10, h11, ?_⟩
  apply vec_ext
  · rw [Layer.map_length, h10.2.2.1, h2]
  · intro j hj
    have hj2 : j < l.output_size := by
      rw [h10.2.2.1, h2] at hj; exact hj
    rw [h12 j hj2]
    simp [Layer.map, vget, List.getD_eq_getElem?_getD, hj2]

theorem forward_layers_throw (A : Activation α) (x : List α) (l : Layer α)
    (rest : List (Layer α)) (h : x.length ≠ l.input_size) :
    forward_layers A x (l :: rest)
      = .throw "input vectordoes not match input size" ({ l with input := x } :: rest) := by
  rw [forward_layers, Layer.forward_throw A _ h]

/-- The forward loop over well-shaped, chained layers returns; each layer made
one `forward()` step on the input wired to it. -/
theorem forward_layers_ok (A : Activation α) (ls : List (Layer α)) :
    ∀ x : List α,
      List.Chain' (fun a b : Layer α => a.output_size = b.input_size) ls →
      (∀ l ∈ ls, l.Shaped) → (∀ l, ls.head? = some l → x.length = l.input_size) →
      ∃ rs, forward_layers A x ls = .ok () rs ∧
        List.Forall₂ (Layer.forward_step A) ls rs ∧ InputsWired x rs := by
  induction ls with
  | nil => intro x _ _ _; exact ⟨[], rfl, List.Forall₂.nil, trivial⟩
  | cons l rest ih =>
    intro x hc hs hx
    have hlen : ({ l with input := x } : Layer α).input.length
        = ({ l with input := x } : Layer α).input_size := hx l rfl
    have hok := Layer.forward_ok A { l with input := x } hlen
    have hstep : Layer.forward_step A l { l with
        input := x
        output := (List.range l.output_size).foldl (fun output out => vset output out
          (A.f (({ l with input := x } : Layer α).forward_total out + vget l.bias out)))
          l.output } := hok
    have hsl := hs l (List.mem_cons_self _ _)
    cases rest with
    | nil =>
      refine ⟨_, ?_, List.Forall₂.cons hstep List.Forall₂.nil, ⟨rfl, trivial⟩⟩
      rw [forward_layers, hok]
    | cons l2 rest2 =>
      obtain ⟨hc1, hc2⟩ := List.chain'_cons.1 hc
      obtain ⟨rs, hrs, hf, hwired⟩ := ih
        ((List.range l.output_size).foldl (fun output out => vset output out
          (A.f (({ l with input := x } : Layer α).forward_total out + vget l.bias out)))
          l.output) hc2
        (fun a ha => hs a (List.mem_cons_of_mem _ ha))
        (by
          intro a ha
          simp only [List.head?_cons, Option.some.injEq] at ha
          subst ha
          rw [(Layer.forward_output A { l with input := x }).1]
          exact hsl.2.2.1.trans hc1)
      refine ⟨_, ?_, List.Forall₂.cons hstep hf, ⟨rfl, hwired⟩⟩
      rw [forward_layers, hok]
      simp only []
      rw [hrs]

/-- The last layer's output after the forward loop is the composed map. -/
theorem forward_layers_output (A : Activation α) {ls rs : List (Layer α)}
    (hf : List.Forall₂ (Layer.forward_step A) ls rs) :
    ∀ x : List α, InputsWired x rs → (∀ l ∈ ls, l.Shaped) → ls ≠ [] →
      ∃ r, rs.getLast? = some r ∧ r.output = ls.foldl (fun v l => l.map A v) x := by
  induction hf with
  | nil => intro x _ _ hne; exact absurd rfl hne
  | @cons l r ls1 rs1 hstep hrest ih =>
    intro x hw hs _
    obtain ⟨hw1, hw2⟩ := hw
    have hout := (Layer.forward_step_spec A (hs l (List.mem_cons_self _ _)) hstep).2.2.2.2.2.2.2.2.2.2
    rw [hw1] at hout
    cases hrest with
    | nil => exact ⟨r, rfl, by simpa using hout⟩
    | @cons l2 r2 ls2 rs2 hstep2 hrest2 =>
      obtain ⟨q, hq1, hq2⟩ := ih r.output hw2 (fun a ha => hs a (List.mem_cons_of_mem _ ha))
        (by simp)
      refine ⟨q, by rw [List.getLast?_cons_cons]; exact hq1, ?_⟩
      rw [hq2, hout]
      rfl

/-- The backward loop over well-shaped layers, listed from last to first and
chained, returns; each layer made one `backward()` step on the gradient wired
to it. -/
theorem backward_layers_ok (A : Activation α) (ls : List (Layer α)) :
    ∀ g : List α,
      List.Chain' (fun a b : Layer α => b.output_size = a.input_size) ls →
      (∀ l ∈ ls, l.Shaped) → (∀ l, ls.head? = some l → g.length = l.output_size) →
      ∃ rs, backward_layers A g ls = .ok () rs ∧
        List.Forall₂ (Layer.backward_step A) ls rs ∧ GradsWired g rs := by
  induction ls with
  | nil => intro g _ _ _; exact ⟨[], rfl, List.Forall₂.nil, trivial⟩
  | cons l prev ih =>
    intro g hc hs hg
    have hsl := hs l (List.mem_cons_self _ _)
    have hlen : ({ l with output_grad := g } : Layer α).output_grad.length
        = ({ l with output_grad := g } : Layer α).output_size := hg l rfl
    obtain ⟨r, hr⟩ : ∃ r, Layer.backward A { l with output_grad := g } = .ok () r :=
      ⟨_, Layer.backward_ok A _ hlen⟩
    obtain ⟨h1, _, _, _, _, _, h7, h8, _⟩ :=
      Layer.backward_spec A { l with output_grad := g } r hsl hr
    have hog : r.output_grad = g := h7
    have hstep : Layer.backward_step A l r := by
      unfold Layer.backward_step
      rw [hog]
      exact hr
    cases prev with
    | nil =>
      refine ⟨[r], ?_, List.Forall₂.cons hstep List.Forall₂.nil, ⟨hog, trivial⟩⟩
      rw [backward_layers, hr]
    | cons l2 prev2 =>
      obtain ⟨hc1, hc2⟩ := List.chain'_cons.1 hc
      obtain ⟨rs, hrs, hf, hwired⟩ := ih r.input_grad hc2
        (fun a ha => hs a (List.mem_cons_of_mem _ ha))
        (by
          intro a ha
          simp only [List.head?_cons, Option.some.injEq] at ha
          subst ha
          rw [h8.2.2.2.1, h1]
          exact hc1.symm)
      refine ⟨r :: rs, ?_, List.Forall₂.cons hstep hf, ⟨hog, hwired⟩⟩
      rw [backward_layers, hr]
      simp only []
      rw [hrs]

/-- One `backward()` step keeps widths, shape and the forward-pass members. -/
theorem Layer.backward_step_spec (A : Activation α) {l r : Layer α} (hs : l.Shaped)
    (h : Layer.backward_step A l r) :
    r.input_size = l.input_size ∧ r.output_size = l.output_size ∧ r.weights = l.weights ∧
    r.bias = l.bias ∧ r.input = l.input ∧ r.output = l.output ∧ r.Shaped := by
  obtain ⟨h1, h2, h3, h4, h5, h6, _, h8, _⟩ :=
    Layer.backward_spec A { l with output_grad := r.output_grad } r hs h
  exact ⟨h1, h2, h3, h4, h5, h6, h8⟩

/-- The member `network::backward` on a well-shaped network and an error
vector of the output width. -/
theorem network.backward_returns (A : Activation α) (dims : List Nat) (n : network α)
    (error : List α) (h2 : 2 ≤ dims.length) (hb : n.BuiltFrom dims)
    (he : error.length = n.output_size) :
    ∃ rs, n.backward A error = .ok () { n with layers := rs } ∧
      List.Forall₂ (Layer.backward_step A) n.layers rs ∧ GradsWired error rs.reverse := by
  have hne := LayersFit.ne_nil hb h2
  obtain ⟨rs, hrs, hf, hw⟩ := backward_layers_ok A n.layers.reverse error
    (List.chain'_reverse.2 (LayersFit.chain hb))
    (fun l hl => LayersFit.shaped hb l (List.mem_reverse.1 hl))
    (by
      intro l hl
      rw [List.head?_reverse] at hl
      simp [he, network.output_size, hl])
  refine ⟨rs.reverse, ?_, ?_, by simpa using hw⟩
  · simp [network.backward, he, hrs]
  · rw [← List.forall₂_reverse_iff]
    simpa using hf

/-- The member `network::forward` on a well-shaped network and a sample of the
input width. -/
theorem network.forward_returns (A : Activation α) (dims : List Nat) (n : network α)
    (sample : List α) (h2 : 2 ≤ dims.length) (hb : n.BuiltFrom dims)
    (hx : sample.length = n.input_size) :
    ∃ rs, n.forward A sample = .ok () { n with layers := rs } ∧
      List.Forall₂ (Layer.forward_step A) n.layers rs ∧ InputsWired sample rs := by
  obtain ⟨l, rest, hl⟩ := List.exists_cons_of_ne_nil (LayersFit.ne_nil hb h2)
  obtain ⟨rs, hrs, hf, hw⟩ := forward_layers_ok A n.layers sample (LayersFit.chain hb)
    (LayersFit.shaped hb) (by
      intro a ha
      rw [hx]
      simp [network.input_size, ha])
  exact ⟨rs, by simp [network.forward, hrs], hf, hw⟩

theorem network.forward_built (A : Activation α) {dims : List Nat} {n : network α}
    {rs : List (Layer α)} (hb : n.BuiltFrom dims)
    (hf : List.Forall₂ (Layer.forward_step A) n.layers rs) :
    network.BuiltFrom dims { n with layers := rs } :=
  LayersFit.of_forall₂ hb (forall₂_imp_mem hf (LayersFit.shaped hb) (fun _ _ hs hstep =>
    ⟨(Layer.forward_step_spec A hs hstep).1, (Layer.forward_step_spec A hs hstep).2.1,
      (Layer.forward_step_spec A hs hstep).2.2.2.2.2.2.2.2.1⟩))

theorem network.backward_built (A : Activation α) {dims : List Nat} {n : network α}
    {rs : List (Layer α)} (hb : n.BuiltFrom dims)
    (hf : List.Forall₂ (Layer.backward_step A) n.layers rs) :
    network.BuiltFrom dims { n with layers := rs } :=
  LayersFit.of_forall₂ hb (forall₂_imp_mem hf (LayersFit.shaped hb) (fun _ _ hs hstep =>
    ⟨(Layer.backward_step_spec A hs hstep).1, (Layer.backward_step_spec A hs hstep).2.1,
      (Layer.backward_step_spec A hs hstep).2.2.2.2.2.2⟩))

theorem network.update_weights_built {dims : List Nat} {n : network α}
    (hb : n.BuiltFrom dims) : n.update_weights.BuiltFrom dims :=
  LayersFit.map hb (Layer.update_weights n.alpha) (fun l hs =>
    ⟨(Layer.update_weights_spec n.alpha l hs).1, (Layer.update_weights_spec n.alpha l hs).2.1,
      (Layer.update_weights_spec n.alpha l hs).2.2.2.2.2.2.1⟩)

end network_lemmas

/-! ## Training lemmas -/

section training_lemmas

variable {α κ : Type} [Field α]

/-- The ghost fields and the callback's surroundings are not touched by the
work on one sample, whether it returns or throws. -/
theorem train_sample_ghost (A : Activation α) (L : LossFunction α) (s : train_state α κ)
    (row : List α) (label : Nat) :
    (train_sample A L s row label).state.env = s.env ∧
    (train_sample A L s row label).state.epochs = s.epochs ∧
    (train_sample A L s row label).state.calls = s.calls := by
  unfold train_sample
  split
  · exact ⟨rfl, rfl, rfl⟩
  · split
    · exact ⟨rfl, rfl, rfl⟩
    · dsimp only
      split
      · exact ⟨rfl, rfl, rfl⟩
      · exact ⟨rfl, rfl, rfl⟩

theorem train_epoch_ghost (A : Activation α) (L : LossFunction α) (data : List (List α)) :
    ∀ (labels : List Nat) (s : train_state α κ),
      (train_epoch A L s data labels).state.env = s.env ∧
      (train_epoch A L s data labels).state.epochs = s.epochs ∧
      (train_epoch A L s data labels).state.calls = s.calls := by
  induction data with
  | nil => intro labels s; exact ⟨rfl, rfl, rfl⟩
  | cons row rows ih =>
    intro labels s
    cases labels with
    | nil => exact ⟨rfl, rfl, rfl⟩
    | cons label labels =>
      have hg := train_sample_ghost A L s row label
      rw [train_epoch]
      cases hts : train_sample A L s row label with
      | throw why s1 =>
        rw [hts] at hg
        exact hg
      | ok u s1 =>
        rw [hts] at hg
        obtain ⟨g1, g2, g3⟩ := hg
        obtain ⟨i1, i2, i3⟩ := ih labels s1
        exact ⟨i1.trans g1, i2.trans g2, i3.trans g3⟩

end training_lemmas

/-! ## Evaluation lemmas -/

section evaluation_lemmas

variable {α : Type} [Field α]

theorem Layer.map_congr (A : Activation α) {l r : Layer α} (h : Layer.SameParams l r)
    (x : List α) : r.map A x = l.map A x := by
  obtain ⟨h1, h2, h3, h4⟩ := h
  simp only [Layer.map, h1, h2, h3, h4]

theorem layers_map_congr (A : Activation α) {ls rs : List (Layer α)}
    (h : List.Forall₂ Layer.SameParams ls rs) :
    ∀ x : List α, rs.foldl (fun v l => l.map A v) x = ls.foldl (fun v l => l.map A v) x := by
  induction h with
  | nil => intro x; rfl
  | cons hlr _ ih =>
    intro x
    simp only [List.foldl_cons]
    rw [Layer.map_congr A hlr, ih]

theorem network.map_same (A : Activation α) {n m : network α}
    (h : List.Forall₂ Layer.SameParams n.layers m.layers) (x : List α) :
    m.map A x = n.map A x :=
  layers_map_congr A h x

/-- Running `forward()` on a layer that just ran it changes nothing. -/
theorem Layer.forward_idem (A : Activation α) {l r : Layer α} (hs : l.Shaped)
    (h : Layer.forward_step A l r) : Layer.forward A r = .ok () r := by
  obtain ⟨h1, h2, h3, h4, _, _, _, _, h9, h10, h11⟩ := Layer.forward_step_spec A hs h
  rw [Layer.forward_ok A r h10]
  have hout : (List.range r.output_size).foldl
      (fun output out => vset output out (A.f (r.forward_total out + vget r.bias out)))
      r.output = r.output := by
    obtain ⟨p1, p2⟩ := Layer.forward_output A r
    apply vec_ext p1
    intro j hj
    rw [p1] at hj
    have hj2 : j < r.output_size := by rw [← h9.2.2.1]; exact hj
    rw [p2 j hj, if_pos hj2, Layer.forward_total_eq, h11,
      ← Layer.map_congr A (l := l) (r := r) ⟨h1, h2, h3, h4⟩]
    simp [Layer.map, vget, List.getD_eq_getElem?_getD, hj2]
  rw [hout]

theorem forward_layers_idem (A : Activation α) {ls rs : List (Layer α)}
    (hf : List.Forall₂ (Layer.forward_step A) ls rs) :
    ∀ x : List α, InputsWired x rs → (∀ l ∈ ls, l.Shaped) →
      forward_layers A x rs = .ok () rs := by
  induction hf with
  | nil => intro x _ _; rfl
  | @cons l r ls1 rs1 hstep hrest ih =>
    intro x hw hs
    obtain ⟨hw1, hw2⟩ := hw
    have hr : Layer.forward A { r with input := x } = .ok () r := by
      have : ({ r with input := x } : Layer α) = r := by rw [← hw1]
      rw [this]
      exact Layer.forward_idem A (hs l (List.mem_cons_self _ _)) hstep
    have hi := ih r.output hw2 (fun a ha => hs a (List.mem_cons_of_mem _ ha))
    cases rs1 with
    | nil => rw [forward_layers, hr]
    | cons r2 rs2 =>
      rw [forward_layers, hr]
      simp only []
      rw [hi]

/-- What `network::forward` does on a well-shaped network and a sample of the
input width: it returns; widths, weights and biases are kept; the output is
the composed layer map; a second call with the same sample changes nothing. -/
theorem network.forward_eval (A : Activation α) (dims : List Nat) (n : network α)
    (sample : List α) (h2 : 2 ≤ dims.length) (hb : n.BuiltFrom dims)
    (hx : sample.length = n.input_size) :
    ∃ r, n.forward A sample = .ok () r ∧ r.BuiltFrom dims ∧ r.alpha = n.alpha ∧
      List.Forall₂ Layer.SameParams n.layers r.layers ∧ r.output = n.map A sample ∧
      r.forward A sample = .ok () r := by
  obtain ⟨rs, hrs, hf, hw⟩ := network.forward_returns A dims n sample h2 hb hx
  have hs := LayersFit.shaped hb
  obtain ⟨q, hq1, hq2⟩ := forward_layers_output A hf sample hw hs (LayersFit.ne_nil hb h2)
  refine ⟨_, hrs, network.forward_built A hb hf, rfl, ?_, ?_, ?_⟩
  · exact forall₂_imp_mem hf hs (fun _ _ hsl hstep =>
      ⟨(Layer.forward_step_spec A hsl hstep).1, (Layer.forward_step_spec A hsl hstep).2.1,
        (Layer.forward_step_spec A hsl hstep).2.2.1,
        (Layer.forward_step_spec A hsl hstep).2.2.2.1⟩)
  · simp only [network.output, hq1, hq2, network.map]
  · simp only [network.forward, forward_layers_idem A hf sample hw hs]

end evaluation_lemmas

section test_lemmas

variable {α : Type} [LinearOrderedField α]

/-- The scan of `std::max_element` after `k` steps holds the first maximum of
the first `k + 1` entries. -/
theorem max_element_scan (v : List α) (k : Nat) :
    (List.range k).foldl
        (fun largest i => if vget v largest < vget v (i + 1) then i + 1 else largest) 0 ≤ k ∧
    (∀ j, j ≤ k → vget v j ≤ vget v ((List.range k).foldl
        (fun largest i => if vget v largest < vget v (i + 1) then i + 1 else largest) 0)) ∧
    (∀ j, j < (List.range k).foldl
        (fun largest i => if vget v largest < vget v (i + 1) then i + 1 else largest) 0 →
      vget v j < vget v ((List.range k).foldl
        (fun largest i => if vget v largest < vget v (i + 1) then i + 1 else largest) 0)) := by
  induction k with
  | zero =>
    refine ⟨Nat.le_refl _, fun j hj => ?_, fun j hj => ?_⟩
    · rw [Nat.le_zero.1 hj]
      exact le_refl _
    · exact absurd hj (Nat.not_lt_zero _)
  | succ k ih =>
    rw [List.range_succ, List.foldl_append]
    simp only [List.foldl_cons, List.foldl_nil]
    obtain ⟨h1, h2, h3⟩ := ih
    by_cases hlt : vget v ((List.range k).foldl
        (fun largest i => if vget v largest < vget v (i + 1) then i + 1 else largest) 0)
        < vget v (k + 1)
    · rw [if_pos hlt]
      refine ⟨Nat.le_refl _, fun j hj => ?_, fun j hj => ?_⟩
      · rcases Nat.lt_or_eq_of_le hj with hj1 | hj1
        · exact le_of_lt (lt_of_le_of_lt (h2 j (Nat.le_of_lt_succ hj1)) hlt)
        · rw [hj1]
      · exact lt_of_le_of_lt (h2 j (Nat.le_of_lt_succ hj)) hlt
    · rw [if_neg hlt]
      refine ⟨Nat.le_succ_of_le h1, fun j hj => ?_, h3⟩
      rcases Nat.lt_or_eq_of_le hj with hj1 | hj1
      · exact h2 j (Nat.le_of_lt_succ hj1)
      · rw [hj1]
        exact not_lt.1 hlt

/-- On a non-empty vector `std::max_element` returns the first maximum. -/
theorem max_element_spec (v : List α) (hv : v ≠ []) :
    ∃ m, max_element v = some m ∧ IsFirstMax v m := by
  have hlen : 0 < v.length := List.length_pos.2 hv
  obtain ⟨h1, h2, h3⟩ := max_element_scan v (v.length - 1)
  refine ⟨_, ?_, ⟨by omega, fun j hj => h2 j (by omega), h3⟩⟩
  simp [max_element, hv]

theorem IsFirstMax.unique {v : List α} {a b : Nat} (ha : IsFirstMax v a)
    (hb : IsFirstMax v b) : a = b := by
  rcases Nat.lt_trichotomy a b with h | h | h
  · exact absurd (hb.2.2 a h) (not_lt.2 (ha.2.1 b hb.1))
  · exact h
  · exact absurd (ha.2.2 b h) (not_lt.2 (hb.2.1 a ha.1))

/-- The loop of `test` on valid rows: every row counts for `total`, and for
`correct` when its label is the first maximum of the forward output. -/
theorem test_loop_spec (A : Activation α) (dims : List Nat) (h2 : 2 ≤ dims.length)
    (n : network α) (hb : n.BuiltFrom dims) (hout : 1 ≤ n.output_size)
    (data : List (List α)) :
    ∀ (labels : List Nat) (cur : network α) (total correct : Nat), cur.BuiltFrom dims →
      (∀ x, cur.map A x = n.map A x) → data.length = labels.length →
      (∀ row ∈ data, row.length = n.input_size) →
      ∃ fin, test_loop A cur total correct data labels
          = .ok (total + data.length, correct + (data.zip labels).countP
              (fun p => decide (IsFirstMax (n.map A p.1) p.2))) fin ∧
        fin.BuiltFrom dims ∧ ∀ x, fin.map A x = n.map A x := by
  induction data with
  | nil =>
    intro labels cur total correct hc hm _ _
    exact ⟨cur, by simp [test_loop], hc, hm⟩
  | cons row rows ih =>
    intro labels cur total correct hc hm hlen hrows
    cases labels with
    | nil => simp at hlen
    | cons label labels =>
      obtain ⟨z1, z2⟩ := network.BuiltFrom.sizes_eq hb hc h2
      obtain ⟨r, hr, hrb, _, hsame, hro, _⟩ := network.forward_eval A dims cur row h2 hc
        (by rw [z1]; exact hrows row (List.mem_cons_self _ _))
      have hrm : ∀ x, r.map A x = n.map A x := fun x =>
        (network.map_same A hsame x).trans (hm x)
      have hne : r.output ≠ [] := by
        intro h0
        have hl := network.output_length hrb h2
        rw [h0, (network.BuiltFrom.sizes_eq hb hrb h2).2] at hl
        simp at hl
        omega
      obtain ⟨m, hmax, hfm⟩ := max_element_spec r.output hne
      have hiff : label = m ↔ IsFirstMax (n.map A row) label := by
        rw [← hm row, ← hro]
        constructor
        · rintro rfl
          exact hfm
        · intro h
          exact IsFirstMax.unique h hfm
      obtain ⟨fin, hfin, hfb, hfmap⟩ := ih labels r (total + 1)
        (if label = m then correct + 1 else correct) hrb hrm
        (by simpa using hlen) (fun x hx => hrows x (List.mem_cons_of_mem _ hx))
      refine ⟨fin, ?_, hfb, hfmap⟩
      rw [test_loop, hr]
      simp only [hmax]
      rw [hfin]
      simp only [List.zip_cons_cons, List.countP_cons, List.length_cons, decide_eq_true_eq]
      by_cases hl : label = m
      · have := hiff.1 hl
        simp only [hl, this, if_true, Result.ok.injEq, Prod.mk.injEq, and_true]
        rw [← hl]
        simp only [this, if_true]
        omega
      · have := mt hiff.2 hl
        simp only [hl, this, if_false, Result.ok.injEq, Prod.mk.injEq, and_true]
        omega

end test_lemmas

/-! ## Loss lemmas -/

section loss_lemmas

variable {α : Type} [LinearOrderedField α]

theorem error_loss_f_eq (p o : List α) :
    (error_loss : LossFunction α).f p o
      = ∑ i in Finset.range p.length, |vget p i - vget o i| := by
  show (List.range p.length).foldl (fun sum i => sum + |vget p i - vget o i|) 0 = _
  rw [foldl_total (fun i => |vget p i - vget o i|)]
  simp

theorem absolute_loss_f_eq (p o : List α) :
    (absolute_loss : LossFunction α).f p o
      = ∑ i in Finset.range p.length, |vget p i - vget o i| := by
  show (List.range p.length).foldl (fun sum i => sum + |vget p i - vget o i|) 0 = _
  rw [foldl_total (fun i => |vget p i - vget o i|)]
  simp

theorem mse_loss_f_eq (p o : List α) :
    (mse_loss : LossFunction α).f p o
      = (∑ i in Finset.range p.length, (vget p i - vget o i) * (vget p i - vget o i))
        / (p.length : α) := by
  show (List.range p.length).foldl
    (fun sum i => sum + (vget p i - vget o i) * (vget p i - vget o i)) 0 / _ = _
  rw [foldl_total (fun i => (vget p i - vget o i) * (vget p i - vget o i))]
  simp

theorem error_loss_df_eq (p o r : List α) :
    ((error_loss : LossFunction α).df p o r).length = r.length ∧
    ∀ i, i < r.length → vget ((error_loss : LossFunction α).df p o r) i
      = if i < p.length then vget p i - vget o i else vget r i :=
  foldl_pointwise (fun i _ => vget p i - vget o i) p.length r

theorem mse_loss_df_eq (p o r : List α) :
    ((mse_loss : LossFunction α).df p o r).length = r.length ∧
    ∀ i, i < r.length → vget ((mse_loss : LossFunction α).df p o r) i
      = if i < p.length then 2 / (p.length : α) * (vget p i - vget o i) else vget r i :=
  foldl_pointwise (fun i _ => 2 / (p.length : α) * (vget p i - vget o i)) p.length r

theorem absolute_loss_df_eq (p o r : List α) :
    ((absolute_loss : LossFunction α).df p o r).length = r.length ∧
    ∀ i, i < r.length → vget ((absolute_loss : LossFunction α).df p o r) i
      = if i < p.length then sgn (vget p i - vget o i) / (p.length : α) else vget r i := by
  have h := foldl_pointwise (fun i _ => sgn (vget p i - vget o i) / (p.length : α)) p.length r
  have hbody : (absolute_loss : LossFunction α).df p o r
      = (List.range p.length).foldl
          (fun w i => vset w i (sgn (vget p i - vget o i) / (p.length : α))) r := by
    show (List.range p.length).foldl _ r = _
    apply List.foldl_ext
    intro w i _
    unfold sgn
    by_cases h1 : vget p i - vget o i < 0
    · simp [h1, neg_div]
    · by_cases h2 : vget p i - vget o i > 0
      · have h3 : 0 < vget p i - vget o i := h2
        simp [h1, h2, h3]
      · have h3 : ¬ 0 < vget p i - vget o i := h2
        simp [h1, h2, h3]
  rw [hbody]
  exact h

/-- The built-in losses read `observed[i]` for `i < predicted.size()` only. -/
theorem loss_ignores_tail (p o extra r : List α) (h : o.length = p.length) :
    (error_loss : LossFunction α).f p (o ++ extra) = (error_loss : LossFunction α).f p o ∧
    (error_loss : LossFunction α).df p (o ++ extra) r = (error_loss : LossFunction α).df p o r ∧
    (absolute_loss : LossFunction α).f p (o ++ extra) = (absolute_loss : LossFunction α).f p o ∧
    (absolute_loss : LossFunction α).df p (o ++ extra) r
      = (absolute_loss : LossFunction α).df p o r ∧
    (mse_loss : LossFunction α).f p (o ++ extra) = (mse_loss : LossFunction α).f p o ∧
    (mse_loss : LossFunction α).df p (o ++ extra) r = (mse_loss : LossFunction α).df p o r := by
  have hv : ∀ i ∈ List.range p.length, vget (o ++ extra) i = vget o i := by
    intro i hi
    have hi2 : i < o.length := by rw [h]; exact List.mem_range.1 hi
    simp [vget, List.getD_eq_getElem?_getD, List.getElem?_append_left hi2]
  refine ⟨?_, ?_, ?_, ?_, ?_, ?_⟩
  · show (List.range p.length).foldl _ 0 = (List.range p.length).foldl _ 0
    exact List.foldl_ext _ _ _ (fun a i hi => by simp only [hv i hi])
  · show (List.range p.length).foldl _ r = (List.range p.length).foldl _ r
    exact List.foldl_ext _ _ _ (fun a i hi => by simp only [hv i hi])
  · show (List.range p.length).foldl _ 0 = (List.range p.length).foldl _ 0
    exact List.foldl_ext _ _ _ (fun a i hi => by simp only [hv i hi])
  · show (List.range p.length).foldl _ r = (List.range p.length).foldl _ r
    exact List.foldl_ext _ _ _ (fun a i hi => by simp only [hv i hi])
  · show (List.range p.length).foldl _ 0 / _ = (List.range p.length).foldl _ 0 / _
    congr 1
    exact List.foldl_ext _ _ _ (fun a i hi => by simp only [hv i hi])
  · show (List.range p.length).foldl _ r = (List.range p.length).foldl _ r
    exact List.foldl_ext _ _ _ (fun a i hi => by simp only [hv i hi])

end loss_lemmas

/-! ## Activation lemmas -/

section activation_lemmas

/-- The sigmoid's `df` at the forward output is the derivative of its `f`. -/
theorem sigmoid_hasDerivAt (x : ℝ) :
    HasDerivAt (sigmoid_activation Real.exp).f
      ((sigmoid_activation Real.exp).df ((sigmoid_activation Real.exp).f x)) x := by
  have hpos : (1 : ℝ) + Real.exp (-x) ≠ 0 := by
    have := Real.exp_pos (-x)
    linarith
  have h1 : HasDerivAt (fun t : ℝ => Real.exp (-t)) (Real.exp (-x) * (-1)) x :=
    (Real.hasDerivAt_exp (-x)).comp x (hasDerivAt_neg x)
  have h2 : HasDerivAt (fun t : ℝ => 1 + Real.exp (-t)) (Real.exp (-x) * (-1)) x :=
    h1.const_add 1
  have h3 := h2.inv hpos
  have hf : (sigmoid_activation Real.exp).f = fun t : ℝ => (1 + Real.exp (-t))⁻¹ := by
    funext t
    simp [sigmoid_activation]
  rw [hf]
  convert h3 using 1
  simp only [sigmoid_activation]
  field_simp
  ring

/-- The hyperbolic tangent's `df` at the forward output is the derivative of
its `f`. -/
theorem tanh_hasDerivAt (x : ℝ) :
    HasDerivAt (tanh_activation Real.tanh).f
      ((tanh_activation Real.tanh).df ((tanh_activation Real.tanh).f x)) x := by
  have hc : Real.cosh x ≠ 0 := (Real.cosh_pos x).ne'
  have h := (Real.hasDerivAt_sinh x).div (Real.hasDerivAt_cosh x) hc
  have hf : (tanh_activation Real.tanh).f = fun t : ℝ => Real.sinh t / Real.cosh t := by
    funext t
    simp [tanh_activation, Real.tanh_eq_sinh_div_cosh]
  rw [hf]
  convert h using 1
  simp only [tanh_activation, Real.tanh_eq_sinh_div_cosh]
  rw [eq_div_iff (pow_ne_zero 2 hc), sub_mul, one_mul, div_mul_div_comm, ← sq, ← sq,
    div_mul_cancel₀ _ (pow_ne_zero 2 hc)]

end activation_lemmas

/-! ## Derivative lemmas -/

section derivative_lemmas

/-- A finite sum in which only term `i` varies has the derivative of term `i`. -/
theorem hasDerivAt_sum_single (F : ℕ → ℝ → ℝ) (N i : ℕ) (hi : i < N) (d x : ℝ)
    (hconst : ∀ j, j < N → j ≠ i → ∀ t, F j t = F j x) (hd : HasDerivAt (F i) d x) :
    HasDerivAt (fun t => ∑ j in Finset.range N, F j t) d x := by
  have hterm : ∀ j ∈ Finset.range N, HasDerivAt (F j) (if j = i then d else 0) x := by
    intro j hj
    by_cases hji : j = i
    · subst hji
      simpa using hd
    · simp only [if_neg hji]
      exact (hasDerivAt_const x (F j x)).congr_of_eventuallyEq
        (Filter.Eventually.of_forall (hconst j (Finset.mem_range.1 hj) hji))
  have h : HasDerivAt (fun t => ∑ j in Finset.range N, F j t)
      (∑ j in Finset.range N, if j = i then d else 0) x := HasDerivAt.sum hterm
  rw [Finset.sum_ite_eq'] at h
  simpa [hi] using h

/-- A finite sum over the entries of a vector, as a function of entry `i`. -/
theorem hasDerivAt_sum_vset (G : ℕ → ℝ → ℝ) (p : List ℝ) (N i : ℕ) (hi : i < p.length)
    (hN : i < N) (d : ℝ) (hd : HasDerivAt (G i) d (vget p i)) :
    HasDerivAt (fun t => ∑ j in Finset.range N, G j (vget (vset p i t) j)) d (vget p i) := by
  apply hasDerivAt_sum_single (fun j t => G j (vget (vset p i t) j)) N i hN
  · intro j _ hji t
    simp only [vget_vset_ne _ _ (Ne.symm hji)]
  · have : (fun t => G i (vget (vset p i t) i)) = G i := by
      funext t
      rw [vget_vset_eq _ _ hi]
    rw [this]
    exact hd

theorem hasDerivAt_abs_sub (c x : ℝ) (h : x ≠ c) :
    HasDerivAt (fun u : ℝ => |u - c|) (sgn (x - c)) x := by
  have hsub : HasDerivAt (fun u : ℝ => u - c) 1 x := (hasDerivAt_id x).sub_const c
  rcases lt_or_gt_of_ne h with hlt | hgt
  · have hneg : x - c < 0 := by linarith
    have := (hasDerivAt_abs_neg hneg).comp x hsub
    simpa [sgn, hneg] using this
  · have hpos : 0 < x - c := by linarith
    have := (hasDerivAt_abs_pos hpos).comp x hsub
    simpa [sgn, hpos, not_lt.2 hpos.le] using this

theorem hasDerivAt_sq_sub (c x : ℝ) :
    HasDerivAt (fun u : ℝ => (u - c) * (u - c)) (2 * (x - c)) x := by
  have hsub : HasDerivAt (fun u : ℝ => u - c) 1 x := (hasDerivAt_id x).sub_const c
  have := hsub.mul hsub
  convert this using 1
  ring

/-- The partial derivative of the mse cost with respect to `predicted[i]`. -/
theorem mse_loss_f_hasDerivAt (p o : List ℝ) (i : ℕ) (hi : i < p.length) :
    HasDerivAt (fun t => (mse_loss : LossFunction ℝ).f (vset p i t) o)
      (2 / (p.length : ℝ) * (vget p i - vget o i)) (vget p i) := by
  have h := (hasDerivAt_sum_vset (fun j u => (u - vget o j) * (u - vget o j)) p p.length i hi hi
    _ (hasDerivAt_sq_sub (vget o i) (vget p i))).div_const (p.length : ℝ)
  have hf : (fun t => (mse_loss : LossFunction ℝ).f (vset p i t) o)
      = fun t => (∑ j in Finset.range p.length,
          (vget (vset p i t) j - vget o j) * (vget (vset p i t) j - vget o j))
            / (p.length : ℝ) := by
    funext t
    rw [mse_loss_f_eq, length_vset]
  rw [hf]
  convert h using 1
  ring

/-- The partial derivative of the sum of absolute differences, the cost of
`error_loss` and of `absolute_loss`, with respect to `predicted[i]`. -/
theorem abs_loss_f_hasDerivAt (p o : List ℝ) (i : ℕ) (hi : i < p.length)
    (hne : vget p i ≠ vget o i) :
    HasDerivAt (fun t => (error_loss : LossFunction ℝ).f (vset p i t) o)
      (sgn (vget p i - vget o i)) (vget p i) ∧
    HasDerivAt (fun t => (absolute_loss : LossFunction ℝ).f (vset p i t) o)
      (sgn (vget p i - vget o i)) (vget p i) := by
  have h := hasDerivAt_sum_vset (fun j u => |u - vget o j|) p p.length i hi hi
    _ (hasDerivAt_abs_sub (vget o i) (vget p i) hne)
  have hf : (fun t => (error_loss : LossFunction ℝ).f (vset p i t) o)
      = fun t => ∑ j in Finset.range p.length, |vget (vset p i t) j - vget o j| := by
    funext t
    rw [error_loss_f_eq, length_vset]
  have hg : (fun t => (absolute_loss : LossFunction ℝ).f (vset p i t) o)
      = fun t => ∑ j in Finset.range p.length, |vget (vset p i t) j - vget o j| := by
    funext t
    rw [absolute_loss_f_eq, length_vset]
  rw [hf, hg]
  exact ⟨h, h⟩

/-- The partial derivative of half the sum of squared differences. -/
theorem half_squares_hasDerivAt (p o : List ℝ) (i : ℕ) (hi : i < p.length) :
    HasDerivAt (fun t => 1 / 2 * ∑ j in Finset.range p.length,
      (vget (vset p i t) j - vget o j) ^ 2) (vget p i - vget o i) (vget p i) := by
  have h := (hasDerivAt_sum_vset (fun j u => (u - vget o j) * (u - vget o j)) p p.length i hi hi
    _ (hasDerivAt_sq_sub (vget o i) (vget p i))).const_mul (1 / 2 : ℝ)
  have hf : (fun t => 1 / 2 * ∑ j in Finset.range p.length,
      (vget (vset p i t) j - vget o j) ^ 2)
      = fun t => 1 / 2 * ∑ j in Finset.range p.length,
          (vget (vset p i t) j - vget o j) * (vget (vset p i t) j - vget o j) := by
    funext t
    congr 1
    exact Finset.sum_congr rfl (fun j _ => sq _)
  rw [hf]
  convert h using 1
  ring

theorem affine_vset_input_self (n : ℕ) (W b x : List ℝ) (i o : ℕ) :
    affine n W b (vset x i (vget x i)) o = affine n W b x o := by
  simp only [affine, vget_vset_self]

theorem affine_vset_weight_self (n : ℕ) (W b x : List ℝ) (k o : ℕ) :
    affine n (vset W k (vget W k)) b x o = affine n W b x o := by
  simp only [affine, vget_vset_self]

theorem affine_vset_bias_self (n : ℕ) (W b x : List ℝ) (k o : ℕ) :
    affine n W (vset b k (vget b k)) x o = affine n W b x o := by
  simp only [affine, vget_vset_self]

/-- The partial derivative of the layer's scalar with respect to `x[i]`. -/
theorem objective_hasDerivAt_input (A : Activation ℝ)
    (hA : ∀ z, HasDerivAt A.f (A.df (A.f z)) z) (n m : ℕ) (g W b x : List ℝ) (i : ℕ)
    (hi : i < x.length) (hin : i < n) :
    HasDerivAt (fun t => layer_objective A n m g W b (vset x i t))
      (∑ o in Finset.range m,
        vget g o * (A.df (A.f (affine n W b x o)) * vget W (o * n + i))) (vget x i) := by
  have hz : ∀ o, HasDerivAt (fun t => affine n W b (vset x i t) o) (vget W (o * n + i))
      (vget x i) := by
    intro o
    have hG : HasDerivAt (fun u : ℝ => vget W (o * n + i) * u) (vget W (o * n + i))
        (vget x i) := by
      simpa using (hasDerivAt_id (vget x i)).const_mul (vget W (o * n + i))
    exact (hasDerivAt_sum_vset (fun j u => vget W (o * n + j) * u) x n i hi hin _ hG).add_const
      (vget b o)
  have hf : ∀ o ∈ Finset.range m,
      HasDerivAt (fun t => vget g o * A.f (affine n W b (vset x i t) o))
        (vget g o * (A.df (A.f (affine n W b x o)) * vget W (o * n + i))) (vget x i) := by
    intro o _
    have hc := (hA (affine n W b (vset x i (vget x i)) o)).comp (vget x i) (hz o)
    rw [affine_vset_input_self] at hc
    exact hc.const_mul (vget g o)
  exact HasDerivAt.sum hf

/-- The partial derivative of the layer's scalar with respect to `W[o, i]`. -/
theorem objective_hasDerivAt_weight (A : Activation ℝ)
    (hA : ∀ z, HasDerivAt A.f (A.df (A.f z)) z) (n m : ℕ) (g W b x : List ℝ) (o i : ℕ)
    (ho : o < m) (hi : i < n) (hk : o * n + i < W.length) :
    HasDerivAt (fun t => layer_objective A n m g (vset W (o * n + i) t) b x)
      (vget g o * (A.df (A.f (affine n W b x o)) * vget x i)) (vget W (o * n + i)) := by
  apply hasDerivAt_sum_single
    (fun o1 t => vget g o1 * A.f (affine n (vset W (o * n + i) t) b x o1)) m o ho
  · intro o1 _ hne t
    have : ∀ u, affine n (vset W (o * n + i) u) b x o1 = affine n W b x o1 := by
      intro u
      simp only [affine]
      congr 1
      apply Finset.sum_congr rfl
      intro j hj
      rw [vget_vset_ne]
      intro heq
      exact hne ((row_major_inj hi (Finset.mem_range.1 hj)).1 heq).1.symm
    simp only [this]
  · have hz : HasDerivAt (fun t => affine n (vset W (o * n + i) t) b x o) (vget x i)
        (vget W (o * n + i)) := by
      apply HasDerivAt.add_const
      apply hasDerivAt_sum_single
        (fun j t => vget (vset W (o * n + i) t) (o * n + j) * vget x j) n i hi
      · intro j _ hne t
        rw [vget_vset_ne, vget_vset_ne]
        · intro heq
          exact hne ((row_major_inj hi (by assumption)).1 heq).2.symm
        · intro heq
          exact hne ((row_major_inj hi (by assumption)).1 heq).2.symm
      · have : (fun t => vget (vset W (o * n + i) t) (o * n + i) * vget x i)
            = fun t => t * vget x i := by
          funext t
          rw [vget_vset_eq _ _ hk]
        rw [this]
        simpa using (hasDerivAt_id (vget W (o * n + i))).mul_const (vget x i)
    have hc := (hA (affine n (vset W (o * n + i) (vget W (o * n + i))) b x o)).comp
      (vget W (o * n + i)) hz
    rw [affine_vset_weight_self] at hc
    exact hc.const_mul (vget g o)

/-- The partial derivative of the layer's scalar with respect to `b[o]`. -/
theorem objective_hasDerivAt_bias (A : Activation ℝ)
    (hA : ∀ z, HasDerivAt A.f (A.df (A.f z)) z) (n m : ℕ) (g W b x : List ℝ) (o : ℕ)
    (ho : o < m) (hb : o < b.length) :
    HasDerivAt (fun t => layer_objective A n m g W (vset b o t) x)
      (vget g o * A.df (A.f (affine n W b x o))) (vget b o) := by
  apply hasDerivAt_sum_single
    (fun o1 t => vget g o1 * A.f (affine n W (vset b o t) x o1)) m o ho
  · intro o1 _ hne t
    simp only [affine, vget_vset_ne _ _ (Ne.symm hne)]
  · have hz : HasDerivAt (fun t => affine n W (vset b o t) x o) 1 (vget b o) := by
      have : (fun t => affine n W (vset b o t) x o)
          = fun t => (∑ j in Finset.range n, vget W (o * n + j) * vget x j) + t := by
        funext t
        simp only [affine, vget_vset_eq _ _ hb]
      rw [this]
      exact (hasDerivAt_id (vget b o)).const_add _
    have hc := (hA (affine n W (vset b o (vget b o)) x o)).comp (vget b o) hz
    rw [affine_vset_bias_self, mul_one] at hc
    exact hc.const_mul (vget g o)

/-- For an activation whose `df` at the forward output is the derivative of
its `f`: after `forward()` on the input `x` and `backward()` on the output
gradient `g`, a layer with zero accumulators holds the partial derivatives of
its scalar `S` with respect to the input, the weights and the bias. -/
theorem Layer.backward_is_gradient (A : Activation ℝ)
    (hA : ∀ z, HasDerivAt A.f (A.df (A.f z)) z) (l : Layer ℝ) (x g : List ℝ)
    (hs : l.Shaped) (hx : x.length = l.input_size) (hg : g.length = l.output_size)
    (hgw : l.grad_weights = List.replicate (l.input_size * l.output_size) 0)
    (hgb : l.grad_bias = List.replicate l.output_size 0) :
    ∃ l1 l2, Layer.forward A { l with input := x } = .ok () l1 ∧
      Layer.backward A { l1 with output_grad := g } = .ok () l2 ∧
      (∀ i, i < l.input_size →
        HasDerivAt (fun t => layer_objective A l.input_size l.output_size g l.weights l.bias
          (vset x i t)) (vget l2.input_grad i) (vget x i)) ∧
      (∀ o i, o < l.output_size → i < l.input_size →
        HasDerivAt (fun t => layer_objective A l.input_size l.output_size g
          (vset l.weights (o * l.input_size + i) t) l.bias x)
          (vget l2.grad_weights (o * l.input_size + i))
          (vget l.weights (o * l.input_size + i))) ∧
      (∀ o, o < l.output_size →
        HasDerivAt (fun t => layer_objective A l.input_size l.output_size g l.weights
          (vset l.bias o t) x) (vget l2.grad_bias o) (vget l.bias o)) := by
  have hlen : ({ l with input := x } : Layer ℝ).input.length
      = ({ l with input := x } : Layer ℝ).input_size := hx
  obtain ⟨l1, hl1⟩ : ∃ l1, Layer.forward A { l with input := x } = .ok () l1 :=
    ⟨_, Layer.forward_ok A _ hlen⟩
  obtain ⟨f1, f2, f3, f4, f5, _, _, f8, f9, f10, _, f12⟩ :=
    Layer.forward_spec A { l with input := x } l1 hs hl1
  have f1' : l1.input_size = l.input_size := f1
  have f2' : l1.output_size = l.output_size := f2
  have f3' : l1.weights = l.weights := f3
  have f5' : l1.input = x := f5
  have f8' : l1.grad_weights = l.grad_weights := f8
  have f9' : l1.grad_bias = l.grad_bias := f9
  have hout : ∀ o, o < l.output_size →
      vget l1.output o = A.f (affine l.input_size l.weights l.bias x o) := fun o ho => f12 o ho
  have hlen2 : ({ l1 with output_grad := g } : Layer ℝ).output_grad.length
      = ({ l1 with output_grad := g } : Layer ℝ).output_size := hg.trans f2'.symm
  obtain ⟨l2, hl2⟩ : ∃ l2, Layer.backward A { l1 with output_grad := g } = .ok () l2 :=
    ⟨_, Layer.backward_ok A _ hlen2⟩
  obtain ⟨_, _, _, _, _, _, _, _, b9, b10, b11⟩ :=
    Layer.backward_spec A { l1 with output_grad := g } l2 f10 hl2
  refine ⟨l1, l2, hl1, hl2, fun i hi => ?_, fun o i ho hi => ?_, fun o ho => ?_⟩
  · have e : vget l2.input_grad i = ∑ o in Finset.range l.output_size,
        vget g o * (A.df (A.f (affine l.input_size l.weights l.bias x o))
          * vget l.weights (o * l.input_size + i)) := by
      have := b9 i (by show i < l1.input_size; rw [f1']; exact hi)
      simp only [Layer.grad, f1', f2', f3'] at this
      rw [this]
      apply Finset.sum_congr rfl
      intro o ho
      rw [hout o (Finset.mem_range.1 ho)]
      ring
    rw [e]
    exact objective_hasDerivAt_input A hA _ _ g l.weights l.bias x i (by rw [hx]; exact hi) hi
  · have e : vget l2.grad_weights (o * l.input_size + i)
        = vget g o * (A.df (A.f (affine l.input_size l.weights l.bias x o)) * vget x i) := by
      have := b10 o i (by show o < l1.output_size; rw [f2']; exact ho)
        (by show i < l1.input_size; rw [f1']; exact hi)
      simp only [Layer.grad, f1', f5', f8'] at this
      rw [this, hout o ho, hgw]
      rw [vget_replicate_zero]
      ring
    rw [e]
    exact objective_hasDerivAt_weight A hA _ _ g l.weights l.bias x o i ho hi
      (by rw [hs.1]; exact row_major_lt ho hi)
  · have e : vget l2.grad_bias o
        = vget g o * A.df (A.f (affine l.input_size l.weights l.bias x o)) := by
      have := b11 o (by show o < l1.output_size; rw [f2']; exact ho)
      simp only [Layer.grad, f9'] at this
      rw [this, hout o ho, hgb]
      rw [vget_replicate_zero]
      ring
    rw [e]
    exact objective_hasDerivAt_bias A hA _ _ g l.weights l.bias x o ho
      (by rw [hs.2.1]; exact ho)

end derivative_lemmas

/-! ## Frame lemmas -/

section relation_lemmas

variable {α : Type}

theorem Layer.SameLearned.same_learned (l : Layer α) : Layer.SameLearned l l :=
  ⟨rfl, rfl, rfl, rfl, rfl, rfl⟩

theorem Layer.SameLearned.comp_learned {a b c : Layer α} (h1 : Layer.SameLearned a b)
    (h2 : Layer.SameLearned b c) : Layer.SameLearned a c :=
  ⟨h2.1.trans h1.1, h2.2.1.trans h1.2.1, h2.2.2.1.trans h1.2.2.1,
    h2.2.2.2.1.trans h1.2.2.2.1, h2.2.2.2.2.1.trans h1.2.2.2.2.1,
    h2.2.2.2.2.2.trans h1.2.2.2.2.2⟩

theorem Layer.EvalFrame.same_layer (l : Layer α) : Layer.EvalFrame l l :=
  ⟨Layer.SameLearned.same_learned l, rfl, rfl, rfl⟩

theorem Layer.EvalFrame.comp_layer {a b c : Layer α} (h1 : Layer.EvalFrame a b)
    (h2 : Layer.EvalFrame b c) : Layer.EvalFrame a c :=
  ⟨h1.1.comp_learned h2.1, h2.2.1.trans h1.2.1, h2.2.2.1.trans h1.2.2.1, h2.2.2.2.trans h1.2.2.2⟩

theorem forall₂_same {β : Type} {R : β → β → Prop} (hR : ∀ a, R a a) :
    ∀ ls : List β, List.Forall₂ R ls ls
  | [] => List.Forall₂.nil
  | a :: ls => List.Forall₂.cons (hR a) (forall₂_same hR ls)

theorem forall₂_comp {β : Type} {R S T : β → β → Prop}
    (hT : ∀ a b c, R a b → S b c → T a c) {as bs : List β} (h1 : List.Forall₂ R as bs) :
    ∀ {cs : List β}, List.Forall₂ S bs cs → List.Forall₂ T as cs := by
  induction h1 with
  | nil => intro cs h2; cases h2; exact List.Forall₂.nil
  | cons hab _ ih =>
    intro cs h2
    cases h2 with
    | cons hbc hrest => exact List.Forall₂.cons (hT _ _ _ hab hbc) (ih hrest)

theorem network.EvalFrame.same_net (n : network α) : network.EvalFrame n n :=
  ⟨rfl, forall₂_same Layer.EvalFrame.same_layer n.layers⟩

theorem network.EvalFrame.comp_net {a b c : network α} (h1 : network.EvalFrame a b)
    (h2 : network.EvalFrame b c) : network.EvalFrame a c :=
  ⟨h2.1.trans h1.1, forall₂_comp (R := Layer.EvalFrame) (S := Layer.EvalFrame)
    (T := Layer.EvalFrame) (fun _ _ _ h k => h.comp_layer k) h1.2 h2.2⟩

theorem forall₂_same_of_mem {β : Type} {R : β → β → Prop} :
    ∀ as : List β, (∀ a ∈ as, R a a) → List.Forall₂ R as as
  | [], _ => List.Forall₂.nil
  | a :: as, h => List.Forall₂.cons (h a (List.mem_cons_self _ _))
      (forall₂_same_of_mem as (fun b hb => h b (List.mem_cons_of_mem _ hb)))

theorem forall₂_flip_same {β : Type} {R : β → β → Prop} {as bs : List β}
    (h : List.Forall₂ R as bs) : List.Forall₂ (fun b a => R a b) bs as := by
  induction h with
  | nil => exact List.Forall₂.nil
  | cons hab _ ih => exact List.Forall₂.cons hab ih

theorem forall₂_getLast? {β : Type} {R : β → β → Prop} {as bs : List β}
    (h : List.Forall₂ R as bs) :
    (as.getLast? = none ∧ bs.getLast? = none) ∨
      ∃ a b, as.getLast? = some a ∧ bs.getLast? = some b ∧ R a b := by
  induction h with
  | nil => exact Or.inl ⟨rfl, rfl⟩
  | @cons a b as1 bs1 hab hrest ih =>
    cases hrest with
    | nil => exact Or.inr ⟨a, b, rfl, rfl, hab⟩
    | @cons a2 b2 as2 bs2 h2 hrest2 =>
      rcases ih with ⟨h1, _⟩ | ⟨x, y, hx, hy, hxy⟩
      · simp at h1
      · refine Or.inr ⟨x, y, ?_, ?_, hxy⟩
        · rw [List.getLast?_cons_cons]; exact hx
        · rw [List.getLast?_cons_cons]; exact hy

theorem Result.Rel.of_ok {σ β : Type} {Rok Rthrow : σ → σ → Prop} {v : β} {s : σ}
    {r : Result σ β} (h : Result.Rel Rok Rthrow (.ok v s) r) :
    ∃ t, r = .ok v t ∧ Rok s t := by
  cases r with
  | ok v2 t =>
    have h1 : v2 = v ∧ Rok s t := h
    exact ⟨t, by rw [h1.1], h1.2⟩
  | throw w t => exact False.elim h

theorem Result.Rel.of_throw {σ β : Type} {Rok Rthrow : σ → σ → Prop} {w : String} {s : σ}
    {r : Result σ β} (h : Result.Rel Rok Rthrow (.throw w s) r) :
    ∃ t, r = .throw w t ∧ Rthrow s t := by
  cases r with
  | ok v2 t => exact False.elim h
  | throw w2 t =>
    have h1 : w2 = w ∧ Rthrow s t := h
    exact ⟨t, by rw [h1.1], h1.2⟩

theorem Layer.Sim.same_sim {l : Layer α} (h : l.output.length = l.output_size) : Layer.Sim l l :=
  ⟨Layer.SameLearned.same_learned l, h, h, rfl⟩

theorem Layer.Sim.of_layer_frame {l k m : Layer α} (hf : Layer.EvalFrame l k) (h : Layer.Sim l m) :
    Layer.Sim k m := by
  obtain ⟨⟨f1, f2, f3, f4, f5, f6⟩, f7, _, f9⟩ := hf
  obtain ⟨⟨h1, h2, h3, h4, h5, h6⟩, hl, hm, hg⟩ := h
  exact ⟨⟨h1.trans f1.symm, h2.trans f2.symm, h3.trans f3.symm, h4.trans f4.symm,
    h5.trans f5.symm, h6.trans f6.symm⟩, by rw [f9, f2]; exact hl, hm, by rw [hg, f7]⟩

theorem network.SimIO.sim {n m : network α} (h : network.SimIO n m) : network.Sim n m :=
  ⟨h.1, h.2.imp (fun _ _ h => h.1)⟩

theorem network.Sim.of_frame {n k m : network α} (hf : network.EvalFrame n k)
    (h : network.Sim n m) : network.Sim k m :=
  ⟨h.1.trans hf.1.symm, forall₂_comp (R := fun b a => Layer.EvalFrame a b) (S := Layer.Sim)
    (T := Layer.Sim) (fun _ _ _ h1 h2 => Layer.Sim.of_layer_frame h1 h2) (forall₂_flip_same hf.2) h.2⟩

theorem network.Sim.learned {n m : network α} (h : network.Sim n m) :
    network.SameLearned n m :=
  ⟨h.1, h.2.imp (fun _ _ h => h.1)⟩

theorem network.Sim.output_size_eq {n m : network α} (h : network.Sim n m) :
    m.output_size = n.output_size := by
  unfold network.output_size
  rcases forall₂_getLast? h.2 with ⟨h1, h2⟩ | ⟨a, b, h1, h2, hab⟩
  · rw [h1, h2]
  · rw [h1, h2]; exact hab.1.2.1

theorem network.SimIO.output_eq {n m : network α} (h : network.SimIO n m) :
    m.output = n.output := by
  unfold network.output
  rcases forall₂_getLast? h.2 with ⟨h1, h2⟩ | ⟨a, b, h1, h2, hab⟩
  · rw [h1, h2]
  · rw [h1, h2]; exact hab.2.2

theorem forall₂_mem_right {β : Type} {R : β → β → Prop} {as bs : List β}
    (h : List.Forall₂ R as bs) : ∀ b ∈ bs, ∃ a ∈ as, R a b := by
  induction h with
  | nil => intro b hb; cases hb
  | @cons a1 b1 as1 bs1 hab _ ih =>
    intro b hb
    rcases List.mem_cons.1 hb with rfl | hb1
    · exact ⟨a1, List.mem_cons_self _ _, hab⟩
    · obtain ⟨a, ha, hr⟩ := ih b hb1
      exact ⟨a, List.mem_cons_of_mem _ ha, hr⟩

theorem forall₂_map_of_mem {β : Type} {R : β → β → Prop} (f : β → β) :
    ∀ as : List β, (∀ a ∈ as, R a (f a)) → List.Forall₂ R as (as.map f)
  | [], _ => List.Forall₂.nil
  | a :: as, h => List.Forall₂.cons (h a (List.mem_cons_self _ _))
      (forall₂_map_of_mem f as (fun b hb => h b (List.mem_cons_of_mem _ hb)))

theorem network.BuiltFrom.built_of_frame {dims : List Nat} {n r : network α}
    (hb : n.BuiltFrom dims) (hf : network.EvalFrame n r) : r.BuiltFrom dims := by
  apply LayersFit.of_forall₂ hb
  apply forall₂_imp_mem hf.2 (LayersFit.shaped hb)
  intro l k hs hlk
  obtain ⟨⟨f1, f2, f3, f4, f5, f6⟩, f7, _, f9⟩ := hlk
  obtain ⟨s1, s2, s3, s4, s5, s6⟩ := hs
  exact ⟨f1, f2, by rw [f3, f1, f2]; exact s1, by rw [f4, f2]; exact s2,
    by rw [f9, f2]; exact s3, by rw [f7, f1]; exact s4, by rw [f5, f1, f2]; exact s5,
    by rw [f6, f2]; exact s6⟩

theorem network.Sim.of_built {dims : List Nat} {n : network α} (hb : n.BuiltFrom dims) :
    network.Sim n n :=
  ⟨rfl, forall₂_same_of_mem n.layers
    (fun l hl => Layer.Sim.same_sim (LayersFit.shaped hb l hl).2.2.1)⟩

theorem vget_of_all_zero [Zero α] {v : List α} (h : ∀ x ∈ v, x = 0) (j : Nat) :
    vget v j = 0 := by
  by_cases hj : j < v.length
  · have := getElem?_eq_vget v hj
    rw [List.getElem?_eq_getElem hj] at this
    rw [← Option.some.inj this]
    exact h _ (List.getElem_mem hj)
  · simp [vget, List.getD_eq_getElem?_getD, List.getElem?_eq_none (not_lt.1 hj)]

end relation_lemmas

section frame_lemmas

variable {α : Type} [Field α]

/-- A call of `inner_product_layer::forward` changes at most `output`, and not
its length, whether it returns or throws. -/
theorem Layer.forward_keeps_rest (A : Activation α) (l : Layer α) (x : List α) :
    Layer.EvalFrame l (Layer.forward A { l with input := x }).state := by
  by_cases hx : x.length = l.input_size
  · rw [Layer.forward_ok A { l with input := x } hx]
    exact ⟨Layer.SameLearned.same_learned l, rfl, rfl, (Layer.forward_output A { l with input := x }).1⟩
  · rw [Layer.forward_throw A { l with input := x } hx]
    exact Layer.EvalFrame.same_layer l

/-- The loop of `network::forward` changes at most the `input` and `output`
buffers of the layers, whether it returns or throws. -/
theorem forward_layers_frame (A : Activation α) (ls : List (Layer α)) :
    ∀ x : List α, List.Forall₂ Layer.EvalFrame ls (forward_layers A x ls).state := by
  induction ls with
  | nil => intro x; exact List.Forall₂.nil
  | cons l rest ih =>
    intro x
    have hl := Layer.forward_keeps_rest A l x
    rw [forward_layers]
    cases h1 : Layer.forward A { l with input := x } with
    | throw why l1 =>
      rw [h1] at hl
      exact List.Forall₂.cons hl (forall₂_same Layer.EvalFrame.same_layer rest)
    | ok u l1 =>
      rw [h1] at hl
      cases rest with
      | nil => exact List.Forall₂.cons hl List.Forall₂.nil
      | cons l2 rest2 =>
        have hr := ih l1.output
        simp only []
        cases h2 : forward_layers A l1.output (l2 :: rest2) with
        | throw why rest1 => rw [h2] at hr; exact List.Forall₂.cons hl hr
        | ok u2 rest1 => rw [h2] at hr; exact List.Forall₂.cons hl hr

/-- The member `network::forward` changes at most the `input` and `output`
buffers of the layers, whether it returns or throws. -/
theorem network.forward_frame (A : Activation α) (n : network α) (sample : List α) :
    network.EvalFrame n (n.forward A sample).state := by
  have h := forward_layers_frame A n.layers sample
  unfold network.forward
  cases h1 : forward_layers A sample n.layers with
  | throw why ls => rw [h1] at h; exact ⟨rfl, h⟩
  | ok u ls => rw [h1] at h; exact ⟨rfl, h⟩

/-- The loop of `network::loss` changes at most the `input` and `output`
buffers of the layers, whether it returns or throws. -/
theorem loss_loop_frame (A : Activation α) (L : LossFunction α) (samples : List (List α)) :
    ∀ (n : network α) (expected : List α) (sum : α) (labels : List Nat),
      network.EvalFrame n (loss_loop A L n expected sum samples labels).state := by
  induction samples with
  | nil => intro n expected sum labels; exact network.EvalFrame.same_net n
  | cons row rows ih =>
    intro n expected sum labels
    rw [loss_loop]
    cases h1 : n.label_to_vector (labels.headD 0) expected with
    | throw why e1 => exact network.EvalFrame.same_net n
    | ok u e1 =>
      have hf := network.forward_frame A n row
      simp only []
      cases h2 : n.forward A row with
      | throw why n1 => rw [h2] at hf; exact hf
      | ok u2 n1 =>
        rw [h2] at hf
        exact hf.comp_net (ih n1 e1 _ labels.tail)

theorem network.loss_frame (A : Activation α) (L : LossFunction α) (n : network α)
    (samples : List (List α)) (labels : List Nat) :
    network.EvalFrame n (n.loss A L samples labels).state :=
  loss_loop_frame A L samples n [] 0 labels

theorem network.loss_mean_frame (A : Activation α) (L : LossFunction α) (n : network α)
    (samples : List (List α)) (labels : List Nat) :
    network.EvalFrame n (n.loss_mean A L samples labels).state := by
  have h := network.loss_frame A L n samples labels
  unfold network.loss_mean
  cases h1 : n.loss A L samples labels with
  | throw why n1 => rw [h1] at h; exact h
  | ok v n1 => rw [h1] at h; exact h

end frame_lemmas

section test_frame_lemmas

variable {α : Type} [LinearOrderedField α]

/-- The loop of `network::test` changes at most the `input` and `output`
buffers of the layers, whether it returns or throws. -/
theorem test_loop_frame (A : Activation α) (data : List (List α)) :
    ∀ (n : network α) (total correct : Nat) (labels : List Nat),
      network.EvalFrame n (test_loop A n total correct data labels).state := by
  induction data with
  | nil => intro n total correct labels; exact network.EvalFrame.same_net n
  | cons row rows ih =>
    intro n total correct labels
    cases labels with
    | nil => exact network.EvalFrame.same_net n
    | cons label labels =>
      rw [test_loop]
      have hf := network.forward_frame A n row
      cases h2 : n.forward A row with
      | throw why n1 => rw [h2] at hf; exact hf
      | ok u2 n1 =>
        rw [h2] at hf
        simp only []
        cases h3 : max_element n1.output with
        | none => exact hf
        | some prediction => exact hf.comp_net (ih n1 _ _ labels)

theorem network.test_frame (A : Activation α) (n : network α) (data : List (List α))
    (labels : List Nat) : network.EvalFrame n (n.test A data labels).state := by
  unfold network.test
  by_cases hc : data.length = labels.length
  · rw [if_neg (not_not.2 hc)]
    have h := test_loop_frame A data n 0 0 labels
    cases h1 : test_loop A n 0 0 data labels with
    | throw why n1 => rw [h1] at h; exact h
    | ok v n1 => rw [h1] at h; obtain ⟨t, c⟩ := v; exact h
  · rw [if_pos hc]
    exact network.EvalFrame.same_net n

end test_frame_lemmas

/-! ## Training does not read the evaluation buffers -/

section simulation_lemmas

variable {α κ : Type} [Field α]

/-- Layers that agree as in `Layer.Sim` compute the same `output` from the
same `input`. -/
theorem Layer.forward_output_sim (A : Activation α) {l m : Layer α} (h : Layer.Sim l m)
    (x : List α) :
    (List.range m.output_size).foldl
      (fun output out => vset output out
        (A.f (({ m with input := x } : Layer α).forward_total out + vget m.bias out))) m.output
    = (List.range l.output_size).foldl
      (fun output out => vset output out
        (A.f (({ l with input := x } : Layer α).forward_total out + vget l.bias out)))
      l.output := by
  obtain ⟨⟨h1, h2, h3, h4, _, _⟩, hl, hm, _⟩ := h
  have Fl := Layer.forward_output A { l with input := x }
  have Fm := Layer.forward_output A { m with input := x }
  have hlen : m.output.length = l.output.length := by rw [hm, hl, h2]
  apply vec_ext
  · exact Fm.1.trans (hlen.trans Fl.1.symm)
  · intro j hj
    have hjm : j < m.output.length := by rw [← Fm.1]; exact hj
    have hjl : j < l.output.length := by rw [← hlen]; exact hjm
    have e1 := Fm.2 j hjm
    have e2 := Fl.2 j hjl
    have hjo : j < l.output_size := by rw [← hl]; exact hjl
    rw [if_pos (show j < ({ m with input := x } : Layer α).output_size from by
      show j < m.output_size; rw [h2]; exact hjo)] at e1
    rw [if_pos (show j < ({ l with input := x } : Layer α).output_size from hjo)] at e2
    refine e1.trans (Eq.trans ?_ e2.symm)
    show A.f (({ m with input := x } : Layer α).forward_total j + vget m.bias j)
      = A.f (({ l with input := x } : Layer α).forward_total j + vget l.bias j)
    simp only [Layer.forward_total, h1, h3, h4]

/-- Calls of `forward()` on layers that agree as in `Layer.Sim` and were given
the same input end the same way. -/
theorem Layer.forward_agree (A : Activation α) {l m : Layer α} (h : Layer.Sim l m)
    (x : List α) :
    Result.Rel Layer.SimIO Layer.Sim (Layer.forward A { l with input := x })
      (Layer.forward A { m with input := x }) := by
  have hout := Layer.forward_output_sim A h x
  obtain ⟨⟨h1, h2, h3, h4, h5, h6⟩, hl, hm, hg⟩ := h
  by_cases hx : x.length = l.input_size
  · rw [Layer.forward_ok A { l with input := x } hx,
      Layer.forward_ok A { m with input := x } (hx.trans h1.symm)]
    refine ⟨rfl, ⟨⟨h1, h2, h3, h4, h5, h6⟩, ?_, ?_, hg⟩, rfl, hout⟩
    · exact (Layer.forward_output A { l with input := x }).1.trans hl
    · exact (Layer.forward_output A { m with input := x }).1.trans hm
  · rw [Layer.forward_throw A { l with input := x } hx,
      Layer.forward_throw A { m with input := x } (fun e => hx (e.trans h1))]
    exact ⟨rfl, ⟨h1, h2, h3, h4, h5, h6⟩, hl, hm, hg⟩

/-- The loop of `network::forward` on layer lists that agree as in `Layer.Sim`
ends the same way; after a return the layers hold the same inputs and outputs. -/
theorem forward_layers_sim (A : Activation α) {ls ms : List (Layer α)}
    (h : List.Forall₂ Layer.Sim ls ms) :
    ∀ x : List α, Result.Rel (List.Forall₂ Layer.SimIO) (List.Forall₂ Layer.Sim)
      (forward_layers A x ls) (forward_layers A x ms) := by
  induction h with
  | nil => intro x; exact ⟨rfl, List.Forall₂.nil⟩
  | @cons l m ls1 ms1 hlm hrest ih =>
    intro x
    have hL := Layer.forward_agree A hlm x
    rw [forward_layers, forward_layers]
    cases e1 : Layer.forward A { l with input := x } with
    | throw w a =>
      rw [e1] at hL
      obtain ⟨b, e2, hab⟩ := hL.of_throw
      rw [e2]
      exact ⟨rfl, List.Forall₂.cons hab hrest⟩
    | ok u a =>
      rw [e1] at hL
      obtain ⟨b, e2, hab⟩ := hL.of_ok
      rw [e2]
      cases hrest with
      | nil => exact ⟨rfl, List.Forall₂.cons hab List.Forall₂.nil⟩
      | @cons l2 m2 ls2 ms2 h2 hrest2 =>
        have hr := ih a.output
        simp only []
        rw [hab.2.2]
        cases e3 : forward_layers A a.output (l2 :: ls2) with
        | throw w rs =>
          rw [e3] at hr
          obtain ⟨rs2, e4, hrs⟩ := hr.of_throw
          rw [e4]
          exact ⟨rfl, List.Forall₂.cons hab.1 hrs⟩
        | ok u2 rs =>
          rw [e3] at hr
          obtain ⟨rs2, e4, hrs⟩ := hr.of_ok
          rw [e4]
          exact ⟨rfl, List.Forall₂.cons hab hrs⟩

/-- The member `network::forward` on networks that agree as in `network.Sim`
ends the same way. -/
theorem network.forward_sim (A : Activation α) {n m : network α} (h : network.Sim n m)
    (x : List α) :
    Result.Rel network.SimIO network.Sim (n.forward A x) (m.forward A x) := by
  have hf := forward_layers_sim A h.2 x
  unfold network.forward
  cases e1 : forward_layers A x n.layers with
  | throw w rs =>
    rw [e1] at hf
    obtain ⟨rs2, e2, hrs⟩ := hf.of_throw
    rw [e2]
    exact ⟨rfl, h.1, hrs⟩
  | ok u rs =>
    rw [e1] at hf
    obtain ⟨rs2, e2, hrs⟩ := hf.of_ok
    rw [e2]
    exact ⟨rfl, h.1, hrs⟩

/-- Calls of `backward()` on layers that agree as in `Layer.SimIO` and were
given the same output gradient end the same way; after a return the two layers
are equal. -/
theorem Layer.backward_agree (A : Activation α) {l m : Layer α} (h : Layer.SimIO l m)
    (g : List α) :
    Result.Rel (fun a b => b = a ∧ Layer.Sim a b) Layer.Sim
      (Layer.backward A { l with output_grad := g })
      (Layer.backward A { m with output_grad := g }) := by
  obtain ⟨⟨⟨h1, h2, h3, h4, h5, h6⟩, hl, hm, hg⟩, hi, ho⟩ := h
  by_cases hx : g.length = l.output_size
  · rw [Layer.backward_ok A { l with output_grad := g } hx,
      Layer.backward_ok A { m with output_grad := g } (hx.trans h2.symm)]
    have hstart : ({ ({ m with output_grad := g } : Layer α) with
          input_grad := vfill m.input_grad 0 } : Layer α)
        = { ({ l with output_grad := g } : Layer α) with
          input_grad := vfill l.input_grad 0 } := by
      cases l
      cases m
      simp only [vfill] at *
      subst h1 h2 h3 h4 h5 h6 hi ho
      rw [hg]
    have hsize : ({ m with output_grad := g } : Layer α).output_size
        = ({ l with output_grad := g } : Layer α).output_size := h2
    rw [hstart, hsize]
    refine ⟨rfl, rfl, Layer.Sim.same_sim ?_⟩
    obtain ⟨_, b2, _, _, _, b6, _⟩ := Layer.backward_loop A
      ({ ({ l with output_grad := g } : Layer α) with input_grad := vfill l.input_grad 0 })
      ({ l with output_grad := g } : Layer α).output_size
    rw [b6, b2]
    exact hl
  · rw [Layer.backward_throw A { l with output_grad := g } hx,
      Layer.backward_throw A { m with output_grad := g } (fun e => hx (e.trans h2))]
    exact ⟨rfl, ⟨h1, h2, h3, h4, h5, h6⟩, hl, hm, hg⟩

/-- The loop of `network::backward` on layer lists that agree as in
`Layer.SimIO` ends the same way; after a return the two lists are equal. -/
theorem backward_layers_sim (A : Activation α) {ls ms : List (Layer α)}
    (h : List.Forall₂ Layer.SimIO ls ms) :
    ∀ g : List α, Result.Rel (fun as bs => bs = as ∧ List.Forall₂ Layer.Sim as bs)
      (List.Forall₂ Layer.Sim) (backward_layers A g ls) (backward_layers A g ms) := by
  induction h with
  | nil => intro g; exact ⟨rfl, rfl, List.Forall₂.nil⟩
  | @cons l m ls1 ms1 hlm hrest ih =>
    intro g
    have hL := Layer.backward_agree A hlm g
    rw [backward_layers, backward_layers]
    cases e1 : Layer.backward A { l with output_grad := g } with
    | throw w a =>
      rw [e1] at hL
      obtain ⟨b, e2, hab⟩ := hL.of_throw
      rw [e2]
      exact ⟨rfl, List.Forall₂.cons hab (hrest.imp (fun _ _ h => h.1))⟩
    | ok u a =>
      rw [e1] at hL
      obtain ⟨b, e2, hba, hab⟩ := hL.of_ok
      rw [e2, hba]
      rw [hba] at hab
      cases hrest with
      | nil => exact ⟨rfl, rfl, List.Forall₂.cons hab List.Forall₂.nil⟩
      | @cons l2 m2 ls2 ms2 h2 hrest2 =>
        have hr := ih a.input_grad
        simp only []
        cases e3 : backward_layers A a.input_grad (l2 :: ls2) with
        | throw w rs =>
          rw [e3] at hr
          obtain ⟨rs2, e4, hrs⟩ := hr.of_throw
          rw [e4]
          exact ⟨rfl, List.Forall₂.cons hab hrs⟩
        | ok u2 rs =>
          rw [e3] at hr
          obtain ⟨rs2, e4, hrs1, hrs⟩ := hr.of_ok
          rw [e4]
          exact ⟨rfl, by rw [hrs1], List.Forall₂.cons hab hrs⟩

/-- The member `network::backward` on networks that agree as in
`network.SimIO`, given the same error, ends the same way. -/
theorem network.backward_sim (A : Activation α) {n m : network α} (h : network.SimIO n m)
    (e : List α) :
    Result.Rel network.Sim network.Sim (n.backward A e) (m.backward A e) := by
  have hb := backward_layers_sim A (List.forall₂_reverse_iff.2 h.2) e
  have hsz := h.sim.output_size_eq
  unfold network.backward
  by_cases he : e.length = n.output_size
  · rw [if_neg (not_not.2 he), if_neg (not_not.2 (he.trans hsz.symm))]
    cases e1 : backward_layers A e n.layers.reverse with
    | throw w rs =>
      rw [e1] at hb
      obtain ⟨rs2, e2, hrs⟩ := hb.of_throw
      rw [e2]
      exact ⟨rfl, h.1, List.forall₂_reverse_iff.2 hrs⟩
    | ok u rs =>
      rw [e1] at hb
      obtain ⟨rs2, e2, _, hrs⟩ := hb.of_ok
      rw [e2]
      exact ⟨rfl, h.1, List.forall₂_reverse_iff.2 hrs⟩
  · rw [if_pos he, if_pos (fun e2 => he (e2.trans hsz))]
    exact ⟨rfl, h.sim⟩

/-- The member `inner_product_layer::update_weights` keeps layers in agreement. -/
theorem Layer.update_weights_agree (alpha : α) {l m : Layer α} (h : Layer.Sim l m) :
    Layer.Sim (l.update_weights alpha) (m.update_weights alpha) := by
  obtain ⟨⟨h1, h2, h3, h4, h5, h6⟩, hl, hm, hg⟩ := h
  refine ⟨⟨h1, h2, ?_, ?_, ?_, ?_⟩, hl, hm, hg⟩
  · simp only [Layer.update_weights, Layer.clear_deltas, h1, h2, h3, h5]
  · simp only [Layer.update_weights, Layer.clear_deltas, h4, h6]
  · simp only [Layer.update_weights, Layer.clear_deltas, h5]
  · simp only [Layer.update_weights, Layer.clear_deltas, h6]

/-- The member `network::update_weights` keeps networks in agreement. -/
theorem network.update_weights_sim {n m : network α} (h : network.Sim n m) :
    network.Sim n.update_weights m.update_weights := by
  refine ⟨h.1, ?_⟩
  show List.Forall₂ Layer.Sim (n.layers.map (Layer.update_weights n.alpha))
    (m.layers.map (Layer.update_weights m.alpha))
  rw [h.1, List.forall₂_map_left_iff, List.forall₂_map_right_iff]
  exact h.2.imp (fun _ _ hlm => Layer.update_weights_agree n.alpha hlm)

theorem network.label_to_vector_sim {n m : network α} (h : m.output_size = n.output_size)
    (label : Nat) (expected : List α) :
    m.label_to_vector label expected = n.label_to_vector label expected := by
  simp only [network.label_to_vector, h]

/-- One pass of the inner loop of `network::train` from states that agree as
in `train_state.Sim` ends the same way. -/
theorem train_sample_sim (A : Activation α) (L : LossFunction α) {s t : train_state α κ}
    (h : train_state.Sim s t) (row : List α) (label : Nat) :
    Result.Rel train_state.Sim train_state.Sim (train_sample A L s row label)
      (train_sample A L t row label) := by
  obtain ⟨hn, herr, hexp⟩ := h
  have hf := network.forward_sim A hn row
  unfold train_sample
  cases e1 : s.net.forward A row with
  | throw w n1 =>
    rw [e1] at hf
    obtain ⟨m1, e2, h1⟩ := hf.of_throw
    rw [e2]
    exact ⟨rfl, h1, herr, hexp⟩
  | ok u n1 =>
    rw [e1] at hf
    obtain ⟨m1, e2, h1⟩ := hf.of_ok
    rw [e2]
    simp only []
    rw [network.label_to_vector_sim h1.sim.output_size_eq, hexp]
    cases e3 : n1.label_to_vector label s.expected with
    | throw w expected => exact ⟨rfl, h1.sim, herr, rfl⟩
    | ok u2 expected =>
      simp only []
      rw [h1.output_eq, herr]
      have hb := network.backward_sim A h1 (network.gradient L n1.output expected s.error)
      cases e4 : n1.backward A (network.gradient L n1.output expected s.error) with
      | throw w n2 =>
        rw [e4] at hb
        obtain ⟨m2, e5, h2⟩ := hb.of_throw
        rw [e5]
        exact ⟨rfl, h2, rfl, rfl⟩
      | ok u3 n2 =>
        rw [e4] at hb
        obtain ⟨m2, e5, h2⟩ := hb.of_ok
        rw [e5]
        exact ⟨rfl, network.update_weights_sim h2, rfl, rfl⟩

/-- One pass over the data from states that agree as in `train_state.Sim` ends
the same way. -/
theorem train_epoch_sim (A : Activation α) (L : LossFunction α) (data : List (List α)) :
    ∀ (labels : List Nat) (s t : train_state α κ), train_state.Sim s t →
      Result.Rel train_state.Sim train_state.Sim (train_epoch A L s data labels)
        (train_epoch A L t data labels) := by
  induction data with
  | nil => intro labels s t h; exact ⟨rfl, h⟩
  | cons row rows ih =>
    intro labels s t h
    cases labels with
    | nil => exact ⟨rfl, h⟩
    | cons label labels =>
      have h1 := train_sample_sim A L h row label
      rw [train_epoch, train_epoch]
      cases e1 : train_sample A L s row label with
      | throw w s1 =>
        rw [e1] at h1
        obtain ⟨t1, e2, h2⟩ := h1.of_throw
        rw [e2]
        exact ⟨rfl, h2⟩
      | ok u s1 =>
        rw [e1] at h1
        obtain ⟨t1, e2, h2⟩ := h1.of_ok
        rw [e2]
        exact ih labels s1 t1 h2

/-- The outer loop of `network::train`, run with two callbacks that end the
same way on networks in agreement, ends the same way. -/
theorem train_epochs_sim (A : Activation α) (L : LossFunction α) (cb1 cb2 : Callback α κ)
    (hcb : ∀ n m k, network.Sim n m →
      Result.Rel (fun a b : network α × κ => network.Sim a.1 b.1 ∧ b.2 = a.2)
        (fun a b : network α × κ => network.Sim a.1 b.1 ∧ b.2 = a.2) (cb1 n k) (cb2 m k))
    (data : List (List α)) (labels : List Nat) :
    ∀ (k : Nat) (s t : train_state α κ), train_state.SimAll s t →
      Result.Rel train_state.SimAll train_state.SimAll
        (train_epochs A L (some cb1) data labels k s)
        (train_epochs A L (some cb2) data labels k t) := by
  intro k
  induction k with
  | zero => intro s t h; exact ⟨rfl, h⟩
  | succ k ih =>
    intro s t h
    obtain ⟨hs, henv, hep, hc⟩ := h
    have h1 := train_epoch_sim A L data labels s t hs
    have g1 := train_epoch_ghost A L data labels s
    have g2 := train_epoch_ghost A L data labels t
    rw [train_epochs, train_epochs]
    cases e1 : train_epoch A L s data labels with
    | throw w s1 =>
      rw [e1] at h1 g1
      obtain ⟨t1, e2, h2⟩ := h1.of_throw
      rw [e2] at g2 ⊢
      exact ⟨rfl, h2, g2.1.trans (henv.trans g1.1.symm), g2.2.1.trans (hep.trans g1.2.1.symm),
        g2.2.2.trans (hc.trans g1.2.2.symm)⟩
    | ok u s1 =>
      rw [e1] at h1 g1
      obtain ⟨t1, e2, h2⟩ := h1.of_ok
      rw [e2] at g2 ⊢
      have henv1 : t1.env = s1.env := g2.1.trans (henv.trans g1.1.symm)
      have hep1 : t1.epochs = s1.epochs := g2.2.1.trans (hep.trans g1.2.1.symm)
      have hc1 : t1.calls = s1.calls := g2.2.2.trans (hc.trans g1.2.2.symm)
      obtain ⟨hn, herr, hexp⟩ := h2
      have h3 := hcb s1.net t1.net s1.env hn
      simp only []
      rw [henv1]
      cases e3 : cb1 s1.net s1.env with
      | throw w p =>
        rw [e3] at h3
        obtain ⟨q, e4, hq, hk⟩ := h3.of_throw
        rw [e4]
        obtain ⟨n1, k1⟩ := p
        obtain ⟨m1, k2⟩ := q
        exact ⟨rfl, ⟨hq, herr, hexp⟩, hk, by rw [hep1], hc1⟩
      | ok stop p =>
        rw [e3] at h3
        obtain ⟨q, e4, hq, hk⟩ := h3.of_ok
        rw [e4]
        obtain ⟨n1, k1⟩ := p
        obtain ⟨m1, k2⟩ := q
        have h4 : train_state.SimAll
            (⟨n1, k1, s1.error, s1.expected, s1.epochs + 1, s1.calls ++ [stop]⟩ :
              train_state α κ)
            ⟨m1, k2, t1.error, t1.expected, t1.epochs + 1, t1.calls ++ [stop]⟩ :=
          ⟨⟨hq, herr, hexp⟩, hk, by rw [hep1], by rw [hc1]⟩
        cases stop with
        | true => exact ⟨rfl, h4⟩
        | false => exact ih _ _ h4

/-- The member `network::train`, run from networks in agreement with two
callbacks that end the same way on networks in agreement, ends the same way. -/
theorem network.train_sim (A : Activation α) (L : LossFunction α) (cb1 cb2 : Callback α κ)
    (hcb : ∀ n m k, network.Sim n m →
      Result.Rel (fun a b : network α × κ => network.Sim a.1 b.1 ∧ b.2 = a.2)
        (fun a b : network α × κ => network.Sim a.1 b.1 ∧ b.2 = a.2) (cb1 n k) (cb2 m k))
    {n m : network α} (h : network.Sim n m) (env : κ) (data : List (List α))
    (labels : List Nat) (epochs_max : Nat) :
    Result.Rel train_state.SimAll train_state.SimAll
      (network.train A L (some cb1) n env data labels epochs_max)
      (network.train A L (some cb2) m env data labels epochs_max) := by
  unfold network.train
  by_cases hc : data.length = labels.length
  · rw [if_neg (not_not.2 hc), if_neg (not_not.2 hc)]
    apply train_epochs_sim A L cb1 cb2 hcb
    exact ⟨⟨h, by rw [h.output_size_eq], by rw [h.output_size_eq]⟩, rfl, rfl, rfl⟩
  · rw [if_pos hc, if_pos hc]
    exact ⟨rfl, ⟨h, rfl, rfl⟩, rfl, rfl, rfl⟩

/-- The outer loop of `network::train` run with a callback that changes at most
the `input` and `output` buffers, when it returns, ends in agreement with the
loop run without a callback for the number of epochs the first run completed. -/
theorem train_epochs_none (A : Activation α) (L : LossFunction α) (cb : Callback α κ)
    (hcb : ∀ n k, network.EvalFrame n (cb n k).state.1)
    (data : List (List α)) (labels : List Nat) :
    ∀ (m : Nat) (s u s1 : train_state α κ), train_state.Sim s u →
      train_epochs A L (some cb) data labels m s = .ok () s1 →
      s.epochs ≤ s1.epochs ∧
      ∃ t, train_epochs A L none data labels (s1.epochs - s.epochs) u = .ok () t ∧
        train_state.Sim s1 t := by
  intro m
  induction m with
  | zero =>
    intro s u s1 h e
    rw [train_epochs] at e
    cases e
    refine ⟨le_refl _, u, ?_, h⟩
    rw [Nat.sub_self, train_epochs]
  | succ m ih =>
    intro s u s1 h e
    have h1 := train_epoch_sim A L data labels s u h
    have g1 := train_epoch_ghost A L data labels s
    rw [train_epochs] at e
    cases e1 : train_epoch A L s data labels with
    | throw w s2 => rw [e1] at e; cases e
    | ok x s2 =>
      rw [e1] at e h1 g1
      obtain ⟨u2, e2, h2⟩ := h1.of_ok
      have hep : s2.epochs = s.epochs := g1.2.1
      have hf := hcb s2.net s2.env
      have hstep : ∀ j, train_epochs A L (none : Option (Callback α κ)) data labels (j + 1) u
          = train_epochs A L none data labels j { u2 with epochs := u2.epochs + 1 } := by
        intro j
        rw [train_epochs, e2]
      simp only [] at e
      cases e3 : cb s2.net s2.env with
      | throw w p =>
        rw [e3] at e
        obtain ⟨a, k1⟩ := p
        cases e
      | ok stop p =>
        rw [e3] at e hf
        obtain ⟨a, k1⟩ := p
        have h3 : train_state.Sim
            (⟨a, k1, s2.error, s2.expected, s2.epochs + 1, s2.calls ++ [stop]⟩ :
              train_state α κ) { u2 with epochs := u2.epochs + 1 } :=
          ⟨network.Sim.of_frame hf h2.1, h2.2.1, h2.2.2⟩
        cases stop with
        | true =>
          simp only [if_true, Result.ok.injEq, true_and] at e
          subst e
          refine ⟨by show s.epochs ≤ s2.epochs + 1; omega, _, ?_, h3⟩
          have hone : s2.epochs + 1 - s.epochs = 1 := by omega
          show train_epochs A L none data labels (s2.epochs + 1 - s.epochs) u = _
          rw [hone, hstep 0, train_epochs]
        | false =>
          simp only [Bool.false_eq_true, if_false] at e
          obtain ⟨hle, t, ht, hst⟩ := ih _ _ s1 h3 e
          have hle1 : s2.epochs + 1 ≤ s1.epochs := hle
          refine ⟨by omega, t, ?_, hst⟩
          have hsum : s1.epochs - s.epochs = (s1.epochs - (s2.epochs + 1)) + 1 := by omega
          rw [hsum, hstep]
          exact ht

/-- The loop of `network::loss` on networks in agreement ends the same way,
with the same sum. -/
theorem loss_loop_sim (A : Activation α) (L : LossFunction α) (samples : List (List α)) :
    ∀ (n m : network α) (expected : List α) (sum : α) (labels : List Nat),
      network.Sim n m →
      Result.Rel network.Sim network.Sim (loss_loop A L n expected sum samples labels)
        (loss_loop A L m expected sum samples labels) := by
  induction samples with
  | nil => intro n m expected sum labels h; exact ⟨rfl, h⟩
  | cons row rows ih =>
    intro n m expected sum labels h
    rw [loss_loop, loss_loop, network.label_to_vector_sim h.output_size_eq]
    cases e1 : n.label_to_vector (labels.headD 0) expected with
    | throw w e => exact ⟨rfl, h⟩
    | ok u expected1 =>
      have hf := network.forward_sim A h row
      simp only []
      cases e2 : n.forward A row with
      | throw w n1 =>
        rw [e2] at hf
        obtain ⟨m1, e3, h1⟩ := hf.of_throw
        rw [e3]
        exact ⟨rfl, h1⟩
      | ok u2 n1 =>
        rw [e2] at hf
        obtain ⟨m1, e3, h1⟩ := hf.of_ok
        rw [e3]
        simp only []
        rw [h1.output_eq]
        exact ih n1 m1 expected1 _ labels.tail h1.sim

/-- The member `network::loss_mean` on networks in agreement ends the same
way, with the same value. -/
theorem network.loss_mean_sim (A : Activation α) (L : LossFunction α) {n m : network α}
    (h : network.Sim n m) (samples : List (List α)) (labels : List Nat) :
    Result.Rel network.Sim network.Sim (n.loss_mean A L samples labels)
      (m.loss_mean A L samples labels) := by
  have hl := loss_loop_sim A L samples n m [] 0 labels h
  unfold network.loss_mean network.loss
  cases e1 : loss_loop A L n [] 0 samples labels with
  | throw w n1 =>
    rw [e1] at hl
    obtain ⟨m1, e2, h1⟩ := hl.of_throw
    rw [e2]
    exact ⟨rfl, h1⟩
  | ok v n1 =>
    rw [e1] at hl
    obtain ⟨m1, e2, h1⟩ := hl.of_ok
    rw [e2]
    exact ⟨rfl, h1⟩

end simulation_lemmas

section test_simulation_lemmas

variable {α : Type} [LinearOrderedField α]

/-- The loop of `network::test` on networks in agreement ends the same way,
with the same counters. -/
theorem test_loop_sim (A : Activation α) (data : List (List α)) :
    ∀ (n m : network α) (total correct : Nat) (labels : List Nat), network.Sim n m →
      Result.Rel network.Sim network.Sim (test_loop A n total correct data labels)
        (test_loop A m total correct data labels) := by
  induction data with
  | nil => intro n m total correct labels h; exact ⟨rfl, h⟩
  | cons row rows ih =>
    intro n m total correct labels h
    cases labels with
    | nil => exact ⟨rfl, h⟩
    | cons label labels =>
      rw [test_loop, test_loop]
      have hf := network.forward_sim A h row
      cases e2 : n.forward A row with
      | throw w n1 =>
        rw [e2] at hf
        obtain ⟨m1, e3, h1⟩ := hf.of_throw
        rw [e3]
        exact ⟨rfl, h1⟩
      | ok u2 n1 =>
        rw [e2] at hf
        obtain ⟨m1, e3, h1⟩ := hf.of_ok
        rw [e3]
        simp only []
        rw [h1.output_eq]
        cases e4 : max_element n1.output with
        | none => exact ⟨rfl, h1.sim⟩
        | some prediction => exact ih n1 m1 _ _ labels h1.sim

/-- The member `network::test` on networks in agreement ends the same way,
with the same results. -/
theorem network.test_sim (A : Activation α) {n m : network α} (h : network.Sim n m)
    (data : List (List α)) (labels : List Nat) :
    Result.Rel network.Sim network.Sim (n.test A data labels) (m.test A data labels) := by
  unfold network.test
  by_cases hc : data.length = labels.length
  · rw [if_neg (not_not.2 hc), if_neg (not_not.2 hc)]
    have hl := test_loop_sim A data n m 0 0 labels h
    cases e1 : test_loop A n 0 0 data labels with
    | throw w n1 =>
      rw [e1] at hl
      obtain ⟨m1, e2, h1⟩ := hl.of_throw
      rw [e2]
      exact ⟨rfl, h1⟩
    | ok v n1 =>
      rw [e1] at hl
      obtain ⟨m1, e2, h1⟩ := hl.of_ok
      rw [e2]
      obtain ⟨total, correct⟩ := v
      exact ⟨rfl, h1⟩
  · rw [if_pos hc, if_pos hc]
    exact ⟨rfl, h⟩

/-- The callable of `example/iris.cpp` changes at most the `input` and `output`
buffers of the layers, whether it returns or throws. -/
theorem iris_on_epoch_frame (A : Activation α) (L : LossFunction α) (data : List (List α))
    (labels : List Nat) (n : network α) (printed : List (α × Option α)) :
    network.EvalFrame n (iris_on_epoch A L data labels n printed).state.1 := by
  have ht := network.test_frame A n data labels
  unfold iris_on_epoch
  cases e1 : n.test A data labels with
  | throw w n1 => rw [e1] at ht; exact ht
  | ok res n1 =>
    rw [e1] at ht
    have hl := network.loss_mean_frame A L n1 data labels
    simp only []
    cases e2 : n1.loss_mean A L data labels with
    | throw w n2 => rw [e2] at hl; exact ht.comp_net hl
    | ok loss n2 => rw [e2] at hl; exact ht.comp_net hl

/-- The callable of `example/iris.cpp` on networks in agreement ends the same
way: same verdict or message, same printed lines. -/
theorem iris_on_epoch_sim (A : Activation α) (L : LossFunction α) (data : List (List α))
    (labels : List Nat) {n m : network α} (h : network.Sim n m) (printed : List (α × Option α)) :
    Result.Rel (fun a b : network α × List (α × Option α) => network.Sim a.1 b.1 ∧ b.2 = a.2)
      (fun a b : network α × List (α × Option α) => network.Sim a.1 b.1 ∧ b.2 = a.2)
      (iris_on_epoch A L data labels n printed) (iris_on_epoch A L data labels m printed) := by
  have ht := network.test_sim A h data labels
  unfold iris_on_epoch
  cases e1 : n.test A data labels with
  | throw w n1 =>
    rw [e1] at ht
    obtain ⟨m1, e2, h1⟩ := ht.of_throw
    rw [e2]
    exact ⟨rfl, h1, rfl⟩
  | ok res n1 =>
    rw [e1] at ht
    obtain ⟨m1, e2, h1⟩ := ht.of_ok
    rw [e2]
    have hl := network.loss_mean_sim A L h1 data labels
    simp only []
    cases e3 : n1.loss_mean A L data labels with
    | throw w n2 =>
      rw [e3] at hl
      obtain ⟨m2, e4, h2⟩ := hl.of_throw
      rw [e4]
      exact ⟨rfl, h2, rfl⟩
    | ok loss n2 =>
      rw [e3] at hl
      obtain ⟨m2, e4, h2⟩ := hl.of_ok
      rw [e4]
      exact ⟨rfl, h2, rfl⟩

/-- The callable of `example/iris.cpp` and its `quiet` version end the same
way on networks in agreement. -/
theorem iris_on_epoch_quiet (A : Activation α) (L : LossFunction α) (data : List (List α))
    (labels : List Nat) {n m : network α} (h : network.Sim n m) (printed : List (α × Option α)) :
    Result.Rel (fun a b : network α × List (α × Option α) => network.Sim a.1 b.1 ∧ b.2 = a.2)
      (fun a b : network α × List (α × Option α) => network.Sim a.1 b.1 ∧ b.2 = a.2)
      (iris_on_epoch A L data labels n printed)
      (quiet (iris_on_epoch A L data labels) m printed) := by
  have hs := iris_on_epoch_sim A L data labels h printed
  have hf := iris_on_epoch_frame A L data labels n printed
  unfold quiet
  cases e1 : iris_on_epoch A L data labels n printed with
  | throw w p =>
    rw [e1] at hs hf
    obtain ⟨q, e2, _, hk⟩ := hs.of_throw
    rw [e2]
    obtain ⟨m1, k1⟩ := q
    exact ⟨rfl, network.Sim.of_frame hf h, hk⟩
  | ok stop p =>
    rw [e1] at hs hf
    obtain ⟨q, e2, _, hk⟩ := hs.of_ok
    rw [e2]
    obtain ⟨m1, k1⟩ := q
    exact ⟨rfl, network.Sim.of_frame hf h, hk⟩

end test_simulation_lemmas

/-! ## The accumulators between weight updates -/

section accumulator_lemmas

variable {α κ : Type} [Field α]

theorem network.ZeroAcc.zero_of_frame {n r : network α} (hf : network.EvalFrame n r)
    (hz : n.ZeroAcc) : r.ZeroAcc := by
  intro b hb
  obtain ⟨a, ha, ⟨⟨_, _, _, _, f5, f6⟩, _⟩⟩ := forall₂_mem_right hf.2 b hb
  have := hz a ha
  exact ⟨by rw [f5]; exact this.1, by rw [f6]; exact this.2⟩

theorem Layer.new_acc_zero (i o : Nat) (rnd : Nat → α) (pos : Nat) :
    (Layer.new i o rnd pos).ZeroAcc :=
  ⟨fun _ hx => List.eq_of_mem_replicate hx, fun _ hx => List.eq_of_mem_replicate hx⟩

theorem build_layers_zeroAcc (rnd : Nat → α) (rest : List Nat) :
    ∀ i pos, ∀ l ∈ build_layers rnd i rest pos, l.ZeroAcc := by
  induction rest with
  | nil => intro i pos l hl; simp [build_layers] at hl
  | cons o rest ih =>
    intro i pos l hl
    rw [build_layers] at hl
    rcases List.mem_cons.1 hl with rfl | hl1
    · exact Layer.new_acc_zero i o rnd pos
    · exact ih o _ l hl1

/-- The constructor `network(dimensions)` leaves all accumulators zero. -/
theorem network.new_zeroAcc (dims : List Nat) (rnd : Nat → α) (n : network α)
    (h : network.new dims rnd = .ok n ()) : n.ZeroAcc := by
  cases dims with
  | nil => simp [network.new] at h
  | cons i rest =>
    simp only [network.new, Result.ok.injEq, and_true] at h
    subst h
    exact build_layers_zeroAcc rnd rest i 0

/-- The member `inner_product_layer::update_weights` leaves the accumulators zero. -/
theorem Layer.update_weights_acc_zero (alpha : α) (l : Layer α) :
    (l.update_weights alpha).ZeroAcc :=
  ⟨fun _ hx => List.eq_of_mem_replicate hx, fun _ hx => List.eq_of_mem_replicate hx⟩

theorem network.update_weights_zeroAcc (n : network α) : n.update_weights.ZeroAcc := by
  intro l hl
  obtain ⟨a, _, rfl⟩ := List.mem_map.1 hl
  exact Layer.update_weights_acc_zero n.alpha a

/-- On a well-shaped network `network::backward` can only throw at its own
size check, before any layer was touched. -/
theorem network.backward_throw_state (A : Activation α) (dims : List Nat) (n : network α)
    (error : List α) (h2 : 2 ≤ dims.length) (hb : n.BuiltFrom dims) (why : String)
    (n2 : network α) (h : n.backward A error = .throw why n2) : n2 = n := by
  by_cases he : error.length = n.output_size
  · obtain ⟨rs, hrs, _⟩ := network.backward_returns A dims n error h2 hb he
    rw [hrs] at h
    cases h
  · unfold network.backward at h
    rw [if_pos he] at h
    cases h
    rfl

/-- One pass of the inner loop of `network::train` keeps the shape and leaves
all accumulators zero, whether it returns or throws. -/
theorem train_sample_zeroAcc (A : Activation α) (L : LossFunction α) (dims : List Nat)
    (h2 : 2 ≤ dims.length) (s : train_state α κ) (row : List α) (label : Nat)
    (hb : s.net.BuiltFrom dims) (hz : s.net.ZeroAcc) :
    (train_sample A L s row label).state.net.BuiltFrom dims ∧
    (train_sample A L s row label).state.net.ZeroAcc := by
  have hf := network.forward_frame A s.net row
  unfold train_sample
  cases e1 : s.net.forward A row with
  | throw w n1 =>
    rw [e1] at hf
    exact ⟨hb.built_of_frame hf, hz.zero_of_frame hf⟩
  | ok u n1 =>
    rw [e1] at hf
    have hb1 : n1.BuiltFrom dims := hb.built_of_frame hf
    have hz1 : n1.ZeroAcc := hz.zero_of_frame hf
    simp only []
    cases e3 : n1.label_to_vector label s.expected with
    | throw w expected => exact ⟨hb1, hz1⟩
    | ok u2 expected =>
      simp only []
      cases e4 : n1.backward A (network.gradient L n1.output expected s.error) with
      | throw w n2 =>
        have := network.backward_throw_state A dims n1 _ h2 hb1 w n2 e4
        subst this
        exact ⟨hb1, hz1⟩
      | ok u3 n2 =>
        refine ⟨?_, network.update_weights_zeroAcc n2⟩
        have he : (network.gradient L n1.output expected s.error).length = n1.output_size := by
          by_contra hne
          unfold network.backward at e4
          rw [if_pos hne] at e4
          cases e4
        obtain ⟨rs, hrs, hstep, _⟩ := network.backward_returns A dims n1 _ h2 hb1 he
        rw [hrs] at e4
        cases e4
        exact network.update_weights_built (network.backward_built A hb1 hstep)

/-- One pass over the data keeps the shape and leaves all accumulators zero,
whether it returns or throws. -/
theorem train_epoch_zeroAcc (A : Activation α) (L : LossFunction α) (dims : List Nat)
    (h2 : 2 ≤ dims.length) (data : List (List α)) :
    ∀ (labels : List Nat) (s : train_state α κ), s.net.BuiltFrom dims → s.net.ZeroAcc →
      (train_epoch A L s data labels).state.net.BuiltFrom dims ∧
      (train_epoch A L s data labels).state.net.ZeroAcc := by
  induction data with
  | nil => intro labels s hb hz; exact ⟨hb, hz⟩
  | cons row rows ih =>
    intro labels s hb hz
    cases labels with
    | nil => exact ⟨hb, hz⟩
    | cons label labels =>
      have h1 := train_sample_zeroAcc A L dims h2 s row label hb hz
      rw [train_epoch]
      cases e1 : train_sample A L s row label with
      | throw w s1 => rw [e1] at h1; exact h1
      | ok u s1 => rw [e1] at h1; exact ih labels s1 h1.1 h1.2

/-- The outer loop of `network::train` keeps the shape and leaves all
accumulators zero, whether it returns or throws, when the callback does. -/
theorem train_epochs_zeroAcc (A : Activation α) (L : LossFunction α) (dims : List Nat)
    (h2 : 2 ≤ dims.length) (on_epoch : Option (Callback α κ))
    (hcb : ∀ cb, on_epoch = some cb → ∀ (n : network α) (k : κ), n.BuiltFrom dims →
      n.ZeroAcc → (cb n k).state.1.BuiltFrom dims ∧ (cb n k).state.1.ZeroAcc)
    (data : List (List α)) (labels : List Nat) :
    ∀ (m : Nat) (s : train_state α κ), s.net.BuiltFrom dims → s.net.ZeroAcc →
      (train_epochs A L on_epoch data labels m s).state.net.BuiltFrom dims ∧
      (train_epochs A L on_epoch data labels m s).state.net.ZeroAcc := by
  intro m
  induction m with
  | zero => intro s hb hz; exact ⟨hb, hz⟩
  | succ m ih =>
    intro s hb hz
    have h1 := train_epoch_zeroAcc A L dims h2 data labels s hb hz
    rw [train_epochs]
    cases e1 : train_epoch A L s data labels with
    | throw w s1 => rw [e1] at h1; exact h1
    | ok u s1 =>
      rw [e1] at h1
      cases on_epoch with
      | none => exact ih _ h1.1 h1.2
      | some cb =>
        have h3 := hcb cb rfl s1.net s1.env h1.1 h1.2
        simp only []
        cases e3 : cb s1.net s1.env with
        | throw w p =>
          rw [e3] at h3
          obtain ⟨n1, k1⟩ := p
          exact h3
        | ok stop p =>
          rw [e3] at h3
          obtain ⟨n1, k1⟩ := p
          cases stop with
          | true => exact h3
          | false => exact ih _ h3.1 h3.2

/-- The member `network::train` keeps the shape and leaves all accumulators
zero, whether it returns or throws, when the callback does. -/
theorem network.train_zeroAcc (A : Activation α) (L : LossFunction α) (dims : List Nat)
    (h2 : 2 ≤ dims.length) (on_epoch : Option (Callback α κ))
    (hcb : ∀ cb, on_epoch = some cb → ∀ (n : network α) (k : κ), n.BuiltFrom dims →
      n.ZeroAcc → (cb n k).state.1.BuiltFrom dims ∧ (cb n k).state.1.ZeroAcc)
    (n : network α) (env : κ) (data : List (List α)) (labels : List Nat) (epochs_max : Nat)
    (hb : n.BuiltFrom dims) (hz : n.ZeroAcc) :
    (network.train A L on_epoch n env data labels epochs_max).state.net.BuiltFrom dims ∧
    (network.train A L on_epoch n env data labels epochs_max).state.net.ZeroAcc := by
  unfold network.train
  by_cases hc : data.length = labels.length
  · rw [if_neg (not_not.2 hc)]
    exact train_epochs_zeroAcc A L dims h2 on_epoch hcb data labels epochs_max _ hb hz
  · rw [if_pos hc]
    exact ⟨hb, hz⟩

/-- A pass of the inner loop of `network::train` that starts with zero
accumulators updates the weights with the gradient terms of its own sample:
when `update_weights` runs, `grad_weights[o * input_size + i]` is
`input[i] * grad(o)` and `grad_bias[o]` is `grad(o)` of the backward pass just
made, and these are what the update subtracts, scaled by `alpha`. -/
theorem train_sample_single_gradient (A : Activation α) (L : LossFunction α)
    (dims : List Nat) (h2 : 2 ≤ dims.length) (s s1 : train_state α κ) (row : List α)
    (label : Nat) (hb : s.net.BuiltFrom dims) (hz : s.net.ZeroAcc)
    (h : train_sample A L s row label = .ok () s1) :
    ∃ n1 n2, s.net.forward A row = .ok () n1 ∧ n1.backward A s1.error = .ok () n2 ∧
      s1.net = n2.update_weights ∧
      List.Forall₂ (fun l2 r : Layer α =>
        (∀ o i, o < l2.output_size → i < l2.input_size →
          vget l2.grad_weights (o * l2.input_size + i) = vget l2.input i * l2.grad A o ∧
          vget r.weights (o * l2.input_size + i) = vget l2.weights (o * l2.input_size + i)
            - n2.alpha * (vget l2.input i * l2.grad A o)) ∧
        (∀ o, o < l2.output_size → vget l2.grad_bias o = l2.grad A o ∧
          vget r.bias o = vget l2.bias o - n2.alpha * l2.grad A o))
        n2.layers s1.net.layers := by
  have hf := network.forward_frame A s.net row
  unfold train_sample at h
  cases e1 : s.net.forward A row with
  | throw w n1 => rw [e1] at h; cases h
  | ok u n1 =>
    rw [e1] at h hf
    have hb1 : n1.BuiltFrom dims := hb.built_of_frame hf
    have hz1 : n1.ZeroAcc := network.ZeroAcc.zero_of_frame hf hz
    simp only [] at h
    cases e3 : n1.label_to_vector label s.expected with
    | throw w expected => rw [e3] at h; cases h
    | ok u2 expected =>
      rw [e3] at h
      simp only [] at h
      cases e4 : n1.backward A (network.gradient L n1.output expected s.error) with
      | throw w n2 => rw [e4] at h; cases h
      | ok u3 n2 =>
        rw [e4] at h
        simp only [Result.ok.injEq, true_and] at h
        subst h
        refine ⟨n1, n2, rfl, e4, rfl, ?_⟩
        have he : (network.gradient L n1.output expected s.error).length = n1.output_size := by
          by_contra hne
          unfold network.backward at e4
          rw [if_pos hne] at e4
          cases e4
        obtain ⟨rs, hrs, hstep, _⟩ := network.backward_returns A dims n1 _ h2 hb1 he
        rw [hrs] at e4
        cases e4
        show List.Forall₂ _ rs (rs.map (Layer.update_weights n1.alpha))
        apply forall₂_map_of_mem
        intro l2 hl2
        obtain ⟨l1, hl1, hst⟩ := forall₂_mem_right hstep l2 hl2
        have hs1 : l1.Shaped := LayersFit.shaped hb1 l1 hl1
        obtain ⟨b1, b2, _, _, b5, b6, _, b8, _, b10, b11⟩ :=
          Layer.backward_spec A { l1 with output_grad := l2.output_grad } l2 hs1 hst
        have hg : ∀ o, Layer.grad A ({ l1 with output_grad := l2.output_grad } : Layer α) o
            = l2.grad A o := by
          intro o
          show A.df (vget l1.output o) * vget l2.output_grad o
            = A.df (vget l2.output o) * vget l2.output_grad o
          rw [b6]
        obtain ⟨_, _, _, _, _, _, _, _, _, u10, u11⟩ :=
          Layer.update_weights_spec n1.alpha l2 b8
        have z1 := (hz1 l1 hl1).1
        have z2 := (hz1 l1 hl1).2
        constructor
        · intro o i ho hi
          have ho1 : o < l1.output_size := by rw [← b2]; exact ho
          have hi1 : i < l1.input_size := by rw [← b1]; exact hi
          have e := b10 o i ho1 hi1
          rw [hg] at e
          have e5 : vget l2.grad_weights (o * l2.input_size + i)
              = vget l2.input i * l2.grad A o := by
            rw [b1, b5, e]
            show vget l1.grad_weights (o * l1.input_size + i) + _ = _
            rw [vget_of_all_zero z1, zero_add]
          refine ⟨e5, ?_⟩
          rw [u10 _ (row_major_lt ho hi), e5]
        · intro o ho
          have ho1 : o < l1.output_size := by rw [← b2]; exact ho
          have e := b11 o ho1
          rw [hg] at e
          have e5 : vget l2.grad_bias o = l2.grad A o := by
            rw [e]
            show vget l1.grad_bias o + _ = _
            rw [vget_of_all_zero z2, zero_add]
          refine ⟨e5, ?_⟩
          rw [u11 o ho, e5]

end accumulator_lemmas

/-! ## Claims -/

section claims

variable {α : Type} [Field α]

/-- C1 (amended): construction from a dimension list throws an `mlp_error`
exactly when the list is empty; from a list with a single width it returns
normally, with a network that has no layers. -/
theorem C1_new_fails_iff_empty (dims : List Nat) (rnd : Nat → α) :
    ((network.new dims rnd).failed = true ↔ dims = []) ∧
    ∀ d : Nat, network.new [d] rnd = .ok { layers := [], alpha := 1 / 100 } () := by
  refine ⟨?_, fun d => rfl⟩
  cases dims with
  | nil => simp [network.new, Result.failed]
  | cons d rest => simp [network.new, Result.failed]

/-- C1 as stated fails: the dimension list `[3]` of length 1 is accepted, and
the network produced has zero layers. -/
theorem C1_length_one_accepted :
    [3].length = 1 ∧ (network.new [3] (fun _ => (0 : ℚ))).failed = false ∧
    ∃ n : network ℚ, network.new [3] (fun _ => (0 : ℚ)) = .ok n () ∧ n.layers = [] :=
  ⟨rfl, rfl, ⟨_, rfl, rfl⟩⟩

/-- C2: for a dimension list of length `n ≥ 2` construction returns a network
with `n - 1` layers; layer `k` has `input_size = dims[k]`, `output_size =
dims[k+1]`, `dims[k] * dims[k+1]` weights, and zero `bias`, `input`, `output`,
`input_grad`, `output_grad`, `grad_weights`, `grad_bias` of the matching
lengths; each layer's `output_size` is the next layer's `input_size`. -/
theorem C2_new_layers (dims : List Nat) (rnd : Nat → α) (h : 2 ≤ dims.length) :
    ∃ net : network α, network.new dims rnd = .ok net () ∧
      net.layers.length = dims.length - 1 ∧
      (∀ k i o, dims[k]? = some i → dims[k + 1]? = some o →
        ∃ l, net.layers[k]? = some l ∧ l.input_size = i ∧ l.output_size = o ∧
          l.weights.length = i * o ∧ l.grad_weights = List.replicate (i * o) 0 ∧
          l.bias = List.replicate o 0 ∧ l.output = List.replicate o 0 ∧
          l.output_grad = List.replicate o 0 ∧ l.grad_bias = List.replicate o 0 ∧
          l.input = List.replicate i 0 ∧ l.input_grad = List.replicate i 0) ∧
      (∀ k l l1, net.layers[k]? = some l → net.layers[k + 1]? = some l1 →
        l.output_size = l1.input_size) := by
  cases dims with
  | nil => simp at h
  | cons d rest =>
    refine ⟨_, rfl, ?_, ?_, ?_⟩
    · simp [build_layers_length]
    · intro k i o hi ho
      rw [List.getElem?_cons_succ] at ho
      obtain ⟨p, hp⟩ := build_layers_get rnd rest d 0 k i o hi ho
      exact ⟨_, hp, rfl, rfl, Layer.new_weights_length i o rnd p,
        rfl, rfl, rfl, rfl, rfl, rfl, rfl⟩
    · intro k l l1 hl hl1
      have hk1 : k + 1 < rest.length := by
        have := (List.getElem?_eq_some_iff.1 hl1).1
        simpa [build_layers_length] using this
      have hb : rest[k]? = some (rest[k]) := List.getElem?_eq_getElem (by omega)
      have hc : rest[k + 1]? = some (rest[k + 1]) := List.getElem?_eq_getElem hk1
      have hkd : k < (d :: rest).length := by simp; omega
      have ha : (d :: rest)[k]? = some ((d :: rest)[k]) := List.getElem?_eq_getElem hkd
      obtain ⟨p, hp⟩ := build_layers_get rnd rest d 0 k _ _ ha hb
      obtain ⟨q, hq⟩ := build_layers_get rnd rest d 0 (k + 1) _ _
        (by rw [List.getElem?_cons_succ]; exact hb) hc
      simp only [] at hl hl1
      rw [hp] at hl
      rw [hq] at hl1
      cases hl
      cases hl1
      rfl

/-- C2 at the dimension list `[2, 3, 1]`. -/
theorem C2_new_layers_witness :
    2 ≤ [2, 3, 1].length ∧
    ∃ net : network ℚ, network.new [2, 3, 1] (fun k => (k : ℚ)) = .ok net () ∧
      net.layers.length = [2, 3, 1].length - 1 ∧
      (∀ k i o, [2, 3, 1][k]? = some i → [2, 3, 1][k + 1]? = some o →
        ∃ l, net.layers[k]? = some l ∧ l.input_size = i ∧ l.output_size = o ∧
          l.weights.length = i * o ∧ l.grad_weights = List.replicate (i * o) 0 ∧
          l.bias = List.replicate o 0 ∧ l.output = List.replicate o 0 ∧
          l.output_grad = List.replicate o 0 ∧ l.grad_bias = List.replicate o 0 ∧
          l.input = List.replicate i 0 ∧ l.input_grad = List.replicate i 0) ∧
      (∀ k l l1, net.layers[k]? = some l → net.layers[k + 1]? = some l1 →
        l.output_size = l1.input_size) :=
  ⟨by decide, C2_new_layers [2, 3, 1] (fun k => (k : ℚ)) (by decide)⟩

/-- C3: `forward()` on a layer whose `input` has not the length `input_size`
throws and leaves the layer as it was; otherwise it returns, every `output[o]`
with `o < output_size` is `f` of the weight row's dot product with `input`
plus `bias[o]`, and all other members are unchanged. -/
theorem C3_layer_forward (A : Activation α) (l : Layer α) (hs : l.Shaped) :
    (l.input.length ≠ l.input_size →
      (l.forward A).failed = true ∧ (l.forward A).state = l) ∧
    (l.input.length = l.input_size → ∃ r, l.forward A = .ok () r ∧
      (∀ o, o < l.output_size → r.output[o]? = some (A.f
        ((∑ i in Finset.range l.input_size,
            vget l.weights (o * l.input_size + i) * vget l.input i) + vget l.bias o))) ∧
      r.weights = l.weights ∧ r.bias = l.bias ∧ r.input = l.input ∧
      r.input_grad = l.input_grad ∧ r.output_grad = l.output_grad ∧
      r.grad_weights = l.grad_weights ∧ r.grad_bias = l.grad_bias ∧
      r.input_size = l.input_size ∧ r.output_size = l.output_size ∧
      r.output.length = l.output.length) := by
  constructor
  · intro h
    rw [Layer.forward_throw A l h]
    exact ⟨rfl, rfl⟩
  · intro h
    refine ⟨_, Layer.forward_ok A l h, ?_⟩
    obtain ⟨h1, h2, h3, h4, h5, h6, h7, h8, h9, h10, _, h12⟩ :=
      Layer.forward_spec A l _ hs (Layer.forward_ok A l h)
    refine ⟨fun o ho => ?_, h3, h4, h5, h6, h7, h8, h9, h1, h2, ?_⟩
    · rw [← h12 o ho]
      exact getElem?_eq_vget _ (by rw [h10.2.2.1, h2]; exact ho)
    · rw [h10.2.2.1, h2, hs.2.2.1]

/-- C3 at `sampleLayer`. -/
theorem C3_layer_forward_witness :
    sampleLayer.Shaped ∧ sampleLayer.input.length = sampleLayer.input_size ∧
    ∃ r, sampleLayer.forward sampleActivation = .ok () r ∧
      r.output[0]? = some (sampleActivation.f
        ((∑ i in Finset.range 2, vget sampleLayer.weights (0 * 2 + i) * vget sampleLayer.input i)
          + vget sampleLayer.bias 0)) ∧
      r.weights = [1, 2] ∧ r.grad_bias = [12] := by
  refine ⟨by decide, by decide, ?_⟩
  obtain ⟨r, hr, ho, hw, _, _, _, _, _, hgb, _⟩ :=
    (C3_layer_forward sampleActivation sampleLayer (by decide)).2 (by decide)
  exact ⟨r, hr, ho 0 (by decide), hw, hgb⟩

/-- C4: `backward()` on a layer whose `output_grad` has not the length
`output_size` throws; otherwise, with `local o = df(output[o]) *
output_grad[o]`, it returns with `input_grad[i] = Σ_o local o * weights[o *
input_size + i]` whatever `input_grad` held, `grad_weights[o * input_size + i]`
and `grad_bias[o]` increased by `input[i] * local o` and by `local o`, and
`weights`, `bias`, `input`, `output`, `output_grad` unchanged. -/
theorem C4_layer_backward (A : Activation α) (l : Layer α) (hs : l.Shaped)
    (_hin : l.input.length = l.input_size) :
    (l.output_grad.length ≠ l.output_size → (l.backward A).failed = true) ∧
    (l.output_grad.length = l.output_size → ∃ r, l.backward A = .ok () r ∧
      (∀ i, i < l.input_size → r.input_grad[i]? = some
        (∑ o in Finset.range l.output_size,
          (A.df (vget l.output o) * vget l.output_grad o)
            * vget l.weights (o * l.input_size + i))) ∧
      (∀ o i, o < l.output_size → i < l.input_size →
        r.grad_weights[o * l.input_size + i]? = some
          (vget l.grad_weights (o * l.input_size + i)
            + vget l.input i * (A.df (vget l.output o) * vget l.output_grad o))) ∧
      (∀ o, o < l.output_size → r.grad_bias[o]? = some
        (vget l.grad_bias o + A.df (vget l.output o) * vget l.output_grad o)) ∧
      r.weights = l.weights ∧ r.bias = l.bias ∧ r.input = l.input ∧ r.output = l.output ∧
      r.output_grad = l.output_grad ∧ r.input_size = l.input_size ∧
      r.output_size = l.output_size) := by
  constructor
  · intro h
    rw [Layer.backward_throw A l h]
    rfl
  · intro h
    refine ⟨_, Layer.backward_ok A l h, ?_⟩
    obtain ⟨h1, h2, h3, h4, h5, h6, h7, h8, h9, h10, h11⟩ :=
      Layer.backward_spec A l _ hs (Layer.backward_ok A l h)
    obtain ⟨_, _, _, sig, sgw, sgb⟩ := h8
    refine ⟨fun i hi => ?_, fun o i ho hi => ?_, fun o ho => ?_, h3, h4, h5, h6, h7, h1, h2⟩
    · have := h9 i hi
      simp only [Layer.grad] at this
      rw [← this]
      exact getElem?_eq_vget _ (by rw [sig, h1]; exact hi)
    · have := h10 o i ho hi
      simp only [Layer.grad] at this
      rw [← this]
      exact getElem?_eq_vget _ (by rw [sgw, h1, h2]; exact row_major_lt ho hi)
    · have := h11 o ho
      simp only [Layer.grad] at this
      rw [← this]
      exact getElem?_eq_vget _ (by rw [sgb, h2]; exact ho)

/-- C4 at `sampleLayer`. -/
theorem C4_layer_backward_witness :
    sampleLayer.Shaped ∧ sampleLayer.input.length = sampleLayer.input_size ∧
    sampleLayer.output_grad.length = sampleLayer.output_size ∧
    ∃ r, sampleLayer.backward sampleActivation = .ok () r ∧
      r.input_grad[1]? = some (∑ o in Finset.range 1,
          (sampleActivation.df (vget sampleLayer.output o) * vget sampleLayer.output_grad o)
            * vget sampleLayer.weights (o * 2 + 1)) ∧
      r.grad_bias[0]? = some (vget sampleLayer.grad_bias 0
          + sampleActivation.df (vget sampleLayer.output 0) * vget sampleLayer.output_grad 0) ∧
      r.weights = [1, 2] := by
  refine ⟨by decide, by decide, by decide, ?_⟩
  obtain ⟨r, hr, hig, _, hgb, hw, _⟩ :=
    (C4_layer_backward sampleActivation sampleLayer (by decide) (by decide)).2 (by decide)
  exact ⟨r, hr, hig 1 (by decide), hgb 0 (by decide), hw⟩

/-- C5: `update_weights(alpha)` replaces every `weights[j]` by `weights[j] -
alpha * grad_weights[j]` and every `bias[o]` by `bias[o] - alpha *
grad_bias[o]`, leaves both accumulators all zero (lengths kept), keeps the
lengths of `weights` and `bias`, and leaves the input, output and gradient
buffers unchanged. -/
theorem C5_layer_update_weights (alpha : α) (l : Layer α) (hs : l.Shaped) :
    (∀ j, j < l.input_size * l.output_size → (l.update_weights alpha).weights[j]? = some
      (vget l.weights j - alpha * vget l.grad_weights j)) ∧
    (∀ o, o < l.output_size → (l.update_weights alpha).bias[o]? = some
      (vget l.bias o - alpha * vget l.grad_bias o)) ∧
    (l.update_weights alpha).grad_weights = List.replicate l.grad_weights.length 0 ∧
    (l.update_weights alpha).grad_bias = List.replicate l.grad_bias.length 0 ∧
    (l.update_weights alpha).weights.length = l.weights.length ∧
    (l.update_weights alpha).bias.length = l.bias.length ∧
    (l.update_weights alpha).input = l.input ∧
    (l.update_weights alpha).output = l.output ∧
    (l.update_weights alpha).input_grad = l.input_grad ∧
    (l.update_weights alpha).output_grad = l.output_grad ∧
    (l.update_weights alpha).input_size = l.input_size ∧
    (l.update_weights alpha).output_size = l.output_size := by
  obtain ⟨h1, h2, h3, h4, h5, h6, h7, h8, h9, h10, h11⟩ := Layer.update_weights_spec alpha l hs
  obtain ⟨sw, sb, _⟩ := h7
  refine ⟨fun j hj => ?_, fun o ho => ?_, h8, h9, ?_, ?_, h3, h4, h5, h6, h1, h2⟩
  · rw [← h10 j hj]
    exact getElem?_eq_vget _ (by rw [sw, h1, h2]; exact hj)
  · rw [← h11 o ho]
    exact getElem?_eq_vget _ (by rw [sb, h2]; exact ho)
  · rw [sw, h1, h2, hs.1]
  · rw [sb, h2, hs.2.1]

/-- C5 at `sampleLayer` with `alpha = 1 / 2`. -/
theorem C5_layer_update_weights_witness :
    sampleLayer.Shaped ∧
    (sampleLayer.update_weights (1 / 2)).weights[1]? = some
      (vget sampleLayer.weights 1 - 1 / 2 * vget sampleLayer.grad_weights 1) ∧
    (sampleLayer.update_weights (1 / 2)).grad_weights = List.replicate 2 0 ∧
    (sampleLayer.update_weights (1 / 2)).input = [4, 5] :=
  ⟨by decide, (C5_layer_update_weights (1 / 2) sampleLayer (by decide)).1 1 (by decide),
    (C5_layer_update_weights (1 / 2) sampleLayer (by decide)).2.2.1,
    (C5_layer_update_weights (1 / 2) sampleLayer (by decide)).2.2.2.2.2.2.1⟩

/-- C6: on a network with the shape built from a dimension list of length at
least 2, `forward(sample)` throws exactly when the sample's length differs
from the first layer's `input_size`; when it returns, the first layer's
`input` is the sample, every later layer's `input` is the `output` of the
layer before it, and the network output is the composition in layer order of
the layer maps `x ↦ f (W x + b)` applied to the sample. -/
theorem C6_network_forward (A : Activation α) (dims : List Nat) (n : network α)
    (sample : List α) (h2 : 2 ≤ dims.length) (hb : n.BuiltFrom dims) :
    ((n.forward A sample).failed = true ↔ sample.length ≠ n.input_size) ∧
    (sample.length = n.input_size → ∃ r, n.forward A sample = .ok () r ∧
      (∃ l, r.layers.head? = some l ∧ l.input = sample) ∧
      (∀ k l l1, r.layers[k]? = some l → r.layers[k + 1]? = some l1 → l1.input = l.output) ∧
      r.layers.length = n.layers.length ∧
      r.output = n.map A sample) := by
  have hne := LayersFit.ne_nil hb h2
  obtain ⟨l, rest, hl⟩ := List.exists_cons_of_ne_nil hne
  have hin : n.input_size = l.input_size := by simp [network.input_size, hl]
  have main : sample.length = n.input_size → ∃ r, n.forward A sample = .ok () r ∧
      (∃ l, r.layers.head? = some l ∧ l.input = sample) ∧
      (∀ k l l1, r.layers[k]? = some l → r.layers[k + 1]? = some l1 → l1.input = l.output) ∧
      r.layers.length = n.layers.length ∧
      r.output = n.map A sample := by
    intro hx
    obtain ⟨rs, hrs, hf, hw⟩ := forward_layers_ok A n.layers sample (LayersFit.chain hb)
      (LayersFit.shaped hb) (by
        intro a ha
        rw [hl] at ha
        simp only [List.head?_cons, Option.some.injEq] at ha
        subst ha
        rw [hx, hin])
    refine ⟨{ n with layers := rs }, by simp [network.forward, hrs], ?_, (InputsWired.get hw).2,
      hf.length_eq.symm, ?_⟩
    · have hlen := hf.length_eq
      cases rs with
      | nil => rw [hl] at hlen; simp at hlen
      | cons r rs1 => exact ⟨r, rfl, hw.1⟩
    · obtain ⟨q, hq1, hq2⟩ := forward_layers_output A hf sample hw (LayersFit.shaped hb) hne
      simp only [network.output, hq1, hq2, network.map]
  refine ⟨?_, main⟩
  by_cases hx : sample.length = n.input_size
  · obtain ⟨r, hr, _⟩ := main hx
    simp [hr, Result.failed, hx]
  · have hx1 : sample.length ≠ l.input_size := by rw [← hin]; exact hx
    simp [network.forward, hl, forward_layers_throw A sample l rest hx1, Result.failed, hx]

/-- C6 at `sampleNet` (dimension list `[2, 1]`) and the sample `[1, 1]`. -/
theorem C6_network_forward_witness :
    2 ≤ [2, 1].length ∧ sampleNet.BuiltFrom [2, 1] ∧
    (((sampleNet.forward sampleActivation [1, 1]).failed = true
        ↔ [(1 : ℚ), 1].length ≠ sampleNet.input_size) ∧
      ([(1 : ℚ), 1].length = sampleNet.input_size →
        ∃ r, sampleNet.forward sampleActivation [1, 1] = .ok () r ∧
        (∃ l, r.layers.head? = some l ∧ l.input = [1, 1]) ∧
        (∀ k l l1, r.layers[k]? = some l → r.layers[k + 1]? = some l1 → l1.input = l.output) ∧
        r.layers.length = sampleNet.layers.length ∧
        r.output = sampleNet.map sampleActivation [1, 1])) :=
  ⟨by decide, by simp [network.BuiltFrom, sampleNet, LayersFit, sampleLayer, Layer.Shaped],
    C6_network_forward sampleActivation [2, 1] sampleNet [1, 1] (by decide)
      (by simp [network.BuiltFrom, sampleNet, LayersFit, sampleLayer, Layer.Shaped])⟩

/-- C7: on a network with the shape built from a dimension list of length at
least 2, `backward(error)` throws exactly when the length of `error` differs
from the output layer's `output_size`, and then the network is unchanged; when
it returns, the last layer's `output_grad` is `error`, every layer is the
result of one `backward()` call on the gradient wired to it, and every other
layer's `output_grad` is the `input_grad` of the layer after it.  (The
hypothesis on the `input` buffers keeps the reads `input[in]` of the layers'
`backward()` in range.) -/
theorem C7_network_backward (A : Activation α) (dims : List Nat) (n : network α)
    (error : List α) (h2 : 2 ≤ dims.length) (hb : n.BuiltFrom dims) (_hin : n.InputsFit) :
    ((n.backward A error).failed = true ↔ error.length ≠ n.output_size) ∧
    (error.length ≠ n.output_size → (n.backward A error).state = n) ∧
    (error.length = n.output_size → ∃ r, n.backward A error = .ok () r ∧
      (∃ l, r.layers.getLast? = some l ∧ l.output_grad = error) ∧
      List.Forall₂ (Layer.backward_step A) n.layers r.layers ∧
      (∀ k l l1, r.layers[k]? = some l → r.layers[k + 1]? = some l1 →
        l.output_grad = l1.input_grad)) := by
  have main : error.length = n.output_size → ∃ r, n.backward A error = .ok () r ∧
      (∃ l, r.layers.getLast? = some l ∧ l.output_grad = error) ∧
      List.Forall₂ (Layer.backward_step A) n.layers r.layers ∧
      (∀ k l l1, r.layers[k]? = some l → r.layers[k + 1]? = some l1 →
        l.output_grad = l1.input_grad) := by
    intro he
    obtain ⟨rs, hrs, hf, hw⟩ := network.backward_returns A dims n error h2 hb he
    obtain ⟨w1, w2⟩ := GradsWired.as_chain hw
    refine ⟨_, hrs, ?_, hf, chain_getElem? (List.chain'_reverse.1 w2)⟩
    have hne : rs ≠ [] := by
      intro h
      rw [h] at hf
      exact LayersFit.ne_nil hb h2 (List.forall₂_nil_right_iff.1 hf)
    obtain ⟨l, hl⟩ : ∃ l, rs.getLast? = some l :=
      ⟨rs.getLast hne, List.getLast?_eq_getLast _ hne⟩
    exact ⟨l, hl, w1 l (by rw [List.head?_reverse]; exact hl)⟩
  refine ⟨?_, ?_, main⟩
  · by_cases he : error.length = n.output_size
    · obtain ⟨r, hr, _⟩ := main he
      simp [hr, Result.failed, he]
    · simp [network.backward, he, Result.failed]
  · intro he
    simp [network.backward, he, Result.state]

/-- C7 at `sampleNet` (dimension list `[2, 1]`) and the error vector `[1]`. -/
theorem C7_network_backward_witness :
    2 ≤ [2, 1].length ∧ sampleNet.BuiltFrom [2, 1] ∧ sampleNet.InputsFit ∧
    [(1 : ℚ)].length = sampleNet.output_size ∧
    ∃ r, sampleNet.backward sampleActivation [1] = .ok () r ∧
      (∃ l, r.layers.getLast? = some l ∧ l.output_grad = [1]) ∧
      List.Forall₂ (Layer.backward_step sampleActivation) sampleNet.layers r.layers ∧
      (∀ k l l1, r.layers[k]? = some l → r.layers[k + 1]? = some l1 →
        l.output_grad = l1.input_grad) :=
  ⟨by decide, by simp [network.BuiltFrom, sampleNet, LayersFit, sampleLayer, Layer.Shaped],
    by simp [network.InputsFit, sampleNet, sampleLayer], by decide,
    (C7_network_backward sampleActivation [2, 1] sampleNet [1] (by decide)
      (by simp [network.BuiltFrom, sampleNet, LayersFit, sampleLayer, Layer.Shaped])
      (by simp [network.InputsFit, sampleNet, sampleLayer])).2.2 (by decide)⟩

/-- C8: on a network with at least one layer and output width `m`,
`label_to_vector(k, out)` with `k < m` returns, whatever `out` held, a vector
of length `m` with `1` at index `k` and `0` at every other index; with
`k ≥ m` it throws. -/
theorem C8_label_to_vector (n : network α) (_hne : n.layers ≠ []) (k : Nat) (out : List α) :
    (k < n.output_size → ∃ r, n.label_to_vector k out = .ok () r ∧
      r.length = n.output_size ∧ r[k]? = some 1 ∧
      ∀ j, j < n.output_size → j ≠ k → r[j]? = some 0) ∧
    (n.output_size ≤ k → (n.label_to_vector k out).failed = true) := by
  constructor
  · intro hk
    refine ⟨vset (vfill (vresize out n.output_size) 0) k 1, ?_, ?_, ?_, ?_⟩
    · simp [network.label_to_vector, Nat.not_le.2 hk]
    · rw [length_vset, length_vfill, length_vresize]
    · simp [vset, vfill, length_vresize, hk]
    · intro j hj hjk
      simp [vset, vfill, length_vresize, List.getElem?_set_ne (Ne.symm hjk),
        List.getElem?_replicate, hj]
  · intro hk
    simp [network.label_to_vector, hk, Result.failed]

/-- C8 at `sampleNet` (output width 1), label 0 and a stale vector `[5, 6, 7]`. -/
theorem C8_label_to_vector_witness :
    sampleNet.layers ≠ [] ∧ 0 < sampleNet.output_size ∧
    ∃ r, sampleNet.label_to_vector 0 [5, 6, 7] = .ok () r ∧
      r.length = sampleNet.output_size ∧ r[0]? = some 1 ∧
      ∀ j, j < sampleNet.output_size → j ≠ 0 → r[j]? = some 0 :=
  ⟨by simp [sampleNet], by decide,
    (C8_label_to_vector sampleNet (by simp [sampleNet]) 0 [5, 6, 7]).1 (by decide)⟩

/-- C9: on a single-layer network of widths `[n, 1]` with weights `w`, bias
`b` and zero accumulators, with the mse loss, learning rate `alpha` and no
epoch callback, one epoch of `train` on the data set `[x]` with label `0`
returns; with `y = f (Σ_i w[i] * x[i] + b)` and `delta = df y * 2 * (y - 1)`
it leaves `weights[i] = w[i] - alpha * x[i] * delta`, `bias = b - alpha *
delta` and both accumulators zero. -/
theorem C9_single_step (A : Activation α) (alpha b y delta : α) (n : Nat) (l : Layer α)
    (x : List α) (hi : l.input_size = n) (ho : l.output_size = 1) (hs : l.Shaped)
    (hbias : l.bias = [b]) (hgw : l.grad_weights = List.replicate n 0)
    (hgb : l.grad_bias = [0]) (hx : x.length = n)
    (hy : y = A.f ((∑ i in Finset.range n, vget l.weights i * vget x i) + b))
    (hd : delta = A.df y * 2 * (y - 1)) :
    ∃ s r, network.train A mse_loss (none : Option (Callback α Unit))
        { layers := [l], alpha := alpha } () [x] [0] 1 = .ok () s ∧
      s.net.layers = [r] ∧
      (∀ i, i < n → r.weights[i]? = some (vget l.weights i - alpha * vget x i * delta)) ∧
      r.bias = [b - alpha * delta] ∧
      r.grad_weights = List.replicate n 0 ∧ r.grad_bias = [0] := by
  -- forward
  have hlen : ({ l with input := x } : Layer α).input.length
      = ({ l with input := x } : Layer α).input_size := hx.trans hi.symm
  obtain ⟨l1, hl1⟩ : ∃ l1, Layer.forward A { l with input := x } = .ok () l1 :=
    ⟨_, Layer.forward_ok A _ hlen⟩
  obtain ⟨f1, f2, f3, f4, f5, _, _, f8, f9, f10, _, f12⟩ :=
    Layer.forward_spec A { l with input := x } l1 hs hl1
  have f1' : l1.input_size = n := f1.trans hi
  have f2' : l1.output_size = 1 := f2.trans ho
  have hy1 : vget l1.output 0 = y := by
    have := f12 0 (by show 0 < l.output_size; rw [ho]; exact Nat.one_pos)
    rw [this, hy]
    simp [hi, hbias, vget]
  have hout : l1.output = [y] := by
    obtain ⟨y0, hy0⟩ := List.length_eq_one.1 (f10.2.2.1.trans f2')
    rw [hy0] at hy1 ⊢
    simpa [vget] using hy1
  have hfw : network.forward A { layers := [l], alpha := alpha } x
      = .ok () { layers := [l1], alpha := alpha } := by
    simp [network.forward, forward_layers, hl1]
  -- target and loss gradient
  have hlv : network.label_to_vector ({ layers := [l1], alpha := alpha } : network α) 0
      [0] = .ok () [1] := by
    simp [network.label_to_vector, network.output_size, f2', vresize, vfill, vset]
  have hgrad : network.gradient mse_loss
      (network.output ({ layers := [l1], alpha := alpha } : network α)) [1]
      [0] = [2 * (y - 1)] := by
    simp [network.gradient, network.output, hout, mse_loss, vset, vget, List.range_succ]
  -- backward
  have hlen2 : ({ l1 with output_grad := [2 * (y - 1)] } : Layer α).output_grad.length
      = ({ l1 with output_grad := [2 * (y - 1)] } : Layer α).output_size := f2'.symm
  obtain ⟨l2, hl2⟩ : ∃ l2, Layer.backward A { l1 with output_grad := [2 * (y - 1)] }
      = .ok () l2 := ⟨_, Layer.backward_ok A _ hlen2⟩
  obtain ⟨b1, b2, b3, b4, _, _, _, b8, _, b10, b11⟩ :=
    Layer.backward_spec A { l1 with output_grad := [2 * (y - 1)] } l2 f10 hl2
  have hg : Layer.grad A ({ l1 with output_grad := [2 * (y - 1)] } : Layer α) 0 = delta := by
    simp only [Layer.grad, hy1]
    rw [hd]
    simp [vget, mul_assoc]
  have hbw : network.backward A { layers := [l1], alpha := alpha } [2 * (y - 1)]
      = .ok () { layers := [l2], alpha := alpha } := by
    have he : ([2 * (y - 1)] : List α).length
        = network.output_size ({ layers := [l1], alpha := alpha } : network α) := by
      simp [network.output_size, f2']
    unfold network.backward
    rw [if_neg (not_not.2 he)]
    simp only [List.reverse_singleton, backward_layers, hl2]
  -- update
  obtain ⟨u1, u2, _, _, _, _, u7, u8, u9, u10, u11⟩ := Layer.update_weights_spec alpha l2 b8
  have b1' : l2.input_size = n := b1.trans f1'
  have b2' : l2.output_size = 1 := b2.trans f2'
  have htrain : network.train A mse_loss (none : Option (Callback α Unit))
      { layers := [l], alpha := alpha } () [x] [0] 1
      = .ok () { net := { layers := [l2.update_weights alpha], alpha := alpha }, env := (),
                 error := [2 * (y - 1)], expected := [1], epochs := 1, calls := [] } := by
    simp [network.train, train_epochs, train_epoch, train_sample, network.output_size, ho,
      hfw, hlv, hgrad, hbw, network.update_weights]
  refine ⟨_, l2.update_weights alpha, htrain, rfl, fun i hin => ?_, ?_, ?_, ?_⟩
  · have hw := u10 i (by rw [b1', b2', Nat.mul_one]; exact hin)
    have hgwi := b10 0 i (by show 0 < l1.output_size; rw [f2']; exact Nat.one_pos)
      (by show i < l1.input_size; rw [f1']; exact hin)
    simp only [Nat.zero_mul, Nat.zero_add] at hgwi
    rw [hg] at hgwi
    have hz : vget l1.grad_weights i = 0 := by
      rw [f8]
      show vget l.grad_weights i = 0
      rw [hgw]
      simp [vget, List.getD_eq_getElem?_getD, List.getElem?_replicate, hin]
    rw [hz, zero_add] at hgwi
    have hxi : vget ({ l1 with output_grad := [2 * (y - 1)] } : Layer α).input i = vget x i := by
      show vget l1.input i = vget x i
      rw [f5]
    rw [hxi] at hgwi
    rw [getElem?_eq_vget _ (by rw [u7.1, u1, u2, b1', b2', Nat.mul_one]; exact hin), hw, hgwi, b3]
    show some (vget l1.weights i - alpha * (vget x i * delta)) = _
    rw [f3, mul_assoc]
  · have hb0 := u11 0 (by rw [b2']; exact Nat.one_pos)
    have hgb0 := b11 0 (by show 0 < l1.output_size; rw [f2']; exact Nat.one_pos)
    rw [hg] at hgb0
    have hz : vget ({ l1 with output_grad := [2 * (y - 1)] } : Layer α).grad_bias 0 = 0 := by
      show vget l1.grad_bias 0 = 0
      rw [f9]
      show vget l.grad_bias 0 = 0
      rw [hgb]
      rfl
    rw [hz, zero_add] at hgb0
    have hbb : vget l2.bias 0 = b := by
      rw [b4]
      show vget l1.bias 0 = b
      rw [f4]
      show vget l.bias 0 = b
      rw [hbias]
      rfl
    rw [hgb0, hbb] at hb0
    obtain ⟨z, hz1⟩ := List.length_eq_one.1 (u7.2.1.trans (u2.trans b2'))
    rw [hz1] at hb0 ⊢
    simpa [vget] using hb0
  · rw [u8, b8.2.2.2.2.1, b1', b2', Nat.mul_one]
  · rw [u9, b8.2.2.2.2.2, b2']
    rfl

/-- C9 at `sampleFreshLayer` (weights `[1, 2]`, bias `3`), the sample `[1, 1]`
and `alpha = 1 / 2`: here `y = 12` and `delta = -3146`. -/
theorem C9_single_step_witness :
    sampleFreshLayer.input_size = 2 ∧ sampleFreshLayer.output_size = 1 ∧
    sampleFreshLayer.Shaped ∧
    (12 : ℚ) = sampleActivation.f
      ((∑ i in Finset.range 2, vget sampleFreshLayer.weights i * vget [1, 1] i) + 3) ∧
    (-3146 : ℚ) = sampleActivation.df 12 * 2 * (12 - 1) ∧
    ∃ s r, network.train sampleActivation mse_loss (none : Option (Callback ℚ Unit))
        { layers := [sampleFreshLayer], alpha := 1 / 2 } () [[1, 1]] [0] 1 = .ok () s ∧
      s.net.layers = [r] ∧
      (∀ i, i < 2 → r.weights[i]? = some
        (vget sampleFreshLayer.weights i - 1 / 2 * vget [1, 1] i * (-3146))) ∧
      r.bias = [3 - 1 / 2 * (-3146)] ∧
      r.grad_weights = List.replicate 2 0 ∧ r.grad_bias = [0] :=
  ⟨rfl, rfl, by decide,
    by norm_num [Finset.sum_range_succ, vget, sampleActivation, sampleFreshLayer, sampleLayer],
    by norm_num [sampleActivation],
    C9_single_step sampleActivation (1 / 2) 3 12 (-3146) 2 sampleFreshLayer [1, 1] rfl rfl
      (by decide) rfl rfl rfl rfl
      (by norm_num [Finset.sum_range_succ, vget, sampleActivation, sampleFreshLayer,
        sampleLayer])
      (by norm_num [sampleActivation])⟩

/-- C11: when the number of samples differs from the number of labels, `train`
throws an `mlp_error` for every `max_epochs` (also `0`) and every callback;
the network is left as it was, the callback's surroundings are untouched and
the callback was never called. -/
theorem C11_train_size_mismatch (A : Activation α) (L : LossFunction α)
    (on_epoch : Option (Callback α κ)) (n : network α) (env : κ) (data : List (List α))
    (labels : List Nat) (max_epochs : Nat) (h : data.length ≠ labels.length) :
    (n.train A L on_epoch env data labels max_epochs).failed = true ∧
    (n.train A L on_epoch env data labels max_epochs).state.net = n ∧
    (n.train A L on_epoch env data labels max_epochs).state.env = env ∧
    (n.train A L on_epoch env data labels max_epochs).state.calls = [] ∧
    (n.train A L on_epoch env data labels max_epochs).state.epochs = 0 := by
  simp [network.train, h, Result.failed, Result.state]

/-- C11 at `sampleNet` with one sample, no label and `max_epochs = 0`. -/
theorem C11_train_size_mismatch_witness :
    [[(1 : ℚ), 1]].length ≠ ([] : List Nat).length ∧
    (sampleNet.train sampleActivation mse_loss (some sampleStop) () [[1, 1]] [] 0).failed = true ∧
    (sampleNet.train sampleActivation mse_loss (some sampleStop) () [[1, 1]] [] 0).state.net
      = sampleNet ∧
    (sampleNet.train sampleActivation mse_loss (some sampleStop) () [[1, 1]] [] 0).state.calls
      = [] :=
  ⟨by decide,
    (C11_train_size_mismatch sampleActivation mse_loss (some sampleStop) sampleNet ()
      [[1, 1]] [] 0 (by decide)).1,
    (C11_train_size_mismatch sampleActivation mse_loss (some sampleStop) sampleNet ()
      [[1, 1]] [] 0 (by decide)).2.1,
    (C11_train_size_mismatch sampleActivation mse_loss (some sampleStop) sampleNet ()
      [[1, 1]] [] 0 (by decide)).2.2.2.1⟩

end claims

section ordered_claims

variable {α : Type} [LinearOrderedField α]

/-- C14: for vectors `p`, `o` and a result vector `r` of the same length
`N ≥ 1`: `error_loss` has `f = Σ |p[i] - o[i]|` and `df[i] = p[i] - o[i]`;
`absolute_loss` has `f = Σ |p[i] - o[i]|` and `df[i] = sign (p[i] - o[i]) / N`;
`mse_loss` has `f = (1 / N) * Σ (p[i] - o[i])²` and `df[i] = (2 / N) * (p[i] -
o[i])`.  Hence mse `f p p = 0` and mse `df p p` is the zero vector. -/
theorem C14_loss_reference (p o r : List α) (N : Nat) (hp : p.length = N)
    (_ho : o.length = N) (hr : r.length = N) (_hN : 1 ≤ N) :
    (error_loss : LossFunction α).f p o = ∑ i in Finset.range N, |vget p i - vget o i| ∧
    (∀ i, i < N → ((error_loss : LossFunction α).df p o r)[i]? = some (vget p i - vget o i)) ∧
    (absolute_loss : LossFunction α).f p o = ∑ i in Finset.range N, |vget p i - vget o i| ∧
    (∀ i, i < N → ((absolute_loss : LossFunction α).df p o r)[i]?
      = some (sgn (vget p i - vget o i) / (N : α))) ∧
    (mse_loss : LossFunction α).f p o
      = 1 / (N : α) * ∑ i in Finset.range N, (vget p i - vget o i) ^ 2 ∧
    (∀ i, i < N → ((mse_loss : LossFunction α).df p o r)[i]?
      = some (2 / (N : α) * (vget p i - vget o i))) ∧
    (mse_loss : LossFunction α).f p p = 0 ∧
    (mse_loss : LossFunction α).df p p r = List.replicate N 0 := by
  obtain ⟨e1, e2⟩ := error_loss_df_eq p o r
  obtain ⟨a1, a2⟩ := absolute_loss_df_eq p o r
  obtain ⟨m1, m2⟩ := mse_loss_df_eq p o r
  obtain ⟨z1, z2⟩ := mse_loss_df_eq p p r
  refine ⟨by rw [error_loss_f_eq, hp], fun i hi => ?_, by rw [absolute_loss_f_eq, hp],
    fun i hi => ?_, ?_, fun i hi => ?_, ?_, ?_⟩
  · rw [getElem?_eq_vget _ (by rw [e1, hr]; exact hi), e2 i (by rw [hr]; exact hi),
      if_pos (by rw [hp]; exact hi)]
  · rw [getElem?_eq_vget _ (by rw [a1, hr]; exact hi), a2 i (by rw [hr]; exact hi),
      if_pos (by rw [hp]; exact hi), hp]
  · rw [mse_loss_f_eq, hp, div_eq_inv_mul, one_div]
    congr 1
    exact Finset.sum_congr rfl (fun i _ => (sq _).symm)
  · rw [getElem?_eq_vget _ (by rw [m1, hr]; exact hi), m2 i (by rw [hr]; exact hi),
      if_pos (by rw [hp]; exact hi), hp]
  · rw [mse_loss_f_eq]
    simp
  · apply vec_ext
    · rw [z1, hr, List.length_replicate]
    · intro j hj
      rw [z1] at hj
      rw [z2 j hj, if_pos (by rw [hp, ← hr]; exact hj)]
      simp [vget, List.getD_eq_getElem?_getD, List.getElem?_replicate, hr ▸ hj]

/-- C14 at `p = [3, 1]`, `o = [0, 5]` and a stale result vector `[9, 9]`. -/
theorem C14_loss_reference_witness :
    [(3 : ℚ), 1].length = 2 ∧ [(0 : ℚ), 5].length = 2 ∧ [(9 : ℚ), 9].length = 2 ∧ 1 ≤ 2 ∧
    (error_loss : LossFunction ℚ).f [3, 1] [0, 5]
      = ∑ i in Finset.range 2, |vget [(3 : ℚ), 1] i - vget [(0 : ℚ), 5] i| ∧
    ((absolute_loss : LossFunction ℚ).df [3, 1] [0, 5] [9, 9])[1]?
      = some (sgn (vget [(3 : ℚ), 1] 1 - vget [(0 : ℚ), 5] 1) / ((2 : Nat) : ℚ)) ∧
    (mse_loss : LossFunction ℚ).df [3, 1] [3, 1] [9, 9] = List.replicate 2 0 :=
  ⟨rfl, rfl, rfl, by decide,
    (C14_loss_reference [(3 : ℚ), 1] [0, 5] [9, 9] 2 rfl rfl rfl (by decide)).1,
    (C14_loss_reference [(3 : ℚ), 1] [0, 5] [9, 9] 2 rfl rfl rfl (by decide)).2.2.2.1 1
      (by decide),
    (C14_loss_reference [(3 : ℚ), 1] [0, 5] [9, 9] 2 rfl rfl rfl (by decide)).2.2.2.2.2.2.2⟩

/-- C16 (amended): the built-in loss strategies make no length check.  When
`observed` is longer than `predicted`, `f` and `df` return what they return
for `observed` cut to the length of `predicted`: the extra entries are never
read. -/
theorem C16_loss_ignores_longer_observed (p o extra r : List α) (h : o.length = p.length) :
    (error_loss : LossFunction α).f p (o ++ extra) = (error_loss : LossFunction α).f p o ∧
    (error_loss : LossFunction α).df p (o ++ extra) r = (error_loss : LossFunction α).df p o r ∧
    (absolute_loss : LossFunction α).f p (o ++ extra) = (absolute_loss : LossFunction α).f p o ∧
    (absolute_loss : LossFunction α).df p (o ++ extra) r
      = (absolute_loss : LossFunction α).df p o r ∧
    (mse_loss : LossFunction α).f p (o ++ extra) = (mse_loss : LossFunction α).f p o ∧
    (mse_loss : LossFunction α).df p (o ++ extra) r = (mse_loss : LossFunction α).df p o r :=
  loss_ignores_tail p o extra r h

/-- C16 at `predicted = [1]`, `observed = [1] ++ [2]`. -/
theorem C16_loss_ignores_longer_observed_witness :
    [(1 : ℚ)].length = [(1 : ℚ)].length ∧
    (mse_loss : LossFunction ℚ).f [1] ([1] ++ [2]) = (mse_loss : LossFunction ℚ).f [1] [1] ∧
    (error_loss : LossFunction ℚ).df [1] ([1] ++ [2]) [5]
      = (error_loss : LossFunction ℚ).df [1] [1] [5] :=
  ⟨rfl, (C16_loss_ignores_longer_observed [(1 : ℚ)] [1] [2] [5] rfl).2.2.2.2.1,
    (C16_loss_ignores_longer_observed [(1 : ℚ)] [1] [2] [5] rfl).2.1⟩

/-- C16 as stated fails: with `predicted = [1]` and the longer `observed =
[1, 2]` every built-in `f` returns a cost and every built-in `df` writes a
gradient; nothing is reported. -/
theorem C16_no_length_check :
    [(1 : ℚ)].length ≠ [(1 : ℚ), 2].length ∧
    (error_loss : LossFunction ℚ).f [1] [1, 2] = 0 ∧
    (error_loss : LossFunction ℚ).df [1] [1, 2] [5] = [0] ∧
    (absolute_loss : LossFunction ℚ).f [1] [1, 2] = 0 ∧
    (absolute_loss : LossFunction ℚ).df [1] [1, 2] [5] = [0] ∧
    (mse_loss : LossFunction ℚ).f [1] [1, 2] = 0 ∧
    (mse_loss : LossFunction ℚ).df [1] [1, 2] [5] = [0] := by
  refine ⟨by decide, ?_, ?_, ?_, ?_, ?_, ?_⟩ <;>
    simp [error_loss, absolute_loss, mse_loss, vget, vset, List.range_succ]

end ordered_claims

section field_claims

variable {α : Type} [Field α]

/-- C18: two network states with the shape of the same dimension list and the
same widths, weights and biases, whatever their buffers and accumulators hold,
give the same output on the same correctly sized sample; and a second call of
`forward` with the same sample returns the same state, hence the same output,
as the first. -/
theorem C18_forward_deterministic (A : Activation α) (dims : List Nat) (n m : network α)
    (sample : List α) (h2 : 2 ≤ dims.length) (hn : n.BuiltFrom dims) (hm : m.BuiltFrom dims)
    (hsame : List.Forall₂ Layer.SameParams n.layers m.layers)
    (hx : sample.length = n.input_size) :
    ∃ r1 r2, n.forward A sample = .ok () r1 ∧ m.forward A sample = .ok () r2 ∧
      r1.output = r2.output ∧ r1.forward A sample = .ok () r1 := by
  obtain ⟨r1, e1, _, _, _, o1, i1⟩ := network.forward_eval A dims n sample h2 hn hx
  obtain ⟨r2, e2, _, _, _, o2, _⟩ := network.forward_eval A dims m sample h2 hm
    (by rw [hx, (network.BuiltFrom.sizes_eq hn hm h2).1])
  exact ⟨r1, r2, e1, e2, by rw [o1, o2, network.map_same A hsame], i1⟩

/-- C18 at `sampleNet` and the network with the layer `sampleFreshLayer`, which
differ in their accumulators only, on the sample `[1, 1]`. -/
theorem C18_forward_deterministic_witness :
    2 ≤ [2, 1].length ∧ sampleNet.BuiltFrom [2, 1] ∧
    network.BuiltFrom [2, 1] ({ layers := [sampleFreshLayer], alpha := 1 / 2 } : network ℚ) ∧
    [(1 : ℚ), 1].length = sampleNet.input_size ∧
    ∃ r1 r2, sampleNet.forward sampleActivation [1, 1] = .ok () r1 ∧
      network.forward sampleActivation { layers := [sampleFreshLayer], alpha := 1 / 2 } [1, 1]
        = .ok () r2 ∧
      r1.output = r2.output ∧ r1.forward sampleActivation [1, 1] = .ok () r1 :=
  ⟨by decide, by simp [network.BuiltFrom, sampleNet, LayersFit, sampleLayer, Layer.Shaped],
    by simp [network.BuiltFrom, LayersFit, sampleFreshLayer, sampleLayer, Layer.Shaped],
    by decide,
    C18_forward_deterministic sampleActivation [2, 1] sampleNet
      { layers := [sampleFreshLayer], alpha := 1 / 2 } [1, 1] (by decide)
      (by simp [network.BuiltFrom, sampleNet, LayersFit, sampleLayer, Layer.Shaped])
      (by simp [network.BuiltFrom, LayersFit, sampleFreshLayer, sampleLayer, Layer.Shaped])
      (by simp [sampleNet, sampleFreshLayer, sampleLayer, Layer.SameParams])
      (by decide)⟩

end field_claims

section test_claims

variable {α : Type} [LinearOrderedField α]

/-- C12: `test` throws when the numbers of samples and labels differ.
Otherwise, on a network with the shape built from a dimension list and output
width at least 1, for a non-empty data set of rows of the input width, it
returns `total` = the number of samples, `correct` = the number of samples
whose label is the smallest index at which the forward output of the sample
attains its maximum, so `correct ≤ total`, and `accuracy = correct / total`;
`accuracy` is 1 when every label is that index. -/
theorem C12_test (A : Activation α) (dims : List Nat) (n : network α)
    (data : List (List α)) (labels : List Nat) (h2 : 2 ≤ dims.length)
    (hb : n.BuiltFrom dims) :
    (data.length ≠ labels.length → (n.test A data labels).failed = true) ∧
    (data.length = labels.length → data ≠ [] → (∀ row ∈ data, row.length = n.input_size) →
      1 ≤ n.output_size →
      ∃ res fin, n.test A data labels = .ok res fin ∧ res.total = data.length ∧
        res.correct = (data.zip labels).countP
          (fun p => decide (IsFirstMax (n.map A p.1) p.2)) ∧
        res.correct ≤ res.total ∧ res.accuracy = (res.correct : α) / (res.total : α) ∧
        ((∀ p ∈ data.zip labels, IsFirstMax (n.map A p.1) p.2) → res.accuracy = 1)) := by
  constructor
  · intro h
    simp [network.test, h, Result.failed]
  · intro hlen hne hrows hout
    obtain ⟨fin, hfin, _, _⟩ := test_loop_spec A dims h2 n hb hout data labels n 0 0 hb
      (fun _ => rfl) hlen hrows
    have hle : (data.zip labels).countP (fun p => decide (IsFirstMax (n.map A p.1) p.2))
        ≤ data.length := by
      refine le_trans (List.countP_le_length _) ?_
      simp [List.length_zip, hlen]
    rw [Nat.zero_add, Nat.zero_add] at hfin
    have key : n.test A data labels = .ok
        { correct := (data.zip labels).countP (fun p => decide (IsFirstMax (n.map A p.1) p.2))
          total := data.length
          accuracy := (((data.zip labels).countP
            (fun p => decide (IsFirstMax (n.map A p.1) p.2)) : Nat) : α)
            / ((data.length : Nat) : α) } fin := by
      simp only [network.test, hlen, ne_eq, not_true_eq_false, if_false, hfin]
    refine ⟨_, fin, key, rfl, rfl, hle, rfl, ?_⟩
    · intro hall
      have hcount : (data.zip labels).countP (fun p => decide (IsFirstMax (n.map A p.1) p.2))
          = data.length := by
        rw [List.countP_eq_length.2 (fun p hp => by simpa using hall p hp)]
        simp [List.length_zip, hlen]
      show ((List.countP _ (data.zip labels) : Nat) : α) / ((data.length : Nat) : α) = 1
      rw [hcount]
      have hpos : (data.length : α) ≠ 0 := by
        have : 0 < data.length := List.length_pos.2 hne
        exact_mod_cast this.ne'
      exact div_self hpos

/-- C12 at `sampleNet` (output width 1) and the data set `[[1, 1]]` with label
`0`. -/
theorem C12_test_witness :
    2 ≤ [2, 1].length ∧ sampleNet.BuiltFrom [2, 1] ∧ [[(1 : ℚ), 1]].length = [0].length ∧
    1 ≤ sampleNet.output_size ∧
    ∃ res fin, sampleNet.test sampleActivation [[1, 1]] [0] = .ok res fin ∧ res.total = 1 ∧
      res.correct ≤ res.total ∧ res.accuracy = (res.correct : ℚ) / (res.total : ℚ) := by
  obtain ⟨res, fin, h, ht, _, hle, hacc, _⟩ :=
    (C12_test sampleActivation [2, 1] sampleNet [[1, 1]] [0] (by decide)
      (by simp [network.BuiltFrom, sampleNet, LayersFit, sampleLayer, Layer.Shaped])).2
      rfl (by simp) (by simp [sampleNet, network.input_size, sampleLayer]) (by decide)
  exact ⟨by decide, by simp [network.BuiltFrom, sampleNet, LayersFit, sampleLayer, Layer.Shaped],
    rfl, by decide, res, fin, h, ht, hle, hacc⟩

end test_claims

section normalize_claims

/-- C19 fails on the code: with `a = 1`, `b = 2` the column `[0, 1]` is mapped
to `[-1, 0]`, outside `[1, 2]` (the code subtracts `a` where the range `[a,
b]` needs it added); and with `a = 0`, `b = 1` the negative column `[-2, -1]`
keeps its maximum below `b = 1`, because the running maximum starts from the
positive `numeric_limits::min()`. -/
theorem C19_normalize_misses_range :
    normalize FLT_MAX FLT_MIN [[0], [1]] 1 2 = [[-1], [0]] ∧
    (∃ y : ℚ, normalize FLT_MAX FLT_MIN [[-2], [-1]] 0 1 = [[0], [y]] ∧ y < 1) := by
  constructor
  · norm_num [normalize, normalize_minmax, vget, vset, List.range_succ, FLT_MAX, FLT_MIN]
  · refine ⟨1 / (FLT_MIN + 2), ?_, ?_⟩
    · norm_num [normalize, normalize_minmax, vget, vset, List.range_succ, FLT_MAX, FLT_MIN]
    · norm_num [FLT_MIN]

end normalize_claims

section real_claims

/-- C17: for the sigmoid (`f x = 1 / (1 + exp (-x))`, `df y = (1 - y) * y`) and
the hyperbolic tangent (`f x = tanh x`, `df y = 1 - y * y`) over the reals,
`df (f x)` is the derivative of `f` at `x` for every `x`; the sigmoid has
`df (f 0) = 0.25`. -/
theorem C17_activation_derivative (x : ℝ) :
    (sigmoid_activation Real.exp).f x = 1 / (1 + Real.exp (-x)) ∧
    (∀ y : ℝ, (sigmoid_activation Real.exp).df y = (1 - y) * y) ∧
    HasDerivAt (sigmoid_activation Real.exp).f
      ((sigmoid_activation Real.exp).df ((sigmoid_activation Real.exp).f x)) x ∧
    (tanh_activation Real.tanh).f x = Real.tanh x ∧
    (∀ y : ℝ, (tanh_activation Real.tanh).df y = 1 - y * y) ∧
    HasDerivAt (tanh_activation Real.tanh).f
      ((tanh_activation Real.tanh).df ((tanh_activation Real.tanh).f x)) x ∧
    (sigmoid_activation Real.exp).df ((sigmoid_activation Real.exp).f 0) = 0.25 := by
  refine ⟨rfl, fun _ => rfl, sigmoid_hasDerivAt x, rfl, fun _ => rfl, tanh_hasDerivAt x, ?_⟩
  simp only [sigmoid_activation, neg_zero, Real.exp_zero]
  norm_num

/-- C15 (amended): for real vectors `p`, `o` of the same length `N` with
`p[j] ≠ o[j]` everywhere and every `i < N`: the entry `i` written by the `df`
of `mse_loss` is the partial derivative of its `f` with respect to
`predicted[i]`; the `f` of `error_loss` has the partial derivative
`sign (p[i] - o[i])`, while its `df` writes `p[i] - o[i]`, the partial
derivative of `½ Σ (p[j] - o[j])²`; the entry written by the `df` of
`absolute_loss` is the partial derivative of its `f` divided by `N`. -/
theorem C15_loss_gradients (p o r : List ℝ) (N i : ℕ) (hp : p.length = N)
    (_ho : o.length = N) (hr : r.length = N) (hi : i < N)
    (hne : ∀ j, j < N → vget p j ≠ vget o j) :
    HasDerivAt (fun t => (mse_loss : LossFunction ℝ).f (vset p i t) o)
      (vget ((mse_loss : LossFunction ℝ).df p o r) i) (vget p i) ∧
    HasDerivAt (fun t => (error_loss : LossFunction ℝ).f (vset p i t) o)
      (sgn (vget p i - vget o i)) (vget p i) ∧
    vget ((error_loss : LossFunction ℝ).df p o r) i = vget p i - vget o i ∧
    HasDerivAt (fun t => 1 / 2 * ∑ j in Finset.range N, (vget (vset p i t) j - vget o j) ^ 2)
      (vget ((error_loss : LossFunction ℝ).df p o r) i) (vget p i) ∧
    HasDerivAt (fun t => (absolute_loss : LossFunction ℝ).f (vset p i t) o)
      ((N : ℝ) * vget ((absolute_loss : LossFunction ℝ).df p o r) i) (vget p i) := by
  subst hp
  have hir : i < r.length := by rw [hr]; exact hi
  have e := (error_loss_df_eq p o r).2 i hir
  have a := (absolute_loss_df_eq p o r).2 i hir
  have m := (mse_loss_df_eq p o r).2 i hir
  rw [if_pos hi] at e a m
  obtain ⟨d1, d2⟩ := abs_loss_f_hasDerivAt p o i hi (hne i hi)
  refine ⟨?_, d1, e, ?_, ?_⟩
  · rw [m]
    exact mse_loss_f_hasDerivAt p o i hi
  · rw [e]
    exact half_squares_hasDerivAt p o i hi
  · rw [a]
    have hN : (p.length : ℝ) ≠ 0 := by
      have : 0 < p.length := Nat.lt_of_le_of_lt (Nat.zero_le _) hi
      exact_mod_cast this.ne'
    rw [mul_div_cancel₀ _ hN]
    exact d2

/-- C15 at `p = [3, 1]`, `o = [0, 5]`, the stale result vector `[9, 9]` and
`i = 0`. -/
theorem C15_loss_gradients_witness :
    [(3 : ℝ), 1].length = 2 ∧ [(0 : ℝ), 5].length = 2 ∧ [(9 : ℝ), 9].length = 2 ∧ 0 < 2 ∧
    (∀ j, j < 2 → vget [(3 : ℝ), 1] j ≠ vget [(0 : ℝ), 5] j) ∧
    HasDerivAt (fun t => (mse_loss : LossFunction ℝ).f (vset [3, 1] 0 t) [0, 5])
      (vget ((mse_loss : LossFunction ℝ).df [3, 1] [0, 5] [9, 9]) 0) (vget [(3 : ℝ), 1] 0) ∧
    vget ((error_loss : LossFunction ℝ).df [3, 1] [0, 5] [9, 9]) 0
      = vget [(3 : ℝ), 1] 0 - vget [(0 : ℝ), 5] 0 := by
  have hne : ∀ j, j < 2 → vget [(3 : ℝ), 1] j ≠ vget [(0 : ℝ), 5] j := by
    intro j hj
    interval_cases j <;> norm_num [vget]
  have h := C15_loss_gradients [3, 1] [0, 5] [9, 9] 2 0 rfl rfl rfl (by decide) hne
  exact ⟨rfl, rfl, rfl, by decide, hne, h.1, h.2.2.1⟩

/-- C15 as stated fails for `error_loss`: at `p = [3]`, `o = [0]` its `df`
writes `3`, but the derivative of its `f` with respect to `predicted[0]` is
`1`. -/
theorem C15_error_df_not_gradient :
    vget ((error_loss : LossFunction ℝ).df [3] [0] [0]) 0 = 3 ∧
    HasDerivAt (fun t => (error_loss : LossFunction ℝ).f (vset [3] 0 t) [0]) 1 3 ∧
    ¬ HasDerivAt (fun t => (error_loss : LossFunction ℝ).f (vset [3] 0 t) [0])
      (vget ((error_loss : LossFunction ℝ).df [3] [0] [0]) 0) 3 := by
  have hdf : vget ((error_loss : LossFunction ℝ).df [3] [0] [0]) 0 = 3 := by
    norm_num [error_loss, vget, vset, List.range_succ]
  have h1 : HasDerivAt (fun t => (error_loss : LossFunction ℝ).f (vset [3] 0 t) [0]) 1 3 := by
    have h := (abs_loss_f_hasDerivAt [3] [0] 0 (by simp) (by norm_num [vget])).1
    have hs : sgn (vget [(3 : ℝ)] 0 - vget [(0 : ℝ)] 0) = 1 := by
      norm_num [sgn, vget]
    have hx : vget [(3 : ℝ)] 0 = 3 := rfl
    rw [hs, hx] at h
    exact h
  refine ⟨hdf, h1, fun h => ?_⟩
  rw [hdf] at h
  have := h.unique h1
  norm_num at this

/-- C20: for a sigmoid or tanh layer over the reals with weights `W`, bias `b`
and zero accumulators, after `forward()` on the input `x` and `backward()` on
the output gradient `g`: `input_grad[i]`, `grad_weights[o * input_size + i]`
and `grad_bias[o]` are the partial derivatives with respect to `x[i]`,
`W[o, i]` and `b[o]` of `S = Σ_o g[o] * f (Σ_i W[o, i] * x[i] + b[o])`. -/
theorem C20_backward_is_gradient (A : Activation ℝ)
    (hA : A = sigmoid_activation Real.exp ∨ A = tanh_activation Real.tanh)
    (l : Layer ℝ) (x g : List ℝ) (hs : l.Shaped) (hx : x.length = l.input_size)
    (hg : g.length = l.output_size)
    (hgw : l.grad_weights = List.replicate (l.input_size * l.output_size) 0)
    (hgb : l.grad_bias = List.replicate l.output_size 0) :
    ∃ l1 l2, Layer.forward A { l with input := x } = .ok () l1 ∧
      Layer.backward A { l1 with output_grad := g } = .ok () l2 ∧
      (∀ i, i < l.input_size →
        HasDerivAt (fun t => layer_objective A l.input_size l.output_size g l.weights l.bias
          (vset x i t)) (vget l2.input_grad i) (vget x i)) ∧
      (∀ o i, o < l.output_size → i < l.input_size →
        HasDerivAt (fun t => layer_objective A l.input_size l.output_size g
          (vset l.weights (o * l.input_size + i) t) l.bias x)
          (vget l2.grad_weights (o * l.input_size + i))
          (vget l.weights (o * l.input_size + i))) ∧
      (∀ o, o < l.output_size →
        HasDerivAt (fun t => layer_objective A l.input_size l.output_size g l.weights
          (vset l.bias o t) x) (vget l2.grad_bias o) (vget l.bias o)) := by
  rcases hA with rfl | rfl
  · exact Layer.backward_is_gradient _ sigmoid_hasDerivAt l x g hs hx hg hgw hgb
  · exact Layer.backward_is_gradient _ tanh_hasDerivAt l x g hs hx hg hgw hgb

/-- C20 at the sigmoid layer `sampleLayerIn ℝ` (weights `[1, 2]`, bias `3`),
the input `[4, 5]` and the output gradient `[1]`. -/
theorem C20_backward_is_gradient_witness :
    (sampleLayerIn ℝ).Shaped ∧ [(4 : ℝ), 5].length = (sampleLayerIn ℝ).input_size ∧
    [(1 : ℝ)].length = (sampleLayerIn ℝ).output_size ∧
    (sampleLayerIn ℝ).grad_weights = List.replicate (2 * 1) 0 ∧
    (sampleLayerIn ℝ).grad_bias = List.replicate 1 0 ∧
    ∃ l1 l2, Layer.forward (sigmoid_activation Real.exp)
        { sampleLayerIn ℝ with input := [4, 5] } = .ok () l1 ∧
      Layer.backward (sigmoid_activation Real.exp) { l1 with output_grad := [1] }
        = .ok () l2 ∧
      HasDerivAt (fun t => layer_objective (sigmoid_activation Real.exp) 2 1 [1] [1, 2] [3]
        (vset [4, 5] 1 t)) (vget l2.input_grad 1) (vget [(4 : ℝ), 5] 1) ∧
      HasDerivAt (fun t => layer_objective (sigmoid_activation Real.exp) 2 1 [1]
        (vset [1, 2] (0 * 2 + 1) t) [3] [4, 5]) (vget l2.grad_weights (0 * 2 + 1))
        (vget [(1 : ℝ), 2] (0 * 2 + 1)) ∧
      HasDerivAt (fun t => layer_objective (sigmoid_activation Real.exp) 2 1 [1] [1, 2]
        (vset [3] 0 t) [4, 5]) (vget l2.grad_bias 0) (vget [(3 : ℝ)] 0) := by
  have hs : (sampleLayerIn ℝ).Shaped := ⟨rfl, rfl, rfl, rfl, rfl, rfl⟩
  obtain ⟨l1, l2, h1, h2, hx, hw, hb⟩ := C20_backward_is_gradient
    (sigmoid_activation Real.exp) (Or.inl rfl) (sampleLayerIn ℝ) [4, 5] [1] hs rfl rfl rfl rfl
  exact ⟨hs, rfl, rfl, rfl, rfl, l1, l2, h1, h2, hx 1 (by decide),
    hw 0 1 (by decide) (by decide), hb 0 (by decide)⟩

end real_claims

section frame_claims

variable {α κ : Type} [LinearOrderedField α]

/-- C21: on a network with the shape of a dimension list, `forward`, `test`,
`loss` and `loss_mean`, on any sample, dataset and labels and whether they
return or throw, leave a state that differs from the one before at most in the
`input` and `output` buffers of the layers: `alpha` and every layer's widths,
`weights`, `bias`, `grad_weights`, `grad_bias`, `input_grad` and `output_grad`
are unchanged.  So does the `on_epoch` callable of `example/iris.cpp`, which
calls `test` and `loss_mean`; and `train` run with that callable ends as
`train` run with the callable that decides and prints the same but hands the
network back untouched: both return or both throw with the same message, with
the same `alpha`, widths, weights, biases and accumulators in every layer, the
same printed lines, the same number of completed epochs and the same sequence
of stop flags.  When `train` run with the callable of `example/iris.cpp`
returns, `train` run without a callback for the number of epochs that run
completed returns too, with the same `alpha`, widths, weights, biases and
accumulators in every layer. -/
theorem C21_evaluation_does_not_train (A : Activation α) (L : LossFunction α)
    (dims : List Nat) (n : network α) (_h2 : 2 ≤ dims.length) (hb : n.BuiltFrom dims)
    (sample : List α) (data : List (List α)) (labels : List Nat)
    (train_data : List (List α)) (train_labels : List Nat) (epochs_max : Nat)
    (printed : List (α × Option α)) :
    network.EvalFrame n (n.forward A sample).state ∧
    network.EvalFrame n (n.test A data labels).state ∧
    network.EvalFrame n (n.loss A L data labels).state ∧
    network.EvalFrame n (n.loss_mean A L data labels).state ∧
    network.EvalFrame n (iris_on_epoch A L data labels n printed).state.1 ∧
    Result.Rel
      (fun s t : train_state α (List (α × Option α)) => network.SameLearned s.net t.net ∧
        t.env = s.env ∧ t.epochs = s.epochs ∧ t.calls = s.calls)
      (fun s t : train_state α (List (α × Option α)) => network.SameLearned s.net t.net ∧
        t.env = s.env ∧ t.epochs = s.epochs ∧ t.calls = s.calls)
      (network.train A L (some (iris_on_epoch A L data labels)) n printed
        train_data train_labels epochs_max)
      (network.train A L (some (quiet (iris_on_epoch A L data labels))) n printed
        train_data train_labels epochs_max) ∧
    ∀ s, network.train A L (some (iris_on_epoch A L data labels)) n printed
        train_data train_labels epochs_max = .ok () s →
      ∃ t, network.train A L none n printed train_data train_labels s.epochs = .ok () t ∧
        network.SameLearned s.net t.net := by
  refine ⟨network.forward_frame A n sample, network.test_frame A n data labels,
    network.loss_frame A L n data labels, network.loss_mean_frame A L n data labels,
    iris_on_epoch_frame A L data labels n printed, ?_, ?_⟩
  swap
  · intro s hs
    unfold network.train at hs ⊢
    by_cases hc : train_data.length = train_labels.length
    · rw [if_neg (not_not.2 hc)] at hs ⊢
      obtain ⟨_, t, ht, hst⟩ := train_epochs_none A L (iris_on_epoch A L data labels)
        (iris_on_epoch_frame A L data labels) train_data train_labels epochs_max _ _ s
        ⟨network.Sim.of_built hb, rfl, rfl⟩ hs
      exact ⟨t, ht, hst.1.learned⟩
    · rw [if_pos hc] at hs
      cases hs
  have h := network.train_sim A L (iris_on_epoch A L data labels)
    (quiet (iris_on_epoch A L data labels))
    (fun a b k hab => iris_on_epoch_quiet A L data labels hab k)
    (network.Sim.of_built hb) printed train_data train_labels epochs_max
  cases e1 : network.train A L (some (iris_on_epoch A L data labels)) n printed
      train_data train_labels epochs_max with
  | throw w s =>
    rw [e1] at h
    obtain ⟨t, e2, ⟨hn, _, _⟩, henv, hep, hc⟩ := h.of_throw
    rw [e2]
    exact ⟨rfl, hn.learned, henv, hep, hc⟩
  | ok u s =>
    rw [e1] at h
    obtain ⟨t, e2, ⟨hn, _, _⟩, henv, hep, hc⟩ := h.of_ok
    rw [e2]
    exact ⟨rfl, hn.learned, henv, hep, hc⟩

/-- C21 at `sampleNet`, evaluated on the sample `[1, 1]` with label `0` and
trained on the same sample for two epochs. -/
theorem C21_evaluation_does_not_train_witness :
    2 ≤ [2, 1].length ∧ sampleNet.BuiltFrom [2, 1] ∧
    network.EvalFrame sampleNet (sampleNet.forward sampleActivation [1, 1]).state ∧
    network.EvalFrame sampleNet (sampleNet.test sampleActivation [[1, 1]] [0]).state ∧
    network.EvalFrame sampleNet
      (sampleNet.loss sampleActivation mse_loss [[1, 1]] [0]).state ∧
    network.EvalFrame sampleNet
      (sampleNet.loss_mean sampleActivation mse_loss [[1, 1]] [0]).state ∧
    network.EvalFrame sampleNet
      (iris_on_epoch sampleActivation mse_loss [[1, 1]] [0] sampleNet []).state.1 ∧
    Result.Rel
      (fun s t : train_state ℚ (List (ℚ × Option ℚ)) => network.SameLearned s.net t.net ∧
        t.env = s.env ∧ t.epochs = s.epochs ∧ t.calls = s.calls)
      (fun s t : train_state ℚ (List (ℚ × Option ℚ)) => network.SameLearned s.net t.net ∧
        t.env = s.env ∧ t.epochs = s.epochs ∧ t.calls = s.calls)
      (network.train sampleActivation mse_loss
        (some (iris_on_epoch sampleActivation mse_loss [[1, 1]] [0])) sampleNet []
        [[1, 1]] [0] 2)
      (network.train sampleActivation mse_loss
        (some (quiet (iris_on_epoch sampleActivation mse_loss [[1, 1]] [0]))) sampleNet []
        [[1, 1]] [0] 2) ∧
    ∀ s, network.train sampleActivation mse_loss
        (some (iris_on_epoch sampleActivation mse_loss [[1, 1]] [0])) sampleNet []
        [[1, 1]] [0] 2 = .ok () s →
      ∃ t, network.train sampleActivation mse_loss (none : Option (Callback ℚ (List (ℚ × Option ℚ))))
          sampleNet [] [[1, 1]] [0] s.epochs = .ok () t ∧ network.SameLearned s.net t.net :=
  ⟨by decide, by simp [network.BuiltFrom, sampleNet, LayersFit, sampleLayer, Layer.Shaped],
    C21_evaluation_does_not_train sampleActivation mse_loss [2, 1] sampleNet (by decide)
      (by simp [network.BuiltFrom, sampleNet, LayersFit, sampleLayer, Layer.Shaped])
      [1, 1] [[1, 1]] [0] [[1, 1]] [0] 2 []⟩

/-- C22: for a dimension list of length at least 2, the network that the
constructor returns has the shape of the list and all entries of `grad_weights`
and `grad_bias` of all layers zero; and from any state with that shape and zero
accumulators, `train` (for any dataset, labels and number of epochs, with no
callback or a callback that itself keeps shape and zero accumulators, and
whether it returns or throws), `test`, `loss` and `forward` leave a state with
zero accumulators.  Each pass of the inner loop of `train` keeps the two
properties, returning or throwing, and a pass that returns made one forward and
one backward pass on its sample and then updated from accumulators that hold
the terms of that sample alone: `grad_weights[o * input_size + i]` is
`input[i] * grad(o)`, `grad_bias[o]` is `grad(o)`, and the new weight and bias
are the old ones minus `alpha` times these. -/
theorem C22_accumulator_invariant (A : Activation α) (L : LossFunction α) (dims : List Nat)
    (h2 : 2 ≤ dims.length) (rnd : Nat → α) (on_epoch : Option (Callback α κ))
    (hcb : ∀ cb, on_epoch = some cb → ∀ (m : network α) (k : κ), m.BuiltFrom dims →
      m.ZeroAcc → (cb m k).state.1.BuiltFrom dims ∧ (cb m k).state.1.ZeroAcc)
    (n : network α) (hb : n.BuiltFrom dims) (hz : n.ZeroAcc) (env : κ)
    (data : List (List α)) (labels : List Nat) (epochs_max : Nat) (sample : List α) :
    (∃ m, network.new dims rnd = .ok m () ∧ m.BuiltFrom dims ∧ m.ZeroAcc) ∧
    (network.train A L on_epoch n env data labels epochs_max).state.net.BuiltFrom dims ∧
    (network.train A L on_epoch n env data labels epochs_max).state.net.ZeroAcc ∧
    (n.test A data labels).state.ZeroAcc ∧
    (n.loss A L data labels).state.ZeroAcc ∧
    (n.forward A sample).state.ZeroAcc ∧
    ∀ (s : train_state α κ) (row : List α) (label : Nat), s.net.BuiltFrom dims →
      s.net.ZeroAcc →
      (train_sample A L s row label).state.net.BuiltFrom dims ∧
      (train_sample A L s row label).state.net.ZeroAcc ∧
      ∀ s1, train_sample A L s row label = .ok () s1 →
        ∃ n1 n2, s.net.forward A row = .ok () n1 ∧ n1.backward A s1.error = .ok () n2 ∧
          s1.net = n2.update_weights ∧
          List.Forall₂ (fun l2 r : Layer α =>
            (∀ o i, o < l2.output_size → i < l2.input_size →
              vget l2.grad_weights (o * l2.input_size + i) = vget l2.input i * l2.grad A o ∧
              vget r.weights (o * l2.input_size + i)
                = vget l2.weights (o * l2.input_size + i)
                  - n2.alpha * (vget l2.input i * l2.grad A o)) ∧
            (∀ o, o < l2.output_size → vget l2.grad_bias o = l2.grad A o ∧
              vget r.bias o = vget l2.bias o - n2.alpha * l2.grad A o))
            n2.layers s1.net.layers := by
  refine ⟨?_, (network.train_zeroAcc A L dims h2 on_epoch hcb n env data labels epochs_max
      hb hz).1, (network.train_zeroAcc A L dims h2 on_epoch hcb n env data labels epochs_max
      hb hz).2, network.ZeroAcc.zero_of_frame (network.test_frame A n data labels) hz,
    network.ZeroAcc.zero_of_frame (network.loss_frame A L n data labels) hz,
    network.ZeroAcc.zero_of_frame (network.forward_frame A n sample) hz, ?_⟩
  · cases dims with
    | nil => simp at h2
    | cons i rest =>
      have e : network.new (i :: rest) rnd
          = .ok ({ layers := build_layers rnd i rest 0, alpha := 1 / 100 } : network α) () := rfl
      exact ⟨_, e, (network.new_built _ rnd _ e).1, network.new_zeroAcc _ rnd _ e⟩
  · intro s row label hbs hzs
    exact ⟨(train_sample_zeroAcc A L dims h2 s row label hbs hzs).1,
      (train_sample_zeroAcc A L dims h2 s row label hbs hzs).2,
      fun s1 h => train_sample_single_gradient A L dims h2 s s1 row label hbs hzs h⟩

/-- C22 at the network with the layer `sampleFreshLayer`, trained without a
callback for one epoch on two samples of which the second has a bad length, so
that `train` throws after one weight update. -/
theorem C22_accumulator_invariant_witness :
    2 ≤ [2, 1].length ∧ sampleFreshNet.BuiltFrom [2, 1] ∧ sampleFreshNet.ZeroAcc ∧
    (network.train sampleActivation mse_loss (none : Option (Callback ℚ Unit)) sampleFreshNet
      () [[1, 1], [1]] [0, 0] 1).failed = true ∧
    (network.train sampleActivation mse_loss (none : Option (Callback ℚ Unit)) sampleFreshNet
      () [[1, 1], [1]] [0, 0] 1).state.net.ZeroAcc ∧
    (sampleFreshNet.test sampleActivation [[1, 1], [1]] [0, 0]).state.ZeroAcc ∧
    (sampleFreshNet.loss sampleActivation mse_loss [[1, 1], [1]] [0, 0]).state.ZeroAcc ∧
    (sampleFreshNet.forward sampleActivation [1, 1]).state.ZeroAcc := by
  have hb : sampleFreshNet.BuiltFrom [2, 1] := by
    simp [network.BuiltFrom, sampleFreshNet, LayersFit, sampleFreshLayer, sampleLayer,
      Layer.Shaped]
  have hz : sampleFreshNet.ZeroAcc := by
    simp [network.ZeroAcc, Layer.ZeroAcc, sampleFreshNet, sampleFreshLayer, sampleLayer]
  obtain ⟨_, _, h3, h4, h5, h6, _⟩ := C22_accumulator_invariant sampleActivation mse_loss
    [2, 1] (by decide) (fun _ => (0 : ℚ)) (none : Option (Callback ℚ Unit))
    (fun cb h => by cases h) sampleFreshNet hb hz () [[1, 1], [1]] [0, 0] 1 [1, 1]
  exact ⟨by decide, hb, hz, rfl, h3, h4, h5, h6⟩

end frame_claims

end mlp
